import Mathlib

/-!
Verification development for the cbs-match weekly matching engine
(`api/app/services/matching.py`, `api/app/traits.py`,
`api/app/services/state_machine.py`, `api/app/services/survey_fingerprint.py`,
`api/app/services/survey_reconciliation.py`).

JSON values that flow through the Python code (trait dicts, survey
definitions, answers) are modelled by the inductive type `JVal`.
Python floats are modelled by `ℚ` (every JSON numeral is a finite decimal,
hence rational); the only irrational operation in the scored path,
`x ** 0.5` in `_vector_similarity`, is abstracted by an explicit square
root parameter `sqrtQ`, so every theorem below holds for every
implementation of the square root.
-/

namespace CbsMatch

/-- JSON-ish values as passed around by the Python code. -/
inductive JVal where
  | null : JVal
  | bool (b : Bool) : JVal
  | num (q : ℚ) : JVal
  | str (s : String) : JVal
  | arr (xs : List JVal) : JVal
  | obj (fields : List (String × JVal)) : JVal
deriving Repr

mutual

/-- Structural (Python `==`) equality on JSON values. -/
def JVal.beq : JVal → JVal → Bool
  | .null, .null => true
  | .bool a, .bool b => a == b
  | .num a, .num b => a == b
  | .str a, .str b => a == b
  | .arr xs, .arr ys => JVal.beqList xs ys
  | .obj fs, .obj gs => JVal.beqFields fs gs
  | _, _ => false

def JVal.beqList : List JVal → List JVal → Bool
  | [], [] => true
  | x :: xs, y :: ys => JVal.beq x y && JVal.beqList xs ys
  | _, _ => false

def JVal.beqFields : List (String × JVal) → List (String × JVal) → Bool
  | [], [] => true
  | (k, v) :: fs, (k', v') :: gs => k == k' && JVal.beq v v' && JVal.beqFields fs gs
  | _, _ => false

end

mutual

theorem JVal.beq_iff : ∀ a b : JVal, JVal.beq a b = true ↔ a = b
  | a, b => by
    cases a <;> cases b <;> simp [JVal.beq]
    case arr.arr xs ys => exact JVal.beqList_iff xs ys
    case obj.obj fs gs => exact JVal.beqFields_iff fs gs

theorem JVal.beqList_iff : ∀ xs ys : List JVal, JVal.beqList xs ys = true ↔ xs = ys
  | [], [] => by simp [JVal.beqList]
  | [], _ :: _ => by simp [JVal.beqList]
  | _ :: _, [] => by simp [JVal.beqList]
  | x :: xs, y :: ys => by
    simp [JVal.beqList, JVal.beq_iff x y, JVal.beqList_iff xs ys]

theorem JVal.beqFields_iff :
    ∀ fs gs : List (String × JVal), JVal.beqFields fs gs = true ↔ fs = gs
  | [], [] => by simp [JVal.beqFields]
  | [], _ :: _ => by simp [JVal.beqFields]
  | _ :: _, [] => by simp [JVal.beqFields]
  | (k, v) :: fs, (k', v') :: gs => by
    simp only [JVal.beqFields, Bool.and_eq_true, beq_iff_eq, JVal.beq_iff v v',
      JVal.beqFields_iff fs gs, List.cons.injEq, Prod.mk.injEq]

end

instance : DecidableEq JVal := fun a b => decidable_of_iff _ (JVal.beq_iff a b)

instance : BEq JVal := ⟨JVal.beq⟩

instance : LawfulBEq JVal where
  eq_of_beq h := (JVal.beq_iff _ _).mp h
  rfl := (JVal.beq_iff _ _).mpr rfl

namespace JVal

/-- Python truthiness of a JSON value (`bool(v)`). -/
def truthy : JVal → Bool
  | .null => false
  | .bool b => b
  | .num q => q != 0
  | .str s => s != ""
  | .arr xs => !xs.isEmpty
  | .obj fs => !fs.isEmpty

end JVal

/-- `a or b` on JSON values: Python returns `b` when `a` is falsy. -/
def pyOr (a b : JVal) : JVal := if a.truthy then a else b

/-- `d.get(k)` on a dict value: `None` when the key is absent or the value
is not a dict (the Python code only calls this on dicts). -/
def jGet (v : JVal) (k : String) : JVal :=
  match v with
  | .obj fs => match fs.lookup k with
    | some x => x
    | none => .null
  | _ => .null

/-- `k in d` on a dict value. -/
def jHas (v : JVal) (k : String) : Bool :=
  match v with
  | .obj fs => fs.any (fun p => p.1 == k)
  | _ => false

/-- Python `str.strip()` (whitespace at both ends). -/
def pyStrip (s : String) : String :=
  ⟨((s.data.dropWhile Char.isWhitespace).reverse.dropWhile Char.isWhitespace).reverse⟩

/-- Python `str.lower()` (ASCII case folding, which covers every string the
matching code compares against). -/
def pyLower (s : String) : String :=
  ⟨s.data.map Char.toLower⟩

/-- Digits of a decimal literal to a natural number. -/
def digitsToNat (cs : List Char) : ℕ :=
  cs.foldl (fun a c => a * 10 + (c.toNat - 48)) 0

/-- CPython `float(s)` on plain decimal literals: optional sign, digits,
optional fractional part (at least one digit overall).  Exponents and the
`inf`/`nan` spellings are not representable in `ℚ` and are out of scope of
every claim; they parse to `none` here. -/
def parseFloatQ (s : String) : Option ℚ :=
  let cs := s.data
  let signed : ℚ × List Char :=
    match cs with
    | '-' :: rest => (-1, rest)
    | '+' :: rest => (1, rest)
    | _ => (1, cs)
  let intPart := signed.2.takeWhile Char.isDigit
  let rest := signed.2.dropWhile Char.isDigit
  match rest with
  | [] =>
    if intPart.isEmpty then none
    else some (signed.1 * (digitsToNat intPart : ℚ))
  | '.' :: frac =>
    if frac.all Char.isDigit && !(intPart.isEmpty && frac.isEmpty) then
      some (signed.1 * ((digitsToNat intPart : ℚ)
        + (digitsToNat frac : ℚ) / ((10 : ℚ) ^ frac.length)))
    else none
  | _ => none

/-- `_to_float(value, default)` from `matching.py`: `None` and everything
that `float()` rejects fall back to the default.  `float()` strips
whitespace from strings, accepts bools as 0/1 and raises (hence defaults)
on lists and dicts. -/
def toFloat (v : JVal) (default : ℚ) : ℚ :=
  match v with
  | .null => default
  | .num q => q
  | .bool b => if b then 1 else 0
  | .str s => (parseFloatQ (pyStrip s)).getD default
  | _ => default

/-- Python `str(v)`.  Only equality with fixed enumeration strings
("yes", "man", …) is ever observed by the code under verification, and
the renderings chosen for non-string values never coincide with those
enumerations (Python renders numbers with digits and containers with
brackets). -/
def pyStr : JVal → String
  | .null => "None"
  | .bool b => if b then "True" else "False"
  | .num q => "num:" ++ toString q
  | .str s => s
  | .arr _ => "[list]"
  | .obj _ => "[dict]"

/-- `_normalize_gender` from `matching.py`. -/
def normalizeGender (v : JVal) : Option String :=
  match v with
  | .null => none
  | _ =>
    let s := pyLower (pyStrip (pyStr v))
    if s = "" then none else some s

/-- `_parse_seeking` from `matching.py`: non-lists parse to the empty set. -/
def parseSeeking (v : JVal) : List String :=
  match v with
  | .arr xs => xs.filterMap normalizeGender
  | _ => []

/-- One eligible user as assembled by `fetch_eligible_users`. -/
structure User where
  user_id : String
  traits : JVal
  gender_identity : JVal
  seeking_genders : JVal
deriving Repr, DecidableEq

/-- `_gender_preference_compatible` from `matching.py`. -/
def genderPreferenceCompatible (u v : User) : Bool :=
  match normalizeGender u.gender_identity, normalizeGender v.gender_identity with
  | some ug, some vg =>
    let us := parseSeeking u.seeking_genders
    let vs := parseSeeking v.seeking_genders
    !us.isEmpty && !vs.isEmpty && us.contains vg && vs.contains ug
  | _, _ => false

/-- `canonical_pair` from `matching.py`: the sorted tuple. -/
def canonicalPair (a b : String) : String × String :=
  if a ≤ b then (a, b) else (b, a)

/-- `_kids_hard_mismatch` from `matching.py`. -/
def kidsHardMismatch (k1 k2 : String) : Bool :=
  if k1 = "" || k2 = "" then false
  else if k1 = "unsure" || k2 = "unsure" then false
  else
    (["yes", "probably"].contains k1 && ["no", "probably_not"].contains k2)
      || (["yes", "probably"].contains k2 && ["no", "probably_not"].contains k1)

/-- `_sim` from `matching.py`. -/
def sim (a b : ℚ) : ℚ := max 0 (1 - |a - b|)

/-- `_comp` from `matching.py`. -/
def comp (a b : ℚ) (targetSum : ℚ := 1) (extremePenaltyThreshold : ℚ := 3/4) : ℚ :=
  if |a - b| > extremePenaltyThreshold then max 0 (1 - |a + b - targetSum|) * (3/4)
  else max 0 (1 - |a + b - targetSum|)

/-- `_dim` from `matching.py`. -/
def dimOf (traits : JVal) (key : String) (default : ℚ := 1/2) : ℚ :=
  toFloat (jGet (pyOr (jGet traits "dimensions") (.obj [])) key) default

/-- `_life` from `matching.py`. -/
def lifeGet (traits : JVal) (key : String) (default : JVal) : JVal :=
  let life := pyOr (jGet traits "life") (.obj [])
  if jHas life key then jGet life key
  else
    let legacy := pyOr (jGet traits "life_constraints") (.obj [])
    if key = "kids_intent" then
      if jHas legacy "kids_preference" then jGet legacy "kids_preference" else default
    else if key = "kids_timeline" then
      if jHas legacy "kids_timeline" then jGet legacy "kids_timeline" else default
    else default

/-- `_vector_similarity` from `matching.py`; `sqrtQ` abstracts `** 0.5`. -/
def vectorSimilarity (sqrtQ : ℚ → ℚ) (a b : List ℚ) : ℚ :=
  if a.isEmpty || b.isEmpty || a.length != b.length then 0
  else max 0 (1 - sqrtQ (((a.zip b).map (fun p => (p.1 - p.2) ^ 2)).sum) / sqrtQ (a.length : ℚ))

/-- Scoring configuration: `cfg.get(key, default)` over a float dict. -/
def Cfg : Type := List (String × ℚ)

def cfgGet (cfg : Cfg) (k : String) (d : ℚ) : ℚ :=
  ((cfg : List (String × ℚ)).lookup k).getD d

/-- `round(x, 6)` on floats, modelled as exact rounding of the rational. -/
def round6 (q : ℚ) : ℚ := ((round (q * 1000000) : ℤ) : ℚ) / 1000000

/-- The keys of `_modifier_penalty`'s mapping, in source order. -/
def modMapping : List (String × String) :=
  [("marriage", "LA_MARRIAGE_01"), ("nyc", "LA_LOC_01"),
   ("career_intensity", "LA_CAREER_01"), ("faith", "LA_FAITH_01"),
   ("social_lifestyle", "LA_LIFESTYLE_01")]

/-- The life-preference value read by `_modifier_penalty` for one axis. -/
def modPref (traits : JVal) (lifeKey : String) : ℚ :=
  toFloat (jGet (pyOr (jGet traits "life_preferences") (.obj [])) lifeKey) (1/2)

/-- The `importance`/`flexibility` reading of `_modifier_penalty`. -/
def modField (traits : JVal) (modKey field : String) : ℚ :=
  toFloat (jGet (pyOr (jGet (pyOr (jGet traits "modifiers") (.obj [])) modKey) (.obj [])) field) (1/2)

/-- The survival factor `1 - penalty` contributed by one axis of
`_modifier_penalty`'s loop. -/
def modFactor (uTraits vTraits : JVal) (scale cap : ℚ) (kv : String × String) : ℚ :=
  max 0 (1 - min cap (max 0 (|modPref uTraits kv.2 - modPref vTraits kv.2|
    * ((modField uTraits kv.1 "importance" + modField vTraits kv.1 "importance") / 2)
    * (1 - (modField uTraits kv.1 "flexibility" + modField vTraits kv.1 "flexibility") / 2)
    * scale)))

/-- One step of `_modifier_penalty`'s loop body. -/
def modifierStep (uTraits vTraits : JVal) (scale cap : ℚ)
    (acc : ℚ × List (String × ℚ)) (kv : String × String) : ℚ × List (String × ℚ) :=
  (acc.1 * modFactor uTraits vTraits scale cap kv,
   acc.2 ++ [(kv.1, round6 (modFactor uTraits vTraits scale cap kv))])

/-- `_modifier_penalty` from `matching.py`. -/
def modifierPenalty (uTraits vTraits : JVal) (cfg : Cfg) : ℚ × List (String × ℚ) :=
  (round6 (max 0 (min 1 (modMapping.foldl (modifierStep uTraits vTraits
      (cfgGet cfg "modifier_penalty_scale" (35/100))
      (cfgGet cfg "modifier_penalty_cap" (6/10))) (1, [])).1)),
   (modMapping.foldl (modifierStep uTraits vTraits
      (cfgGet cfg "modifier_penalty_scale" (35/100))
      (cfgGet cfg "modifier_penalty_cap" (6/10))) (1, [])).2)

/-- Result of `compute_compatibility`.  The `categories`/`components`
sub-dicts of `score_breakdown` are fixed rational recombinations of the
same component values that enter `score_total`; no claim mentions them,
so the result record carries the gate flag, the gate list, the penalty
labels (in application order) and the total. -/
structure CompatResult where
  score_total : ℚ
  kids_hard_check : Bool
  gates : List String
  penalties : List String
deriving Repr, DecidableEq

/-- The kids intent read by `compute_compatibility`:
`str(_life(traits, "kids_intent", "unsure"))`. -/
def kidsIntentOf (traits : JVal) : String :=
  pyStr (lifeGet traits "kids_intent" (.str "unsure"))

/-- The five-component big-five vector of the legacy scoring path. -/
def big5Vec (traits : JVal) : List ℚ :=
  let b := pyOr (jGet traits "big5") (.obj [])
  [toFloat (jGet b "openness") (1/2), toFloat (jGet b "conscientiousness") (1/2),
   toFloat (jGet b "extraversion") (1/2), toFloat (jGet b "agreeableness") (1/2),
   toFloat (jGet b "neuroticism") (1/2)]

/-- The conflict vector of the legacy scoring path. -/
def conflictVec (traits : JVal) : List ℚ :=
  let c := pyOr (jGet traits "conflict_repair") (.obj [])
  [toFloat (jGet c "repair_willingness") (1/2), toFloat (jGet c "escalation") (1/2),
   toFloat (jGet c "cooldown_need") (1/2), toFloat (jGet c "grudge_tendency") (1/2)]

/-- `base_score` of the legacy v1/v2 branch of `compute_compatibility`. -/
def legacyBaseScore (sqrtQ : ℚ → ℚ) (u v : JVal) (cfg : Cfg) : ℚ :=
  cfgGet cfg "big5_weight" (7/10) * vectorSimilarity sqrtQ (big5Vec u) (big5Vec v)
    + cfgGet cfg "conflict_weight" (3/10) * vectorSimilarity sqrtQ (conflictVec u) (conflictVec v)

/-- Legacy v1/v2 branch of `compute_compatibility` (both traits lack
`dimensions`). -/
def legacyScore (sqrtQ : ℚ → ℚ) (u v : JVal) (cfg : Cfg) : CompatResult :=
  { score_total := round6 (max 0 (min 1 (legacyBaseScore sqrtQ u v cfg * (modifierPenalty u v cfg).1))),
    kids_hard_check := true, gates := [], penalties := [] }

/-- `reassurance_vs_independence` of the current scoring path. -/
def reassuranceVsIndependence (u v : JVal) : ℚ :=
  (comp (dimOf u "reassurance_need") (dimOf v "independence_need")
    + comp (dimOf v "reassurance_need") (dimOf u "independence_need")) / 2

/-- `approach_withdrawal` of the current scoring path. -/
def approachWithdrawal (u v : JVal) : ℚ :=
  (comp (dimOf u "approach") (dimOf v "withdrawal")
    + comp (dimOf v "approach") (dimOf u "withdrawal")) / 2

/-- The weighted blend (`total` before penalties) of the current scoring
path, with the weights of `compute_compatibility`. -/
def blendTotal (u v : JVal) : ℚ :=
  22/100 * sim (dimOf u "worldview_alignment") (dimOf v "worldview_alignment")
  + 12/100 * sim (dimOf u "stability") (dimOf v "stability")
  + 10/100 * reassuranceVsIndependence u v
  + 6/100 * sim (dimOf u "text_sensitivity") (dimOf v "text_sensitivity")
  + 3/100 * sim (dimOf u "drama_avoidance") (dimOf v "drama_avoidance")
  + 3/100 * sim (dimOf u "testing_behavior") (dimOf v "testing_behavior")
  + 8/100 * approachWithdrawal u v
  + 8/100 * (1 - max (dimOf u "escalation") (dimOf v "escalation"))
  + 4/100 * sim (dimOf u "repair_belief") (dimOf v "repair_belief")
  + 4/100 * sim (dimOf u "structure") (dimOf v "structure")
  + 6/100 * comp (dimOf u "extraversion") (dimOf v "extraversion")
  + 6/100 * comp (dimOf u "conscientiousness") (dimOf v "conscientiousness")
  + 3/100 * sim (dimOf u "relocation_openness") (dimOf v "relocation_openness")
  + 3/100 * sim (dimOf u "career_intensity") (dimOf v "career_intensity")
  + 2/100 * sim (dimOf u "define_intentions_early") (dimOf v "define_intentions_early")

/-- First multiplicative penalty of the current scoring path
(`two_escalators`), applied to a running `(total, labels)` pair. -/
def penStep1 (u v : JVal) (cfg : Cfg) (s : ℚ × List String) : ℚ × List String :=
  if dimOf u "escalation" > cfgGet cfg "ESCALATION_PENALTY_THRESHOLD" (7/10)
      ∧ dimOf v "escalation" > cfgGet cfg "ESCALATION_PENALTY_THRESHOLD" (7/10) then
    (s.1 * cfgGet cfg "ESCALATION_PENALTY_MULTIPLIER" (3/4), s.2 ++ ["two_escalators"])
  else s

/-- Second multiplicative penalty (`two_withdrawers`). -/
def penStep2 (u v : JVal) (cfg : Cfg) (s : ℚ × List String) : ℚ × List String :=
  if dimOf u "withdrawal" > cfgGet cfg "WITHDRAWAL_PENALTY_THRESHOLD" (7/10)
      ∧ dimOf v "withdrawal" > cfgGet cfg "WITHDRAWAL_PENALTY_THRESHOLD" (7/10) then
    (s.1 * cfgGet cfg "WITHDRAWAL_PENALTY_MULTIPLIER" (17/20), s.2 ++ ["two_withdrawers"])
  else s

/-- Third multiplicative penalty (`reassurance_independence_u_to_v`). -/
def penStep3 (u v : JVal) (cfg : Cfg) (s : ℚ × List String) : ℚ × List String :=
  if dimOf u "reassurance_need" > 4/5 ∧ dimOf v "independence_need" > 4/5 then
    (s.1 * cfgGet cfg "MISMATCH_PENALTY_MULTIPLIER" (4/5), s.2 ++ ["reassurance_independence_u_to_v"])
  else s

/-- Fourth multiplicative penalty (`reassurance_independence_v_to_u`). -/
def penStep4 (u v : JVal) (cfg : Cfg) (s : ℚ × List String) : ℚ × List String :=
  if dimOf v "reassurance_need" > 4/5 ∧ dimOf u "independence_need" > 4/5 then
    (s.1 * cfgGet cfg "MISMATCH_PENALTY_MULTIPLIER" (4/5), s.2 ++ ["reassurance_independence_v_to_u"])
  else s

/-- The four multiplicative penalties of the current scoring path, applied
in source order to the blended total; returns the final total together
with the labels of the penalties that fired. -/
def applyPenalties (u v : JVal) (cfg : Cfg) (total0 : ℚ) : ℚ × List String :=
  penStep4 u v cfg (penStep3 u v cfg (penStep2 u v cfg (penStep1 u v cfg (total0, []))))

/-- Current (v3) branch of `compute_compatibility`. -/
def currentScore (u v : JVal) (cfg : Cfg) : CompatResult :=
  { score_total := round6 (max 0 (min 1 (applyPenalties u v cfg (blendTotal u v)).1)),
    kids_hard_check := true, gates := [],
    penalties := (applyPenalties u v cfg (blendTotal u v)).2 }

/-- `compute_compatibility` from `matching.py`.  `sqrtQ` abstracts the
floating square root of the legacy `_vector_similarity` branch. -/
def computeCompatibility (sqrtQ : ℚ → ℚ) (u v : JVal) (cfg : Cfg) : CompatResult :=
  if kidsHardMismatch (kidsIntentOf u) (kidsIntentOf v) then
    { score_total := 0, kids_hard_check := false,
      gates := ["kids_hard_conflict"], penalties := [] }
  else if dimOf u "escalation" > cfgGet cfg "ESCALATION_GATE" (95/100)
      ∧ dimOf v "escalation" > cfgGet cfg "ESCALATION_GATE" (95/100) then
    { score_total := 0, kids_hard_check := true,
      gates := ["safety_escalation_gate"], penalties := [] }
  else if jHas u "dimensions" = false ∧ jHas v "dimensions" = false then
    legacyScore sqrtQ u v cfg
  else
    currentScore u v cfg

/-- `transition_status` from `state_machine.py`.  Timestamps are modelled
as integers; only their order is ever observed. -/
def transitionStatus (current action : String) (now expiresAt : ℤ) : String :=
  if current = "no_match" then "no_match"
  else if (current = "proposed" ∨ current = "revealed") ∧ now ≥ expiresAt then "expired"
  else if action = "view" then
    if current = "proposed" then "revealed" else current
  else if action = "accept" then
    if current = "revealed" then "accepted"
    else if current = "accepted" then "accepted"
    else current
  else if action = "decline" then
    if current = "revealed" then "declined"
    else if current = "declined" then "declined"
    else current
  else if action = "expire" then
    if current = "proposed" ∨ current = "revealed" then "expired" else current
  else current

/-- The `MatchCandidate` dataclass of `matching.py`; `score_breakdown`
carries the fields of the breakdown used by any claim. -/
structure MatchCandidate where
  user_id : String
  matched_user_id : String
  score_total : ℚ
  score_breakdown : CompatResult
deriving Repr, DecidableEq

/-- The ordered pairs `(users[i], users[j])` with `i < j`, exactly as the
double loop of `build_candidate_pairs` enumerates them. -/
def pairsOf : List User → List (User × User)
  | [] => []
  | u :: rest => rest.map (fun v => (u, v)) ++ pairsOf rest

/-- `build_candidate_pairs` from `matching.py`. -/
def buildCandidatePairs (sqrtQ : ℚ → ℚ) (users : List User) (cfg : Cfg)
    (recentPairs blockedPairs : List (String × String)) : List MatchCandidate :=
  (pairsOf users).filterMap (fun uv =>
    if canonicalPair uv.1.user_id uv.2.user_id ∈ recentPairs then none
    else if canonicalPair uv.1.user_id uv.2.user_id ∈ blockedPairs then none
    else if genderPreferenceCompatible uv.1 uv.2 = false then none
    else some
      { user_id := uv.1.user_id, matched_user_id := uv.2.user_id,
        score_total := (computeCompatibility sqrtQ uv.1.traits uv.2.traits cfg).score_total,
        score_breakdown := computeCompatibility sqrtQ uv.1.traits uv.2.traits cfg })

/-! ### Stable matching engine (`_build_preference_lists`,
`_stable_bipartite_match`, `_stable_general_match`, `stable_match`,
`create_weekly_assignments`).

Python dicts are modelled as association lists with insertion order:
assignment to an existing key replaces its value in place, assignment to
a fresh key appends at the end.  `_stable_hash_eps` is a deterministic
SHA-256-derived offset in `[0, 1e-6)`; it is abstracted by a tie-break
parameter `eps`, so every theorem holds for every offset function. -/

/-- Python dict assignment `d[k] = v` on an ordered association list. -/
def updAssoc {κ α : Type} [BEq κ] (l : List (κ × α)) (k : κ) (v : α) : List (κ × α) :=
  match l with
  | [] => [(k, v)]
  | (k', v') :: t => if k' == k then (k', v) :: t else (k', v') :: updAssoc t k v

/-- `by_user[key].append(x)` of `_build_preference_lists`: append to the
list held at an existing key (the key is always present there, because
`by_user` is seeded with every pool user). -/
def appendEntry {α : Type} (l : List (String × List α)) (k : String) (x : α) :
    List (String × List α) :=
  match l with
  | [] => []
  | (k', v') :: t => if k' == k then (k', v' ++ [x]) :: t else (k', v') :: appendEntry t k x

/-- The sort of `_build_preference_lists`:
`vals.sort(key=lambda x: (-x[1], x[0]))`. -/
def sortPrefEntries (vals : List (String × ℚ)) : List (String × ℚ) :=
  vals.mergeSort (fun a b => a.2 > b.2 || (a.2 == b.2 && a.1 ≤ b.1))

/-- One pair-insertion step of `_build_preference_lists`. -/
def prefStep (minScore : ℚ) (eps : String → String → ℚ)
    (acc : List (String × List (String × ℚ))) (p : MatchCandidate) :
    List (String × List (String × ℚ)) :=
  if p.score_total < minScore then acc
  else
    appendEntry
      (appendEntry acc p.user_id
        (p.matched_user_id, p.score_total + eps p.user_id p.matched_user_id))
      p.matched_user_id
      (p.user_id, p.score_total + eps p.user_id p.matched_user_id)

/-- `_build_preference_lists` from `matching.py`. -/
def buildPreferenceLists (users : List User) (pairs : List MatchCandidate)
    (minScore : ℚ) (topK : ℕ) (eps : String → String → ℚ) :
    List (String × List String) :=
  ((pairs.foldl (prefStep minScore eps) (users.map (fun u => (u.user_id, [])))).map
    (fun kv => (kv.1, ((sortPrefEntries kv.2).take topK).map Prod.fst)))

/-- `prefs.get(uid, [])`. -/
def prefList (prefs : List (String × List String)) (uid : String) : List String :=
  (prefs.lookup uid).getD []

/-- `_is_bipartite_hetero_pool` from `matching.py`: every user is a `man`
seeking exactly `{woman}` or a `woman` seeking exactly `{man}`. -/
def isBipartiteHeteroPool (users : List User) : Bool :=
  users.all (fun u =>
    match normalizeGender u.gender_identity with
    | some "man" =>
      !(parseSeeking u.seeking_genders).isEmpty
        && (parseSeeking u.seeking_genders).all (fun g => g == "woman")
    | some "woman" =>
      !(parseSeeking u.seeking_genders).isEmpty
        && (parseSeeking u.seeking_genders).all (fun g => g == "man")
    | _ => false)

/-- The men of the pool, in pool order. -/
def menOf (users : List User) : List String :=
  users.filterMap (fun u =>
    if normalizeGender u.gender_identity = some "man" then some u.user_id else none)

/-- The women of the pool, in pool order. -/
def womenOf (users : List User) : List String :=
  users.filterMap (fun u =>
    if normalizeGender u.gender_identity = some "woman" then some u.user_id else none)

/-- Index of the last occurrence of `x` (Python's
`{m: i for i, m in enumerate(l)}` keeps the last index). -/
def lastIdx : List String → String → ℕ → Option ℕ
  | [], _, _ => none
  | y :: t, x, i =>
    match lastIdx t x (i + 1) with
    | some j => some j
    | none => if y = x then some i else none

/-- `women_rank[w].get(m, 10**9)` of `_stable_bipartite_match`. -/
def womenRank (pl : List String) (x : String) : ℕ :=
  (lastIdx pl x 0).getD (10 ^ 9)

/-- State of the deferred-acceptance loop of `_stable_bipartite_match`:
the queue of free men, each man's remaining preference suffix
(`next_idx[m]` is represented by the still-unproposed suffix of
`prefs[m]`), and the ordered `engaged_to` dict (woman → man). -/
structure BState where
  free : List String
  todo : List (String × List String)
  engaged : List (String × String)
deriving Repr, DecidableEq

/-- Total number of remaining proposals in a `todo` table. -/
def sumRem (l : List (String × List String)) : ℕ :=
  (l.map (fun p => p.2.length)).sum

/-- Termination measure of the proposal loop: total remaining proposals
plus the length of the free queue. -/
def gsMeasure (s : BState) : ℕ :=
  sumRem s.todo + s.free.length

theorem sum_todo_updAssoc (l : List (String × List String)) (k : String)
    (ws : List String) (v : List String) (h : l.lookup k = some v) :
    sumRem (updAssoc l k ws) + v.length = sumRem l + ws.length := by
  induction l with
  | nil => simp [List.lookup] at h
  | cons hd t ih =>
    obtain ⟨k', v'⟩ := hd
    by_cases hk : k' = k
    · subst hk
      simp only [List.lookup_cons, beq_self_eq_true, if_true, reduceIte] at h
      obtain rfl := Option.some.inj h
      simp [updAssoc, sumRem]
      ring
    · have hk2 : (k == k') = false := by
        simp [beq_eq_false_iff_ne]
        exact fun hc => hk hc.symm
      simp only [List.lookup_cons, hk2, Bool.false_eq_true, if_false, reduceIte] at h
      have hk3 : (k' == k) = false := by
        simp [beq_eq_false_iff_ne, hk]
      simp only [updAssoc, hk3, Bool.false_eq_true, if_false, reduceIte, sumRem,
        List.map_cons, List.sum_cons]
      have := ih h
      simp only [sumRem] at this
      omega

/-- The proposal loop of `_stable_bipartite_match` (`while free: ...`). -/
def gsRun (prefs : List (String × List String)) (women : List String) :
    BState → List (String × String)
  | ⟨[], _, engaged⟩ => engaged
  | ⟨m :: rest, todo, engaged⟩ =>
    match h : todo.lookup m with
    | none => gsRun prefs women ⟨rest, todo, engaged⟩
    | some [] => gsRun prefs women ⟨rest, todo, engaged⟩
    | some (w :: ws) =>
      if w ∈ women then
        match engaged.lookup w with
        | none => gsRun prefs women ⟨rest, updAssoc todo m ws, updAssoc engaged w m⟩
        | some current =>
          if womenRank (prefList prefs w) m < womenRank (prefList prefs w) current then
            gsRun prefs women ⟨rest ++ [current], updAssoc todo m ws, updAssoc engaged w m⟩
          else
            gsRun prefs women ⟨rest ++ [m], updAssoc todo m ws, engaged⟩
      else gsRun prefs women ⟨rest ++ [m], updAssoc todo m ws, engaged⟩
termination_by s => gsMeasure s
decreasing_by
  · simp only [gsMeasure, List.length_cons]; omega
  · simp only [gsMeasure, List.length_cons]; omega
  · have hlen := sum_todo_updAssoc todo m ws (w :: ws) h
    simp only [List.length_cons] at hlen
    simp only [gsMeasure, List.length_cons]
    omega
  · have hlen := sum_todo_updAssoc todo m ws (w :: ws) h
    simp only [List.length_cons] at hlen
    simp only [gsMeasure, List.length_cons, List.length_append, List.length_nil]
    omega
  · have hlen := sum_todo_updAssoc todo m ws (w :: ws) h
    simp only [List.length_cons] at hlen
    simp only [gsMeasure, List.length_cons, List.length_append, List.length_nil]
    omega
  · have hlen := sum_todo_updAssoc todo m ws (w :: ws) h
    simp only [List.length_cons] at hlen
    simp only [gsMeasure, List.length_cons, List.length_append, List.length_nil]
    omega

/-- `_stable_bipartite_match` from `matching.py`. -/
def stableBipartiteMatch (users : List User) (prefs : List (String × List String)) :
    List (String × String) :=
  (gsRun prefs (womenOf users)
    ⟨menOf users, (menOf users).map (fun m => (m, prefList prefs m)), []⟩).map
    (fun p => (p.2, p.1))

/-- `rank(of_user, candidate)` of `_stable_general_match`:
`pl.index(candidate)` (first occurrence) or `10**9`. -/
def rankOf (pl : List String) (c : String) : ℕ :=
  if c ∈ pl then pl.indexOf c else 10 ^ 9

/-- State of `_stable_general_match`'s proposal rounds: each user's
remaining preference suffix (`next_idx`) and the `held_by` dict
(accepter → best proposer so far). -/
structure GState where
  rem : List (String × List String)
  held : List (String × String)
deriving Repr, DecidableEq

/-- One proposal by one user in `_stable_general_match`'s round; the flag
reports whether a proposal was made (`active`). -/
def gPropose (prefs : List (String × List String)) (s : GState) (proposer : String) :
    GState × Bool :=
  match s.rem.lookup proposer with
  | none => (s, false)
  | some [] => (s, false)
  | some (target :: rest) =>
    match s.held.lookup target with
    | none => (⟨updAssoc s.rem proposer rest, updAssoc s.held target proposer⟩, true)
    | some current =>
      if rankOf (prefList prefs target) proposer < rankOf (prefList prefs target) current then
        (⟨updAssoc s.rem proposer rest, updAssoc s.held target proposer⟩, true)
      else (⟨updAssoc s.rem proposer rest, s.held⟩, true)

/-- One step of the pass fold: run one proposal, accumulate the flag. -/
def gPassStep (prefs : List (String × List String)) (acc : GState × Bool)
    (p : String) : GState × Bool :=
  ((gPropose prefs acc.1 p).1, acc.2 || (gPropose prefs acc.1 p).2)

/-- One full pass (`for proposer in sorted(list(unmatched))`). -/
def gPass (prefs : List (String × List String)) (order : List String) (s : GState) :
    GState × Bool :=
  order.foldl (gPassStep prefs) (s, false)

theorem gPropose_false_eq (prefs : List (String × List String)) (s : GState)
    (p : String) (h : (gPropose prefs s p).2 = false) : (gPropose prefs s p).1 = s := by
  revert h
  unfold gPropose
  split
  · intro _; rfl
  · intro _; rfl
  · split
    · intro h; cases h
    · split
      · intro h; cases h
      · intro h; cases h

theorem sumRem_gPropose (prefs : List (String × List String)) (s : GState) (p : String) :
    sumRem (gPropose prefs s p).1.rem + ((gPropose prefs s p).2.toNat) = sumRem s.rem := by
  unfold gPropose
  split
  · rfl
  · rfl
  · rename_i l target rest hl
    have hlen := sum_todo_updAssoc s.rem p rest (target :: rest) hl
    simp only [List.length_cons] at hlen
    split
    · simp only [Bool.toNat_true]
      omega
    · split
      · simp only [Bool.toNat_true]
        omega
      · simp only [Bool.toNat_true]
        omega

theorem gPass_fold_spec (prefs : List (String × List String)) :
    ∀ (order : List String) (s : GState) (b : Bool),
      sumRem (order.foldl (gPassStep prefs) (s, b)).1.rem ≤ sumRem s.rem
      ∧ (b = true → (order.foldl (gPassStep prefs) (s, b)).2 = true)
      ∧ (b = false → (order.foldl (gPassStep prefs) (s, b)).2 = false →
          (order.foldl (gPassStep prefs) (s, b)).1 = s)
      ∧ (b = false → (order.foldl (gPassStep prefs) (s, b)).2 = true →
          sumRem (order.foldl (gPassStep prefs) (s, b)).1.rem < sumRem s.rem) := by
  intro order
  induction order with
  | nil =>
    intro s b
    refine ⟨le_refl _, fun h => h, fun _ _ => rfl, fun hb ht => ?_⟩
    simp only [List.foldl_nil] at ht
    rw [hb] at ht
    cases ht
  | cons p rest ih =>
    intro s b
    have hone := sumRem_gPropose prefs s p
    have hstep : (p :: rest).foldl (gPassStep prefs) (s, b)
        = rest.foldl (gPassStep prefs) ((gPropose prefs s p).1, b || (gPropose prefs s p).2) := by
      simp [gPassStep]
    refine ⟨?_, ?_, ?_, ?_⟩
    · rw [hstep]
      exact le_trans (ih (gPropose prefs s p).1 (b || (gPropose prefs s p).2)).1 (by omega)
    · intro hb
      rw [hstep]
      apply (ih (gPropose prefs s p).1 (b || (gPropose prefs s p).2)).2.1
      rw [hb, Bool.true_or]
    · intro hb hf
      subst hb
      rw [hstep] at hf ⊢
      simp only [Bool.false_or] at hf ⊢
      cases hgg : (gPropose prefs s p).2 with
      | false =>
        rw [hgg] at hf
        rw [(ih (gPropose prefs s p).1 false).2.2.1 rfl hf]
        exact gPropose_false_eq prefs s p hgg
      | true =>
        rw [hgg] at hf
        rw [(ih (gPropose prefs s p).1 true).2.1 rfl] at hf
        cases hf
    · intro hb ht
      subst hb
      rw [hstep] at ht ⊢
      simp only [Bool.false_or] at ht ⊢
      cases hgg : (gPropose prefs s p).2 with
      | false =>
        rw [hgg] at ht
        rw [gPropose_false_eq prefs s p hgg] at ht ⊢
        exact (ih s false).2.2.2 rfl ht
      | true =>
        rw [hgg] at hone
        simp only [Bool.toNat_true] at hone
        exact lt_of_le_of_lt (ih (gPropose prefs s p).1 true).1 (by omega)

/-- The outer `while active:` loop of `_stable_general_match`. -/
def gLoop (prefs : List (String × List String)) (order : List String) (s : GState) :
    GState :=
  if h : (gPass prefs order s).2 = true then gLoop prefs order (gPass prefs order s).1
  else (gPass prefs order s).1
termination_by sumRem s.rem
decreasing_by
  exact (gPass_fold_spec prefs order s false).2.2.2 rfl h

/-- The mutual-acceptance selection of `_stable_general_match`
(`for target in sorted(held_by.keys()): ...`), folding a `(used, pairs)`
accumulator. -/
def selectStep (prefs : List (String × List String)) (held : List (String × String))
    (acc : List String × List (String × String)) (target : String) :
    List String × List (String × String) :=
  match held.lookup target with
  | none => acc
  | some proposer =>
    if proposer ∈ acc.1 ∨ target ∈ acc.1 then acc
    else if held.lookup proposer = some target ∨ target ∈ prefList prefs proposer then
      (acc.1 ++ [proposer, target], acc.2 ++ [canonicalPair proposer target])
    else acc

/-- `sorted(l)` on strings. -/
def sortStrings (l : List String) : List String :=
  l.mergeSort (fun a b => a ≤ b)

/-- `sorted(set(pairs))` on string pairs (lexicographic). -/
def sortPairs (l : List (String × String)) : List (String × String) :=
  l.dedup.mergeSort (fun a b => a.1 < b.1 || (a.1 == b.1 && a.2 ≤ b.2))

/-- `_stable_general_match` from `matching.py`. -/
def stableGeneralMatch (users : List User) (prefs : List (String × List String)) :
    List (String × String) :=
  sortPairs
    ((sortStrings ((gLoop prefs (sortStrings ((users.map (fun u => u.user_id)).dedup))
        ⟨(sortStrings ((users.map (fun u => u.user_id)).dedup)).map
            (fun uid => (uid, prefList prefs uid)), []⟩).held.map Prod.fst)).foldl
      (selectStep prefs
        (gLoop prefs (sortStrings ((users.map (fun u => u.user_id)).dedup))
          ⟨(sortStrings ((users.map (fun u => u.user_id)).dedup)).map
              (fun uid => (uid, prefList prefs uid)), []⟩).held)
      ([], [])).2

/-- The `pair_map` of `stable_match`: canonical pair → candidate
(last candidate wins, as in a Python dict comprehension). -/
def pairMapOf (pairs : List MatchCandidate) : List ((String × String) × MatchCandidate) :=
  pairs.foldl (fun acc p => updAssoc acc (canonicalPair p.user_id p.matched_user_id) p) []

/-- The final sort of `stable_match`:
`assignments.sort(key=lambda x: (-x.score_total, x.user_id, x.matched_user_id))`. -/
def sortAssignments (l : List MatchCandidate) : List MatchCandidate :=
  l.mergeSort (fun a b =>
    a.score_total > b.score_total
      || (a.score_total == b.score_total
          && (a.user_id < b.user_id
              || (a.user_id == b.user_id && a.matched_user_id ≤ b.matched_user_id))))

/-- `stable_match` from `matching.py`. -/
def stableMatch (users : List User) (pairs : List MatchCandidate) (minScore : ℚ)
    (topK : ℕ) (mode : String) (eps : String → String → ℚ) : List MatchCandidate :=
  sortAssignments
    ((if mode = "stable_bipartite_if_possible" ∧ isBipartiteHeteroPool users = true then
        stableBipartiteMatch users (buildPreferenceLists users pairs minScore topK eps)
      else
        stableGeneralMatch users (buildPreferenceLists users pairs minScore topK eps)).filterMap
      (fun ab =>
        match (pairMapOf pairs).lookup (canonicalPair ab.1 ab.2) with
        | none => none
        | some p => if p.score_total < minScore then none else some p))

/-- One `weekly_match_assignment` row (for a fixed week; the
`(week_start_date, user_id)` conflict key reduces to `user_id`). -/
structure AssignmentRow where
  user_id : String
  matched_user_id : Option String
  score_total : Option ℚ
  status : String
deriving Repr, DecidableEq

/-- `INSERT ... ON CONFLICT (week_start_date, user_id) DO NOTHING`. -/
def insertRowSkipConflict (rows : List AssignmentRow) (r : AssignmentRow) :
    List AssignmentRow :=
  if rows.any (fun x => x.user_id == r.user_id) then rows else rows ++ [r]

/-- The rows written by `create_weekly_assignments` for one week: two
`proposed` rows per matched pair (one per direction) and one `no_match`
row per unmatched user, each insert skipping on a `user_id` conflict. -/
def createWeeklyAssignments (assignments : List MatchCandidate)
    (unmatched : List String) : List AssignmentRow :=
  unmatched.foldl
    (fun rows uid => insertRowSkipConflict rows
      ⟨uid, none, none, "no_match"⟩)
    (assignments.foldl
      (fun rows p =>
        insertRowSkipConflict
          (insertRowSkipConflict rows
            ⟨p.user_id, some p.matched_user_id, some p.score_total, "proposed"⟩)
          ⟨p.matched_user_id, some p.user_id, some p.score_total, "proposed"⟩)
      [])

/-- The remaining (not yet proposed-to) suffix of a man's preference
list. -/
def remOf (todo : List (String × List String)) (m : String) : List String :=
  (todo.lookup m).getD []

/-- `m` has already proposed to `w`: `w` is on `m`'s preference list and
no longer in his remaining suffix. -/
def proposedTo (pf : String → List String) (todo : List (String × List String))
    (m w : String) : Prop :=
  w ∈ pf m ∧ w ∉ remOf todo m

/-- Loop invariant of `_stable_bipartite_match`'s deferred-acceptance
loop. -/
structure GSInv (men women : List String) (pf : String → List String)
    (s : BState) : Prop where
  keys_eq : s.todo.map Prod.fst = men
  suffix_inv : ∀ p ∈ s.todo, ∃ k, p.2 = (pf p.1).drop k
  engaged_ok : ∀ wm ∈ s.engaged, wm.1 ∈ women ∧ wm.2 ∈ men
    ∧ proposedTo pf s.todo wm.2 wm.1
  ekeys_nodup : (s.engaged.map Prod.fst).Nodup
  best : ∀ m ∈ men, ∀ w, proposedTo pf s.todo m w →
    ∃ mw, s.engaged.lookup w = some mw ∧ womenRank (pf w) mw ≤ womenRank (pf w) m
  count_le : ∀ x, s.free.count x + (s.engaged.map Prod.snd).count x ≤ 1

/-- Pool-shape facts used by the deferred-acceptance invariants. -/
structure GSCtx (men women : List String) (pf : String → List String) : Prop where
  men_nodup : men.Nodup
  disj : ∀ x ∈ men, x ∉ women
  pf_men : ∀ m ∈ men, ∀ x ∈ pf m, x ∈ women
  pf_nodup : ∀ u, (pf u).Nodup

/-- `u` strictly prefers `x` to `y` according to preference list `pl`:
`x` is listed, and `y` is unlisted or listed strictly later. -/
def prefersStrictly (pl : List String) (x y : String) : Prop :=
  x ∈ pl ∧ (y ∉ pl ∨ pl.indexOf x < pl.indexOf y)

/-- `u` is matched to `p` in a list of (man, woman) or canonical pairs. -/
def matchedIn (pairsOut : List (String × String)) (u p : String) : Prop :=
  (u, p) ∈ pairsOut ∨ (p, u) ∈ pairsOut

/-- The candidate pair `p` joins exactly the two users `uid` and `x`
(in either orientation). -/
def pairTouches (p : MatchCandidate) (uid x : String) : Bool :=
  (p.user_id == uid && p.matched_user_id == x)
    || (p.user_id == x && p.matched_user_id == uid)

/-- Number of pairs of `l` in which the id `x` occurs. -/
def occPairs (l : List (String × String)) (x : String) : ℕ :=
  (l.filter (fun ab => ab.1 == x || ab.2 == x)).length

/-- Number of assignment candidates of `l` in which the id `x` occurs. -/
def occCand (l : List MatchCandidate) (x : String) : ℕ :=
  (l.filter (fun p => p.user_id == x || p.matched_user_id == x)).length

/-! ### Trait computation (`traits.py`) and answer visibility
(`survey_reconciliation.py`).  Survey definitions and answer values are
JSON dicts, modelled as `JVal`; an answer map is an association list
(one entry per question code, as in a Python dict). -/

/-- A JSON list's elements (non-lists iterate as empty, matching the
`.get(..., [])` / `isinstance` guards at every use site). -/
def jList (v : JVal) : List JVal :=
  match v with
  | .arr l => l
  | _ => []

/-- `answers.get(code)` where `code` is a raw JSON value: answer maps are
keyed by strings, so a non-string code finds nothing. -/
def ansGet (answers : List (String × JVal)) (code : JVal) : JVal :=
  match code with
  | .str s => (answers.lookup s).getD .null
  | _ => .null

/-- `_answer_scalar` from `traits.py` (and the identical `_scalar` of
`survey_reconciliation.py`): unwrap `{"value": ...}` dicts. -/
def answerScalar (v : JVal) : JVal :=
  match v with
  | .obj fs =>
    match fs.lookup "value" with
    | some x => x
    | none => .obj fs
  | x => x

/-- The codes contributed by one item of `_required_missing_codes`:
required, not skippable, with only the hard-coded `KIDS_02`/`KIDS_01`
exemption, and the scalar answer `None` or `""`. -/
def missingOfItem (answers : List (String × JVal)) (item : JVal) : List String :=
  if !(jGet (pyOr (jGet item "question") (JVal.obj [])) "code").truthy then []
  else if !(jGet (pyOr (jGet item "question") (JVal.obj [])) "is_required").truthy then []
    else if (jGet (pyOr (jGet item "question") (JVal.obj [])) "allow_skip").truthy then []
    else if jGet (pyOr (jGet item "question") (JVal.obj [])) "code" = JVal.str "KIDS_02"
        ∧ ¬(answerScalar (ansGet answers (JVal.str "KIDS_01")) = JVal.str "yes"
          ∨ answerScalar (ansGet answers (JVal.str "KIDS_01")) = JVal.str "probably")
      then []
    else if answerScalar (ansGet answers
          (jGet (pyOr (jGet item "question") (JVal.obj [])) "code")) = JVal.null
        ∨ answerScalar (ansGet answers
          (jGet (pyOr (jGet item "question") (JVal.obj [])) "code")) = JVal.str ""
      then [pyStr (jGet (pyOr (jGet item "question") (JVal.obj [])) "code")]
    else []

/-- `_required_missing_codes` from `traits.py`: `sorted(set(missing))`. -/
def requiredMissingCodes (surveyDef : JVal) (answers : List (String × JVal)) : List String :=
  sortStrings
    (((jList (jGet surveyDef "screens")).foldl
      (fun acc screen =>
        (jList (jGet screen "items")).foldl
          (fun acc2 item => acc2 ++ missingOfItem answers item) acc)
      []).dedup)

/-- `int(v or 0)` as used by the `compute_traits` dispatch and the
reconciliation version fallback: falsy values read 0, numbers truncate,
digit strings parse, anything `int()` rejects gives `none`. -/
def intOr0 (v : JVal) : Option ℤ :=
  match pyOr v (JVal.num 0) with
  | .num q => some (if 0 ≤ q then ⌊q⌋ else ⌈q⌉)
  | .bool b => some (if b then 1 else 0)
  | .str s =>
    if s ≠ "" ∧ s.data.all Char.isDigit then some (digitsToNat s.data : ℤ) else none
  | _ => none

/-- `compute_traits_match_core_v3` from `traits.py`, observed at the level
every claim needs: it raises `ValueError` listing
`_required_missing_codes` when that list is non-empty (producing no
profile), and returns a profile otherwise.  The profile dict itself is
inspected by no claim and is modelled as `Unit`. -/
def computeTraitsMatchCoreV3 (surveyDef : JVal) (answers : List (String × JVal)) :
    Except (List String) Unit :=
  if requiredMissingCodes surveyDef answers = [] then .ok ()
  else .error (requiredMissingCodes surveyDef answers)

/-- `compute_traits` from `traits.py`: dispatch on
`slug == "match-core-v3" and int(version or 0) == 1`; the legacy v1 path
performs no required-answer check and never raises the missing-answers
error. -/
def computeTraits (surveyDef : JVal) (answers : List (String × JVal)) :
    Except (List String) Unit :=
  if jGet (pyOr (jGet surveyDef "survey") (JVal.obj [])) "slug" = JVal.str "match-core-v3"
      ∧ intOr0 (jGet (pyOr (jGet surveyDef "survey") (JVal.obj [])) "version") = some 1
    then computeTraitsMatchCoreV3 surveyDef answers
  else .ok ()

/-- Python `x in y` as used by the `in` visibility operator: list
membership, dict key membership, or substring. -/
def pyInOp (a : JVal) (vs : JVal) : Bool :=
  match vs with
  | .arr l => l.any (fun x => x == a)
  | .obj fs =>
    match a with
    | .str s => fs.any (fun p => p.1 == s)
    | _ => false
  | .str s =>
    match a with
    | .str t => decide (List.IsInfix t.data s.data)
    | _ => false
  | _ => false

/-- One rule of `_is_question_visible`: a non-`show_if` rule or one with
no trigger data passes; otherwise an unanswered trigger hides the
question, and the `in`/`eq`/`neq` operators compare the trigger answer's
scalar against `trigger_value`. -/
def ruleOk (answers : List (String × JVal)) (rule : JVal) : Bool :=
  if jGet rule "type" ≠ JVal.str "show_if" then true
  else if !(jGet rule "trigger_question_code").truthy
      ∨ jGet rule "trigger_value" = JVal.null then true
  else if ansGet answers (jGet rule "trigger_question_code") = JVal.null then false
  else
    let ta := match ansGet answers (jGet rule "trigger_question_code") with
      | .obj fs => jGet (.obj fs) "value"
      | x => x
    let operator := if jHas rule "operator" then jGet rule "operator" else JVal.str "eq"
    if operator = JVal.str "in" then pyInOp ta (jGet rule "trigger_value")
    else if operator = JVal.str "eq" then ta == jGet rule "trigger_value"
    else if operator = JVal.str "neq" then !(ta == jGet rule "trigger_value")
    else true

/-- `_is_question_visible` from `survey_reconciliation.py`: every
`show_if` rule must pass (no rules means always visible). -/
def isQuestionVisible (item : JVal) (answers : List (String × JVal)) : Bool :=
  (jList (jGet item "rules")).all (ruleOk answers)

/-- `_get_visible_required_questions` from `survey_reconciliation.py`
(the Python set is modelled as the collected list of codes). -/
def getVisibleRequiredQuestions (currentDef : JVal) (answers : List (String × JVal)) :
    List String :=
  (jList (jGet currentDef "screens")).foldl
    (fun acc screen =>
      (jList (jGet screen "items")).foldl
        (fun acc2 item =>
          if (jGet (jGet item "question") "is_required").truthy
              ∧ isQuestionVisible item answers = true then
            if (jGet (jGet item "question") "code").truthy then
              acc2 ++ [pyStr (jGet (jGet item "question") "code")]
            else acc2
          else acc2)
        acc)
    []

/-! ### Survey fingerprinting (`survey_fingerprint.py`) and reconciliation
(`survey_reconciliation.py`).  `sha256_hex(canonical_json(v))` is
modelled by the normalized value itself (`normalizeJ v`): SHA-256 of the
canonical JSON rendering is injective on distinct canonical values, so
hash equality is canonical-value equality. -/

/-- An "option-like" list element of `_normalize`: a dict with both a
`value` and a `label` key. -/
def isOptionLike (v : JVal) : Bool :=
  match v with
  | .obj fs => fs.any (fun p => p.1 == "value") && fs.any (fun p => p.1 == "label")
  | _ => false

mutual
/-- `_normalize` from `survey_fingerprint.py`: sort dict keys, sort
option-like lists by `(str(value), str(label))`. -/
def normalizeJ : JVal → JVal
  | .obj fs => .obj ((normalizeFields fs).mergeSort (fun a b => a.1 ≤ b.1))
  | .arr vs =>
    if vs.all isOptionLike then
      .arr ((normalizeList vs).mergeSort (fun a b =>
        pyStr (jGet a "value") < pyStr (jGet b "value")
          || (pyStr (jGet a "value") == pyStr (jGet b "value")
              && pyStr (jGet a "label") ≤ pyStr (jGet b "label"))))
    else .arr (normalizeList vs)
  | .null => .null
  | .bool b => .bool b
  | .num q => .num q
  | .str s => .str s

def normalizeList : List JVal → List JVal
  | [] => []
  | v :: t => normalizeJ v :: normalizeList t

def normalizeFields : List (String × JVal) → List (String × JVal)
  | [] => []
  | (k, v) :: t => (k, normalizeJ v) :: normalizeFields t
end

/-- `sha256_hex(canonical_json(v))`, modelled injectively by the
canonical (normalized) value. -/
def canonicalHash (v : JVal) : JVal := normalizeJ v

/-- `question_semantics_hash` from `survey_fingerprint.py`: the hash
payload holds prompt text, response type, options, required/skip flags,
rules, usage, reverse-coding and region tag — nothing about ordinal
position or screen grouping. -/
def questionSemanticsHash (question : JVal) (options : JVal) : JVal :=
  canonicalHash (JVal.obj [
    ("prompt", jGet question "text"),
    ("type", jGet question "response_type"),
    ("options", options),
    ("validation", JVal.obj [
      ("is_required", JVal.bool (jGet question "is_required").truthy),
      ("allow_skip", JVal.bool (jGet question "allow_skip").truthy),
      ("rules", pyOr (jGet question "rules") (JVal.arr []))]),
    ("scoring", JVal.obj [
      ("usage", jGet question "usage"),
      ("reverse_coded", JVal.bool (jGet question "reverse_coded").truthy),
      ("region_tag", jGet question "region_tag")])])

/-- One entry of `build_question_index`. -/
structure QIndexEntry where
  question : JVal
  screen_key : JVal
  is_required : Bool
  question_hash : JVal
deriving Repr, DecidableEq

/-- The `(code, entry)` pairs that `build_question_index` inserts, in
screen order, for a given `option_sets` dict. -/
def indexEntriesOf (optionSets : JVal) (screens : List JVal) : List (String × QIndexEntry) :=
  screens.foldl
    (fun acc screen =>
      acc ++ (jList (jGet screen "items")).filterMap (fun item =>
        if pyStrip (pyStr (pyOr (jGet (pyOr (jGet item "question") (JVal.obj [])) "code")
            (JVal.str ""))) = "" then none
        else some
          (pyStrip (pyStr (pyOr (jGet (pyOr (jGet item "question") (JVal.obj [])) "code")
            (JVal.str ""))),
           ⟨pyOr (jGet item "question") (JVal.obj []),
            jGet screen "key",
            (jGet (pyOr (jGet item "question") (JVal.obj [])) "is_required").truthy
              && !(jGet (pyOr (jGet item "question") (JVal.obj [])) "allow_skip").truthy,
            questionSemanticsHash (pyOr (jGet item "question") (JVal.obj []))
              (match jGet item "options" with
               | .str s => jGet optionSets s
               | o => o)⟩)))
    []

/-- `build_question_index` from `survey_fingerprint.py`: a dict keyed by
question code (assignment replaces in place). -/
def buildQuestionIndex (surveyDef : JVal) : List (String × QIndexEntry) :=
  (indexEntriesOf (jGet surveyDef "option_sets") (jList (jGet surveyDef "screens"))).foldl
    (fun acc p => updAssoc acc p.1 p.2) []

/-- The latest `survey_session` row with its answers, as
`_fetch_latest_response` returns it. -/
structure SessionRow where
  survey_version : JVal
  survey_hash : JVal
  answers : List (String × JVal)
deriving Repr, DecidableEq

/-- One `survey_definition` row as `_definitions_for_slug` reads it. -/
structure DefRow where
  version : JVal
  definition_json : JVal
  definition_hash : JVal
deriving Repr, DecidableEq

/-- `definition_json if isinstance(..., dict) else {}`. -/
def defJson (d : DefRow) : JVal :=
  match d.definition_json with
  | .obj fs => .obj fs
  | _ => .obj []

/-- `str(item["definition_hash"] or fingerprint_hash or "")` of
`_definitions_for_slug`. -/
def defHash (d : DefRow) : JVal :=
  pyOr d.definition_hash (pyOr (canonicalHash (defJson d)) (JVal.str ""))

/-- `defs_by_hash = {hash: d for d in definitions}` (last wins). -/
def defsByHash (defs : List DefRow) : List (JVal × DefRow) :=
  defs.foldl (fun acc d => updAssoc acc (defHash d) d) []

/-- `_choose_definition_by_overlap`. -/
def chooseByOverlap (answerKeys : List String) (defs : List DefRow) : Option DefRow :=
  (defs.foldl
    (fun (best : Option DefRow × ℤ) d =>
      if (buildQuestionIndex (defJson d)).map Prod.fst = [] then best
      else if ((answerKeys.filter
          (fun k => ((buildQuestionIndex (defJson d)).map Prod.fst).contains k)).length : ℤ)
          > best.2 then
        (some d,
         ((answerKeys.filter
          (fun k => ((buildQuestionIndex (defJson d)).map Prod.fst).contains k)).length : ℤ))
      else best)
    (none, -1)).1

/-- Resolution of the user's previous definition, step 1: by stored
survey hash. -/
def resolveStep1 (latest : Option SessionRow) (defs : List DefRow) :
    Option DefRow × JVal :=
  match latest with
  | some s => ((defsByHash defs).lookup (pyOr s.survey_hash (JVal.str "")),
      pyOr s.survey_hash (JVal.str ""))
  | none => ((defsByHash defs).lookup (JVal.str ""), JVal.str "")

/-- Step 2: by stored survey version, when step 1 found nothing. -/
def resolveStep2 (latest : Option SessionRow) (defs : List DefRow)
    (st : Option DefRow × JVal) : Option DefRow × JVal :=
  match st.1, latest with
  | none, some s =>
    if s.survey_version ≠ JVal.null then
      match defs.find? (fun d =>
          (intOr0 d.version).getD 0 == (intOr0 s.survey_version).getD 0) with
      | some d => (some d, defHash d)
      | none => st
    else st
  | _, _ => st

/-- Step 3: by answer-key overlap, when steps 1 and 2 found nothing. -/
def resolveStep3 (latest : Option SessionRow) (defs : List DefRow)
    (st : Option DefRow × JVal) : Option DefRow × JVal :=
  match st.1 with
  | none =>
    if (match latest with | some s => s.answers | none => []) ≠ [] then
      match chooseByOverlap
          (((match latest with | some s => s.answers | none => []).map Prod.fst).dedup)
          defs with
      | some d => (some d, defHash d)
      | none => st
    else st
  | some _ => st

def resolveOldDef (latest : Option SessionRow) (defs : List DefRow) :
    Option DefRow × JVal :=
  resolveStep3 latest defs (resolveStep2 latest defs (resolveStep1 latest defs))

/-- The carry-forward loop's accumulator (`answers_current` and
`missing`; the report lists aggregate the same loop data and are not
re-modelled). -/
structure RState where
  answers_current : List (String × JVal)
  missing : List String
deriving Repr, DecidableEq

/-- One iteration of the `for qid, meta in current_q.items()` loop of
`reconcile_user_survey_to_current`. -/
def reconStep (answersOld : List (String × JVal)) (oldQ : List (String × QIndexEntry))
    (oldHash currentHash : JVal) (st : RState) (p : String × QIndexEntry) : RState :=
  if (answersOld.map Prod.fst).contains p.1 then
    match oldQ.lookup p.1 with
    | some om =>
      if pyOr om.question_hash (JVal.str "") == pyOr p.2.question_hash (JVal.str "") then
        ⟨updAssoc st.answers_current p.1 ((answersOld.lookup p.1).getD JVal.null),
         st.missing⟩
      else if p.2.is_required then ⟨st.answers_current, st.missing ++ [p.1]⟩
      else st
    | none =>
      if oldHash == currentHash then
        ⟨updAssoc st.answers_current p.1 ((answersOld.lookup p.1).getD JVal.null),
         st.missing⟩
      else if p.2.is_required then ⟨st.answers_current, st.missing ++ [p.1]⟩
      else st
  else if p.2.is_required then ⟨st.answers_current, st.missing ++ [p.1]⟩
  else st

/-- The reconciliation result (the fields of the returned dict and of the
upserted row inspected by any claim). -/
structure ReconResult where
  answers_current : List (String × JVal)
  missing : List String
  needs_retake : Bool
  source_hash : JVal
  source_version : JVal
deriving Repr, DecidableEq

/-- The computation of `reconcile_user_survey_to_current` (lines 166-248)
for a fixed active runtime, over the user's latest session and the
stored definitions. -/
def reconcileCore (currentHash : JVal) (currentQ : List (String × QIndexEntry))
    (requiredIds : List String) (latest : Option SessionRow) (defs : List DefRow) :
    ReconResult :=
  ReconResult.mk
    (match latest with
     | none => []
     | some s => (currentQ.foldl
         (reconStep s.answers
           (match (resolveOldDef latest defs).1 with
            | some d => buildQuestionIndex (defJson d)
            | none => [])
           (resolveOldDef latest defs).2 currentHash)
         ⟨[], []⟩).answers_current)
    (match latest with
     | none => sortStrings requiredIds.dedup
     | some s => sortStrings ((currentQ.foldl
         (reconStep s.answers
           (match (resolveOldDef latest defs).1 with
            | some d => buildQuestionIndex (defJson d)
            | none => [])
           (resolveOldDef latest defs).2 currentHash)
         ⟨[], []⟩).missing).dedup)
    (match latest with
     | none => !requiredIds.dedup.isEmpty
     | some s => !((currentQ.foldl
         (reconStep s.answers
           (match (resolveOldDef latest defs).1 with
            | some d => buildQuestionIndex (defJson d)
            | none => [])
           (resolveOldDef latest defs).2 currentHash)
         ⟨[], []⟩).missing).isEmpty)
    (pyOr (resolveOldDef latest defs).2 JVal.null)
    (match latest with
     | some s => s.survey_version
     | none => JVal.null)

/-- One row of `survey_reconciliation_state` (its conflict key and the
payload columns the upsert writes; `id` and `updated_at` are
row-metadata that the conflict branch does not key on). -/
structure ReconRow where
  user_id : String
  survey_slug : String
  current_hash : JVal
  tenant_id : Option String
  source_hash : JVal
  source_version : JVal
  answers_current : List (String × JVal)
  missing : List String
  needs_retake : Bool
deriving Repr, DecidableEq

/-- The `(user_id, survey_slug, current_survey_hash)` conflict key. -/
def reconKeyMatch (x r : ReconRow) : Bool :=
  x.user_id == r.user_id && x.survey_slug == r.survey_slug
    && x.current_hash == r.current_hash

/-- `INSERT ... ON CONFLICT (user_id, survey_slug, current_survey_hash)
DO UPDATE SET <payload> = EXCLUDED.<payload>`. -/
def upsertRecon (table : List ReconRow) (r : ReconRow) : List ReconRow :=
  if table.any (fun x => reconKeyMatch x r) then
    table.map (fun x => if reconKeyMatch x r then r else x)
  else table ++ [r]

/-- The database slice that `reconcile_user_survey_to_current` reads and
writes for one user and slug. -/
structure ReconDB where
  latest : Option SessionRow
  definitions : List DefRow
  recon : List ReconRow
deriving Repr, DecidableEq

/-- The reconciliation row written for one run. -/
def reconRowOf (userId : String) (tenantId : Option String) (currentSlug : String)
    (currentHash : JVal) (res : ReconResult) : ReconRow :=
  ⟨userId, currentSlug, currentHash, tenantId, res.source_hash, res.source_version,
   res.answers_current, res.missing, res.needs_retake⟩

/-- `reconcile_user_survey_to_current`: compute the report and upsert the
reconciliation row. -/
def reconcile (userId : String) (tenantId : Option String) (currentSlug : String)
    (currentHash : JVal) (currentQ : List (String × QIndexEntry))
    (requiredIds : List String) (db : ReconDB) : ReconResult × ReconDB :=
  (reconcileCore currentHash currentQ requiredIds db.latest db.definitions,
   ReconDB.mk db.latest db.definitions
     (upsertRecon db.recon (reconRowOf userId tenantId currentSlug currentHash
       (reconcileCore currentHash currentQ requiredIds db.latest db.definitions))))

/-! ### Lemmas: association lists with Python-dict semantics -/

theorem lookup_updAssoc {κ α : Type} [BEq κ] [LawfulBEq κ]
    (l : List (κ × α)) (k k' : κ) (v : α) :
    (updAssoc l k v).lookup k' = if k' == k then some v else l.lookup k' := by
  induction l with
  | nil =>
    cases hb : k' == k <;> simp [updAssoc, List.lookup, hb]
  | cons hd t ih =>
    obtain ⟨k0, v0⟩ := hd
    by_cases h0 : k0 = k
    · subst h0
      simp only [updAssoc, beq_self_eq_true, if_true, reduceIte, List.lookup_cons]
      by_cases h1 : k' = k0
      · subst h1; simp
      · have : (k' == k0) = false := beq_eq_false_iff_ne.mpr h1
        simp [this]
    · have h0b : (k0 == k) = false := beq_eq_false_iff_ne.mpr h0
      simp only [updAssoc, h0b, Bool.false_eq_true, if_false, reduceIte, List.lookup_cons]
      by_cases h1 : k' = k0
      · subst h1
        have : (k' == k) = false := beq_eq_false_iff_ne.mpr h0
        simp [this]
      · have h1b : (k' == k0) = false := beq_eq_false_iff_ne.mpr h1
        simp [h1b, ih]

theorem lookup_mem {κ α : Type} [BEq κ] [LawfulBEq κ]
    {l : List (κ × α)} {k : κ} {v : α} (h : l.lookup k = some v) : (k, v) ∈ l := by
  induction l with
  | nil => simp [List.lookup] at h
  | cons hd t ih =>
    obtain ⟨k0, v0⟩ := hd
    rw [List.lookup_cons] at h
    by_cases h0 : k = k0
    · subst h0
      simp only [beq_self_eq_true, if_true, reduceIte] at h
      obtain rfl := Option.some.inj h
      exact List.mem_cons_self _ _
    · have h0b : (k == k0) = false := beq_eq_false_iff_ne.mpr h0
      rw [h0b] at h
      simp only [Bool.false_eq_true, if_false, reduceIte] at h
      exact List.mem_cons_of_mem _ (ih h)

theorem lookup_some_of_mem_keys {κ α : Type} [BEq κ] [LawfulBEq κ]
    {l : List (κ × α)} {k : κ} (h : k ∈ l.map Prod.fst) : ∃ v, l.lookup k = some v := by
  induction l with
  | nil => simp at h
  | cons hd t ih =>
    obtain ⟨k0, v0⟩ := hd
    rw [List.lookup_cons]
    by_cases h0 : k = k0
    · subst h0; simp
    · have h0b : (k == k0) = false := beq_eq_false_iff_ne.mpr h0
      rw [h0b]
      simp only [Bool.false_eq_true, if_false, reduceIte]
      apply ih
      simp only [List.map_cons, List.mem_cons] at h
      rcases h with h | h
      · exact absurd h h0
      · exact h

theorem mem_keys_of_lookup_some {κ α : Type} [BEq κ] [LawfulBEq κ]
    {l : List (κ × α)} {k : κ} {v : α} (h : l.lookup k = some v) :
    k ∈ l.map Prod.fst := by
  have := lookup_mem h
  exact List.mem_map_of_mem Prod.fst this

theorem updAssoc_keys_of_mem {κ α : Type} [BEq κ] [LawfulBEq κ]
    (l : List (κ × α)) (k : κ) (v : α) (h : k ∈ l.map Prod.fst) :
    (updAssoc l k v).map Prod.fst = l.map Prod.fst := by
  induction l with
  | nil => simp at h
  | cons hd t ih =>
    obtain ⟨k0, v0⟩ := hd
    by_cases h0 : k0 = k
    · subst h0
      simp [updAssoc]
    · have h0b : (k0 == k) = false := beq_eq_false_iff_ne.mpr h0
      simp only [updAssoc, h0b, Bool.false_eq_true, if_false, reduceIte, List.map_cons]
      simp only [List.map_cons, List.mem_cons] at h
      rcases h with h | h
      · exact absurd h.symm h0
      · rw [ih h]

theorem updAssoc_keys_of_not_mem {κ α : Type} [BEq κ] [LawfulBEq κ]
    (l : List (κ × α)) (k : κ) (v : α) (h : k ∉ l.map Prod.fst) :
    updAssoc l k v = l ++ [(k, v)] := by
  induction l with
  | nil => simp [updAssoc]
  | cons hd t ih =>
    obtain ⟨k0, v0⟩ := hd
    simp only [List.map_cons, List.mem_cons, not_or] at h
    have h0b : (k0 == k) = false := beq_eq_false_iff_ne.mpr (fun hc => h.1 hc.symm)
    simp only [updAssoc, h0b, Bool.false_eq_true, if_false, reduceIte, List.cons_append,
      List.cons.injEq, true_and]
    exact ih h.2

theorem updAssoc_mem {κ α : Type} [BEq κ] [LawfulBEq κ]
    {l : List (κ × α)} {k : κ} {v : α} {e : κ × α} (h : e ∈ updAssoc l k v) :
    e ∈ l ∨ e = (k, v) := by
  induction l with
  | nil => simp [updAssoc] at h; exact Or.inr h
  | cons hd t ih =>
    obtain ⟨k0, v0⟩ := hd
    by_cases h0 : k0 = k
    · subst h0
      simp only [updAssoc, beq_self_eq_true, if_true, reduceIte, List.mem_cons] at h
      rcases h with h | h
      · exact Or.inr (by rw [h])
      · exact Or.inl (List.mem_cons_of_mem _ h)
    · have h0b : (k0 == k) = false := beq_eq_false_iff_ne.mpr h0
      simp only [updAssoc, h0b, Bool.false_eq_true, if_false, reduceIte, List.mem_cons] at h
      rcases h with h | h
      · exact Or.inl (by rw [h]; exact List.mem_cons_self _ _)
      · rcases ih h with h2 | h2
        · exact Or.inl (List.mem_cons_of_mem _ h2)
        · exact Or.inr h2

theorem count_snd_updAssoc {κ α : Type} [BEq κ] [LawfulBEq κ] [DecidableEq α]
    (l : List (κ × α)) (k : κ) (v cur : α) (h : l.lookup k = some cur)
    (x : α) :
    ((updAssoc l k v).map Prod.snd).count x + (if cur = x then 1 else 0)
      = (l.map Prod.snd).count x + (if v = x then 1 else 0) := by
  induction l with
  | nil => simp [List.lookup] at h
  | cons hd t ih =>
    obtain ⟨k0, v0⟩ := hd
    rw [List.lookup_cons] at h
    by_cases h0 : k = k0
    · subst h0
      simp only [beq_self_eq_true, if_true, reduceIte] at h
      obtain rfl := Option.some.inj h
      simp only [updAssoc, beq_self_eq_true, if_true, reduceIte, List.map_cons,
        List.count_cons]
      by_cases hv : v0 = x <;> by_cases hv2 : v = x <;> simp [hv, hv2] <;> omega
    · have h0b : (k == k0) = false := beq_eq_false_iff_ne.mpr h0
      rw [h0b] at h
      simp only [Bool.false_eq_true, if_false, reduceIte] at h
      have h0c : (k0 == k) = false := beq_eq_false_iff_ne.mpr (fun hc => h0 hc.symm)
      simp only [updAssoc, h0c, Bool.false_eq_true, if_false, reduceIte, List.map_cons,
        List.count_cons]
      have := ih h
      by_cases hv : v0 = x <;> simp [hv] <;> omega

theorem lookup_eq_none_of_not_mem_keys {κ α : Type} [BEq κ] [LawfulBEq κ]
    {l : List (κ × α)} {k : κ} (h : k ∉ l.map Prod.fst) : l.lookup k = none := by
  cases hl : l.lookup k with
  | none => rfl
  | some v => exact absurd (mem_keys_of_lookup_some hl) h

/-! ### Lemmas: `womenRank` and proposal bookkeeping -/

theorem lastIdx_eq_none {l : List String} {x : String} (h : x ∉ l) :
    ∀ i, lastIdx l x i = none := by
  induction l with
  | nil => intro i; rfl
  | cons y t ih =>
    intro i
    simp only [List.mem_cons, not_or] at h
    simp only [lastIdx, ih h.2 (i + 1)]
    rw [if_neg (fun hc => h.1 hc.symm)]

theorem lastIdx_nodup {l : List String} {x : String} (hnd : l.Nodup) (hx : x ∈ l) :
    ∀ i, lastIdx l x i = some (l.indexOf x + i) := by
  induction l with
  | nil => cases hx
  | cons y t ih =>
    intro i
    rcases List.mem_cons.mp hx with rfl | hxt
    · have hxt : x ∉ t := (List.nodup_cons.mp hnd).1
      simp [lastIdx, lastIdx_eq_none hxt (i + 1), List.indexOf_cons_self]
    · have hyx : x ≠ y := fun hc => (List.nodup_cons.mp hnd).1 (hc ▸ hxt)
      simp only [lastIdx, ih (List.nodup_cons.mp hnd).2 hxt (i + 1),
        List.indexOf_cons_ne _ (fun hc => hyx hc.symm)]
      congr 1
      omega

theorem womenRank_not_mem {l : List String} {x : String} (h : x ∉ l) :
    womenRank l x = 10 ^ 9 := by
  rw [womenRank, lastIdx_eq_none h 0]
  rfl

theorem womenRank_mem_nodup {l : List String} {x : String} (hnd : l.Nodup)
    (hx : x ∈ l) : womenRank l x = l.indexOf x := by
  rw [womenRank, lastIdx_nodup hnd hx 0]
  rfl

theorem remOf_updAssoc (todo : List (String × List String)) (m m' : String)
    (ws : List String) :
    remOf (updAssoc todo m ws) m' = if m' = m then ws else remOf todo m' := by
  unfold remOf
  rw [lookup_updAssoc]
  by_cases hm : m' = m
  · rw [if_pos hm, if_pos (beq_iff_eq.mpr hm)]
    rfl
  · rw [if_neg hm, if_neg (by rw [beq_iff_eq]; exact hm)]

theorem proposedTo_updAssoc {pf : String → List String}
    {todo : List (String × List String)} {m w : String} {ws : List String}
    (hlk : todo.lookup m = some (w :: ws))
    (hw : w ∈ pf m) (hwws : w ∉ ws) :
    ∀ m' w', proposedTo pf (updAssoc todo m ws) m' w'
      ↔ proposedTo pf todo m' w' ∨ (m' = m ∧ w' = w) := by
  intro m' w'
  unfold proposedTo
  rw [remOf_updAssoc]
  have hrem : remOf todo m = w :: ws := by rw [remOf, hlk]; rfl
  by_cases hm : m' = m
  · subst hm
    rw [if_pos rfl, hrem]
    constructor
    · rintro ⟨hin, hnin⟩
      by_cases hww : w' = w
      · exact Or.inr ⟨rfl, hww⟩
      · exact Or.inl ⟨hin, fun hc => by
          rcases List.mem_cons.mp hc with hc | hc
          · exact hww hc
          · exact hnin hc⟩
    · rintro (⟨hin, hnin⟩ | ⟨_, rfl⟩)
      · exact ⟨hin, fun hc => hnin (List.mem_cons_of_mem _ hc)⟩
      · exact ⟨hw, hwws⟩
  · rw [if_neg hm]
    constructor
    · exact fun h => Or.inl h
    · rintro (h | ⟨hc, _⟩)
      · exact h
      · exact absurd hc hm

theorem suffix_head_facts {pf : String → List String} {m w : String}
    {ws : List String} (hnd : (pf m).Nodup) (hsfx : ∃ k, w :: ws = (pf m).drop k) :
    w ∈ pf m ∧ w ∉ ws ∧ ∃ k2, ws = (pf m).drop k2 := by
  obtain ⟨k, hk⟩ := hsfx
  have hmemdrop : w ∈ (pf m).drop k := by rw [← hk]; exact List.mem_cons_self _ _
  have hdropnd : ((pf m).drop k).Nodup := hnd.sublist (List.drop_sublist k (pf m))
  rw [← hk] at hdropnd
  refine ⟨List.mem_of_mem_drop hmemdrop, (List.nodup_cons.mp hdropnd).1, k + 1, ?_⟩
  rw [← List.tail_drop, ← hk]
  rfl

/-! ### Lemmas: invariant preservation in the bipartite loop -/

theorem gsStep_facts {men women : List String} {pf : String → List String}
    {m w : String} {rest ws : List String} {todo : List (String × List String)}
    {engaged : List (String × String)}
    (ctx : GSCtx men women pf)
    (hinv : GSInv men women pf ⟨m :: rest, todo, engaged⟩)
    (hlk : todo.lookup m = some (w :: ws)) :
    m ∈ men ∧ w ∈ pf m ∧ w ∉ ws ∧ (∃ k2, ws = (pf m).drop k2) ∧ w ∈ women := by
  have hm : m ∈ men := hinv.keys_eq ▸ mem_keys_of_lookup_some hlk
  have hsfx := hinv.suffix_inv (m, w :: ws) (lookup_mem hlk)
  obtain ⟨hwpf, hwws, hsfx2⟩ := suffix_head_facts (ctx.pf_nodup m) (by simpa using hsfx)
  exact ⟨hm, hwpf, hwws, hsfx2, ctx.pf_men m hm w hwpf⟩

theorem gsInv_drop {men women : List String} {pf : String → List String}
    {m : String} {rest : List String} {todo : List (String × List String)}
    {engaged : List (String × String)}
    (hinv : GSInv men women pf ⟨m :: rest, todo, engaged⟩) :
    GSInv men women pf ⟨rest, todo, engaged⟩ := by
  obtain ⟨hk, hs, he, hn, hb, hc⟩ := hinv
  dsimp only at hk hs he hn hb hc
  refine ⟨hk, hs, he, hn, hb, ?_⟩
  intro x
  dsimp only
  have hcx := hc x
  simp only [List.count_cons, beq_iff_eq] at hcx
  omega

theorem gsInv_todoAdvance_core {men : List String} {pf : String → List String}
    {m w : String} {ws : List String} {todo : List (String × List String)}
    (hlk : todo.lookup m = some (w :: ws)) (hwpf : w ∈ pf m) (hwws : w ∉ ws)
    (hsfx2 : ∃ k2, ws = (pf m).drop k2)
    (hkeys : todo.map Prod.fst = men)
    (hsuffix : ∀ p ∈ todo, ∃ k, p.2 = (pf p.1).drop k) :
    (updAssoc todo m ws).map Prod.fst = men
    ∧ (∀ p ∈ updAssoc todo m ws, ∃ k, p.2 = (pf p.1).drop k) := by
  constructor
  · rw [updAssoc_keys_of_mem todo m ws (mem_keys_of_lookup_some hlk)]
    exact hkeys
  · intro p hp
    rcases updAssoc_mem hp with hp | hp
    · exact hsuffix p hp
    · rw [hp]
      exact hsfx2

theorem gsInv_engage {men women : List String} {pf : String → List String}
    {m w : String} {rest ws : List String} {todo : List (String × List String)}
    {engaged : List (String × String)}
    (ctx : GSCtx men women pf)
    (hinv : GSInv men women pf ⟨m :: rest, todo, engaged⟩)
    (hlk : todo.lookup m = some (w :: ws))
    (hnone : engaged.lookup w = none) :
    GSInv men women pf ⟨rest, updAssoc todo m ws, updAssoc engaged w m⟩ := by
  obtain ⟨hm, hwpf, hwws, hsfx2, hwW⟩ := gsStep_facts ctx hinv hlk
  obtain ⟨hk, hs, he, hn, hb, hc⟩ := hinv
  dsimp only at hk hs he hn hb hc
  obtain ⟨hk2, hs2⟩ := gsInv_todoAdvance_core hlk hwpf hwws hsfx2 hk hs
  have hPT := proposedTo_updAssoc hlk hwpf hwws
  have hwnk : w ∉ engaged.map Prod.fst := by
    intro hc2
    obtain ⟨v, hv⟩ := lookup_some_of_mem_keys hc2
    rw [hv] at hnone
    cases hnone
  have hupdE : updAssoc engaged w m = engaged ++ [(w, m)] :=
    updAssoc_keys_of_not_mem engaged w m hwnk
  refine ⟨hk2, hs2, ?_, ?_, ?_, ?_⟩
  · intro wm hwm
    rw [hupdE, List.mem_append] at hwm
    rcases hwm with hwm | hwm
    · obtain ⟨h1, h2, h3⟩ := he wm hwm
      exact ⟨h1, h2, (hPT wm.2 wm.1).mpr (Or.inl h3)⟩
    · simp only [List.mem_singleton] at hwm
      rw [hwm]
      exact ⟨hwW, hm, (hPT m w).mpr (Or.inr ⟨rfl, rfl⟩)⟩
  · rw [hupdE, List.map_append]
    simp only [List.map_cons, List.map_nil]
    rw [List.nodup_append]
    exact ⟨hn, List.nodup_singleton w, by simpa using hwnk⟩
  · intro m' hm' w' hpt
    rcases (hPT m' w').mp hpt with hold | ⟨rfl, rfl⟩
    · obtain ⟨mw, hmw, hrank⟩ := hb m' hm' w' hold
      rw [lookup_updAssoc]
      by_cases hww : w' = w
      · subst hww
        rw [hmw] at hnone
        cases hnone
      · rw [if_neg (by rw [beq_iff_eq]; exact hww)]
        exact ⟨mw, hmw, hrank⟩
    · rw [lookup_updAssoc, if_pos (beq_self_eq_true _)]
      exact ⟨_, rfl, le_refl _⟩
  · intro x
    dsimp only
    have hcx := hc x
    have hsnd : (updAssoc engaged w m).map Prod.snd = engaged.map Prod.snd ++ [m] := by
      rw [hupdE, List.map_append]
      rfl
    rw [hsnd]
    simp only [List.count_cons, List.count_append, List.count_singleton, List.count_nil, beq_iff_eq] at hcx ⊢
    by_cases hxm : m = x <;> simp only [hxm, if_true, if_false, reduceIte] at hcx ⊢ <;> omega

theorem gsInv_swap {men women : List String} {pf : String → List String}
    {m w current : String} {rest ws : List String}
    {todo : List (String × List String)} {engaged : List (String × String)}
    (ctx : GSCtx men women pf)
    (hinv : GSInv men women pf ⟨m :: rest, todo, engaged⟩)
    (hlk : todo.lookup m = some (w :: ws))
    (hcur : engaged.lookup w = some current)
    (hlt : womenRank (pf w) m < womenRank (pf w) current) :
    GSInv men women pf ⟨rest ++ [current], updAssoc todo m ws, updAssoc engaged w m⟩ := by
  obtain ⟨hm, hwpf, hwws, hsfx2, hwW⟩ := gsStep_facts ctx hinv hlk
  obtain ⟨hk, hs, he, hn, hb, hc⟩ := hinv
  dsimp only at hk hs he hn hb hc
  obtain ⟨hk2, hs2⟩ := gsInv_todoAdvance_core hlk hwpf hwws hsfx2 hk hs
  have hPT := proposedTo_updAssoc hlk hwpf hwws
  refine ⟨hk2, hs2, ?_, ?_, ?_, ?_⟩
  · intro wm hwm
    rcases updAssoc_mem hwm with hwm | hwm
    · obtain ⟨h1, h2, h3⟩ := he wm hwm
      exact ⟨h1, h2, (hPT wm.2 wm.1).mpr (Or.inl h3)⟩
    · rw [hwm]
      exact ⟨hwW, hm, (hPT m w).mpr (Or.inr ⟨rfl, rfl⟩)⟩
  · rw [updAssoc_keys_of_mem engaged w m (mem_keys_of_lookup_some hcur)]
    exact hn
  · intro m' hm' w' hpt
    rcases (hPT m' w').mp hpt with hold | ⟨rfl, rfl⟩
    · obtain ⟨mw, hmw, hrank⟩ := hb m' hm' w' hold
      rw [lookup_updAssoc]
      by_cases hww : w' = w
      · subst hww
        rw [hmw] at hcur
        obtain rfl := Option.some.inj hcur
        rw [if_pos (beq_self_eq_true _)]
        exact ⟨m, rfl, le_of_lt (lt_of_lt_of_le hlt hrank)⟩
      · rw [if_neg (by rw [beq_iff_eq]; exact hww)]
        exact ⟨mw, hmw, hrank⟩
    · rw [lookup_updAssoc, if_pos (beq_self_eq_true _)]
      exact ⟨_, rfl, le_refl _⟩
  · intro x
    dsimp only
    have hE := count_snd_updAssoc engaged w m current hcur x
    have hcx := hc x
    have hcm := hc m
    have hcc := hc current
    have hEc : 1 ≤ (engaged.map Prod.snd).count current :=
      List.count_pos_iff_mem.mpr (List.mem_map_of_mem Prod.snd (lookup_mem hcur))
    simp only [List.count_cons, List.count_append, List.count_singleton, List.count_nil, beq_iff_eq]
      at hcx hcm hcc ⊢
    by_cases hxm : m = x <;> by_cases hxc : current = x <;>
      simp only [hxm, hxc, if_true, if_false, reduceIte] at hE hcx hcm hcc ⊢ <;>
        omega

theorem gsInv_reject {men women : List String} {pf : String → List String}
    {m w current : String} {rest ws : List String}
    {todo : List (String × List String)} {engaged : List (String × String)}
    (ctx : GSCtx men women pf)
    (hinv : GSInv men women pf ⟨m :: rest, todo, engaged⟩)
    (hlk : todo.lookup m = some (w :: ws))
    (hcur : engaged.lookup w = some current)
    (hge : ¬ womenRank (pf w) m < womenRank (pf w) current) :
    GSInv men women pf ⟨rest ++ [m], updAssoc todo m ws, engaged⟩ := by
  obtain ⟨hm, hwpf, hwws, hsfx2, hwW⟩ := gsStep_facts ctx hinv hlk
  obtain ⟨hk, hs, he, hn, hb, hc⟩ := hinv
  dsimp only at hk hs he hn hb hc
  obtain ⟨hk2, hs2⟩ := gsInv_todoAdvance_core hlk hwpf hwws hsfx2 hk hs
  have hPT := proposedTo_updAssoc hlk hwpf hwws
  refine ⟨hk2, hs2, ?_, hn, ?_, ?_⟩
  · intro wm hwm
    obtain ⟨h1, h2, h3⟩ := he wm hwm
    exact ⟨h1, h2, (hPT wm.2 wm.1).mpr (Or.inl h3)⟩
  · intro m' hm' w' hpt
    rcases (hPT m' w').mp hpt with hold | ⟨rfl, rfl⟩
    · exact hb m' hm' w' hold
    · exact ⟨current, hcur, le_of_not_lt hge⟩
  · intro x
    dsimp only
    have hcx := hc x
    simp only [List.count_cons, List.count_append, List.count_singleton, List.count_nil, beq_iff_eq]
      at hcx ⊢
    by_cases hxm : m = x <;> simp only [hxm, if_true, if_false, reduceIte] at hcx ⊢ <;>
      omega

theorem gsRun_final (prefs : List (String × List String)) (men women : List String)
    (ctx : GSCtx men women (prefList prefs)) :
    ∀ s : BState, GSInv men women (prefList prefs) s →
      ∃ t : BState, t.free = [] ∧ GSInv men women (prefList prefs) t
        ∧ gsRun prefs women s = t.engaged := by
  suffices H : ∀ n (s : BState), gsMeasure s = n →
      GSInv men women (prefList prefs) s →
      ∃ t : BState, t.free = [] ∧ GSInv men women (prefList prefs) t
        ∧ gsRun prefs women s = t.engaged by
    exact fun s h => H (gsMeasure s) s rfl h
  intro n
  induction n using Nat.strong_induction_on with
  | _ n ih =>
    intro s hms hinv
    obtain ⟨free, todo, engaged⟩ := s
    cases free with
    | nil =>
      exact ⟨⟨[], todo, engaged⟩, rfl, hinv, by rw [gsRun]⟩
    | cons m rest =>
      rw [gsRun]
      split
      next hlk =>
        have hdec : gsMeasure ⟨rest, todo, engaged⟩ < n := by
          rw [← hms]
          simp only [gsMeasure, List.length_cons]
          omega
        obtain ⟨t, h1, h2, h3⟩ := ih _ hdec ⟨rest, todo, engaged⟩ rfl (gsInv_drop hinv)
        exact ⟨t, h1, h2, h3⟩
      next hlk =>
        have hdec : gsMeasure ⟨rest, todo, engaged⟩ < n := by
          rw [← hms]
          simp only [gsMeasure, List.length_cons]
          omega
        obtain ⟨t, h1, h2, h3⟩ := ih _ hdec ⟨rest, todo, engaged⟩ rfl (gsInv_drop hinv)
        exact ⟨t, h1, h2, h3⟩
      next w ws hlk =>
        have hwW : w ∈ women := (gsStep_facts ctx hinv hlk).2.2.2.2
        rw [if_pos hwW]
        have hsum := sum_todo_updAssoc todo m ws (w :: ws) hlk
        simp only [List.length_cons] at hsum
        split
        next hcur =>
          have hdec : gsMeasure ⟨rest, updAssoc todo m ws, updAssoc engaged w m⟩ < n := by
            rw [← hms]
            simp only [gsMeasure, List.length_cons]
            omega
          obtain ⟨t, h1, h2, h3⟩ := ih _ hdec _ rfl (gsInv_engage ctx hinv hlk hcur)
          exact ⟨t, h1, h2, h3⟩
        next current hcur =>
          by_cases hr : womenRank (prefList prefs w) m < womenRank (prefList prefs w) current
          · rw [if_pos hr]
            have hdec : gsMeasure
                ⟨rest ++ [current], updAssoc todo m ws, updAssoc engaged w m⟩ < n := by
              rw [← hms]
              simp only [gsMeasure, List.length_cons, List.length_append,
                List.length_singleton, List.length_nil]
              omega
            obtain ⟨t, h1, h2, h3⟩ := ih _ hdec _ rfl (gsInv_swap ctx hinv hlk hcur hr)
            exact ⟨t, h1, h2, h3⟩
          · rw [if_neg hr]
            have hdec : gsMeasure ⟨rest ++ [m], updAssoc todo m ws, engaged⟩ < n := by
              rw [← hms]
              simp only [gsMeasure, List.length_cons, List.length_append,
                List.length_singleton, List.length_nil]
              omega
            obtain ⟨t, h1, h2, h3⟩ := ih _ hdec _ rfl (gsInv_reject ctx hinv hlk hcur hr)
            exact ⟨t, h1, h2, h3⟩

/-! ### Index arithmetic for preference suffixes -/

theorem indexOf_lt_of_not_mem_drop {l : List String} {x : String} {k : ℕ}
    (hx : x ∈ l) (h : x ∉ l.drop k) : l.indexOf x < k := by
  induction k generalizing l with
  | zero => simp at h; exact absurd hx h
  | succ k ih =>
    cases l with
    | nil => simp at hx
    | cons a t =>
      by_cases hxa : x = a
      · subst hxa
        rw [List.indexOf_cons_self]
        omega
      · simp only [List.mem_cons] at hx
        rcases hx with hx | hx
        · exact absurd hx hxa
        · rw [List.drop_succ_cons] at h
          have := ih hx h
          rw [List.indexOf_cons_ne _ (fun hc => hxa hc.symm)]
          omega

theorem le_indexOf_of_mem_drop {l : List String} {x : String} {k : ℕ}
    (hnd : l.Nodup) (h : x ∈ l.drop k) : k ≤ l.indexOf x := by
  induction k generalizing l with
  | zero => omega
  | succ k ih =>
    cases l with
    | nil => simp at h
    | cons a t =>
      rw [List.drop_succ_cons] at h
      have hxt : x ∈ t := List.mem_of_mem_drop h
      have hnd' := (List.nodup_cons.mp hnd).2
      have hax : a ∉ t := (List.nodup_cons.mp hnd).1
      have hxa : x ≠ a := fun hc => hax (hc ▸ hxt)
      rw [List.indexOf_cons_ne _ (fun hc => hxa hc.symm)]
      have := ih hnd' h
      omega

theorem lookup_eq_of_mem_nodup {κ α : Type} [BEq κ] [LawfulBEq κ]
    {l : List (κ × α)} (hnd : (l.map Prod.fst).Nodup) {k : κ} {v : α}
    (h : (k, v) ∈ l) : l.lookup k = some v := by
  induction l with
  | nil => simp at h
  | cons hd t ih =>
    obtain ⟨k0, v0⟩ := hd
    simp only [List.map_cons, List.nodup_cons] at hnd
    rw [List.mem_cons] at h
    rcases h with h | h
    · obtain ⟨rfl, rfl⟩ := Prod.mk.injEq .. ▸ h
      simp [List.lookup_cons]
    · have hk0 : k ≠ k0 := by
        intro hc
        subst hc
        exact hnd.1 (List.mem_map_of_mem Prod.fst h)
      have hb : (k == k0) = false := beq_eq_false_iff_ne.mpr hk0
      rw [List.lookup_cons, hb]
      simp only [Bool.false_eq_true, if_false, reduceIte]
      exact ih hnd.2 h

/-- Core stability argument for the final state of the deferred-acceptance
loop: a man matched to `wP` and a woman `wV` matched to `mV` cannot both
strictly prefer each other. -/
theorem gs_no_blocking_core {men women : List String} {pf : String → List String}
    (ctx : GSCtx men women pf)
    (hpfW : ∀ w ∈ women, ∀ x ∈ pf w, x ∈ men)
    (hlen : ∀ u, (pf u).length ≤ 10 ^ 9)
    {t : BState} (hinv : GSInv men women pf t)
    {mU wP wV mV : String}
    (h1 : (wP, mU) ∈ t.engaged) (h2 : (wV, mV) ∈ t.engaged)
    (hb1 : prefersStrictly (pf mU) wV wP)
    (hb2 : prefersStrictly (pf wV) mU mV) : False := by
  obtain ⟨hwP, hmU, hprop1⟩ := hinv.engaged_ok _ h1
  obtain ⟨hwV, hmV, hprop2⟩ := hinv.engaged_ok _ h2
  -- mU has proposed to wP but not (necessarily) to wV; since wV comes
  -- strictly earlier on his list, he must in fact have proposed to wV.
  obtain ⟨hwVpf, hord⟩ := hb1
  have hwPpf : wP ∈ pf mU := hprop1.1
  have hord2 : (pf mU).indexOf wV < (pf mU).indexOf wP := by
    rcases hord with hord | hord
    · exact absurd hwPpf hord
    · exact hord
  -- mU's remaining suffix is a drop of his list.
  have hmUkeys : mU ∈ t.todo.map Prod.fst := hinv.keys_eq ▸ hmU
  obtain ⟨rem, hremlk⟩ := lookup_some_of_mem_keys hmUkeys
  obtain ⟨kk, hkk⟩ := hinv.suffix_inv _ (lookup_mem hremlk)
  have hrem : remOf t.todo mU = (pf mU).drop kk := by
    rw [remOf, hremlk]; exact hkk
  have hndU : (pf mU).Nodup := ctx.pf_nodup mU
  have hwPout : wP ∉ (pf mU).drop kk := hrem ▸ hprop1.2
  have hkP : (pf mU).indexOf wP < kk := indexOf_lt_of_not_mem_drop hwPpf hwPout
  have hwVout : wV ∉ remOf t.todo mU := by
    rw [hrem]
    intro hc
    have := le_indexOf_of_mem_drop hndU hc
    omega
  have hpropV : proposedTo pf t.todo mU wV := ⟨hwVpf, hwVout⟩
  -- the woman-optimality invariant: whoever wV holds, she ranks him no
  -- worse than mU.
  obtain ⟨mw, hmwlk, hmwrank⟩ := hinv.best mU hmU wV hpropV
  have hmw : mw = mV := by
    have := lookup_eq_of_mem_nodup hinv.ekeys_nodup h2
    rw [hmwlk] at this
    exact Option.some.inj this
  rw [hmw] at hmwrank
  -- translate ranks into indexOf facts on wV's list.
  obtain ⟨hmUpfV, hordV⟩ := hb2
  have hndV : (pf wV).Nodup := ctx.pf_nodup wV
  have hrU : womenRank (pf wV) mU = (pf wV).indexOf mU :=
    womenRank_mem_nodup hndV hmUpfV
  have hiU : (pf wV).indexOf mU < (pf wV).length := List.indexOf_lt_length.mpr hmUpfV
  have hlenV := hlen wV
  rcases hordV with hmVout | hordV
  · have hrV : womenRank (pf wV) mV = 10 ^ 9 := womenRank_not_mem hmVout
    rw [hrV, hrU] at hmwrank
    omega
  · have hmVpfV : mV ∈ pf wV := by
      by_contra hc
      have hrV : womenRank (pf wV) mV = 10 ^ 9 := womenRank_not_mem hc
      rw [hrV, hrU] at hmwrank
      omega
    have hrV : womenRank (pf wV) mV = (pf wV).indexOf mV :=
      womenRank_mem_nodup hndV hmVpfV
    rw [hrV, hrU] at hmwrank
    omega

/-- No blocking pair in the final engaged list: any two output users who
each strictly prefer the other over their own partner yield a
contradiction, whatever side each is on. -/
theorem gs_no_blocking_final {men women : List String} {pf : String → List String}
    (ctx : GSCtx men women pf)
    (hpfW : ∀ w ∈ women, ∀ x ∈ pf w, x ∈ men)
    (hlen : ∀ u, (pf u).length ≤ 10 ^ 9)
    {t : BState} (hinv : GSInv men women pf t)
    {u v pu pv : String}
    (hu : (pu, u) ∈ t.engaged ∨ (u, pu) ∈ t.engaged)
    (hv : (pv, v) ∈ t.engaged ∨ (v, pv) ∈ t.engaged)
    (hb1 : prefersStrictly (pf u) v pu)
    (hb2 : prefersStrictly (pf v) u pv) : False := by
  rcases hu with hu | hu
  · -- u is on the men side
    have humen : u ∈ men := (hinv.engaged_ok _ hu).2.1
    have hvwomen : v ∈ women := ctx.pf_men u humen v hb1.1
    rcases hv with hv | hv
    · -- v would also be a man: impossible
      have hvmen : v ∈ men := (hinv.engaged_ok _ hv).2.1
      exact ctx.disj v hvmen hvwomen
    · exact gs_no_blocking_core ctx hpfW hlen hinv hu hv hb1 hb2
  · -- u is on the women side
    have huwomen : u ∈ women := (hinv.engaged_ok _ hu).1
    have hvmen : v ∈ men := hpfW u huwomen v hb1.1
    rcases hv with hv | hv
    · exact gs_no_blocking_core ctx hpfW hlen hinv hv hu hb2 hb1
    · -- v would also be a woman: impossible
      have hvwomen : v ∈ women := (hinv.engaged_ok _ hv).1
      exact ctx.disj v hvmen hvwomen

/-! ### Lemmas: symmetry of the scoring components -/

theorem sim_comm (a b : ℚ) : sim a b = sim b a := by
  unfold sim; rw [abs_sub_comm]

theorem comp_comm (a b t e : ℚ) : comp a b t e = comp b a t e := by
  unfold comp; rw [add_comm b a, abs_sub_comm b a]

theorem kidsHardMismatch_comm (k1 k2 : String) :
    kidsHardMismatch k1 k2 = kidsHardMismatch k2 k1 := by
  unfold kidsHardMismatch
  by_cases h1 : k1 = "" <;> by_cases h2 : k2 = "" <;>
    by_cases h3 : k1 = "unsure" <;> by_cases h4 : k2 = "unsure" <;>
      simp [h1, h2, h3, h4, Bool.or_comm]

theorem reassuranceVsIndependence_comm (u v : JVal) :
    reassuranceVsIndependence u v = reassuranceVsIndependence v u := by
  unfold reassuranceVsIndependence; ring

theorem approachWithdrawal_comm (u v : JVal) :
    approachWithdrawal u v = approachWithdrawal v u := by
  unfold approachWithdrawal; ring

theorem blendTotal_comm (u v : JVal) : blendTotal u v = blendTotal v u := by
  unfold blendTotal
  rw [sim_comm (dimOf u "worldview_alignment"), sim_comm (dimOf u "stability"),
    reassuranceVsIndependence_comm, sim_comm (dimOf u "text_sensitivity"),
    sim_comm (dimOf u "drama_avoidance"), sim_comm (dimOf u "testing_behavior"),
    approachWithdrawal_comm, max_comm (dimOf u "escalation"),
    sim_comm (dimOf u "repair_belief"), sim_comm (dimOf u "structure"),
    comp_comm (dimOf u "extraversion"), comp_comm (dimOf u "conscientiousness"),
    sim_comm (dimOf u "relocation_openness"), sim_comm (dimOf u "career_intensity"),
    sim_comm (dimOf u "define_intentions_early")]

theorem penStep1_fst_comm (u v : JVal) (cfg : Cfg) (s t : ℚ × List String)
    (h : s.1 = t.1) : (penStep1 u v cfg s).1 = (penStep1 v u cfg t).1 := by
  unfold penStep1
  by_cases h1 : dimOf u "escalation" > cfgGet cfg "ESCALATION_PENALTY_THRESHOLD" (7/10)
      ∧ dimOf v "escalation" > cfgGet cfg "ESCALATION_PENALTY_THRESHOLD" (7/10)
  · rw [if_pos h1, if_pos (and_comm.mp h1), h]
  · rw [if_neg h1, if_neg (fun hc => h1 (and_comm.mp hc)), h]

theorem penStep2_fst_comm (u v : JVal) (cfg : Cfg) (s t : ℚ × List String)
    (h : s.1 = t.1) : (penStep2 u v cfg s).1 = (penStep2 v u cfg t).1 := by
  unfold penStep2
  by_cases h1 : dimOf u "withdrawal" > cfgGet cfg "WITHDRAWAL_PENALTY_THRESHOLD" (7/10)
      ∧ dimOf v "withdrawal" > cfgGet cfg "WITHDRAWAL_PENALTY_THRESHOLD" (7/10)
  · rw [if_pos h1, if_pos (and_comm.mp h1), h]
  · rw [if_neg h1, if_neg (fun hc => h1 (and_comm.mp hc)), h]

theorem penStep34_fst_comm (u v : JVal) (cfg : Cfg) (s t : ℚ × List String)
    (h : s.1 = t.1) :
    (penStep4 u v cfg (penStep3 u v cfg s)).1 = (penStep4 v u cfg (penStep3 v u cfg t)).1 := by
  unfold penStep3 penStep4
  by_cases h3 : dimOf u "reassurance_need" > 4/5 ∧ dimOf v "independence_need" > 4/5 <;>
    by_cases h4 : dimOf v "reassurance_need" > 4/5 ∧ dimOf u "independence_need" > 4/5
  · simp only [if_pos h3, if_pos h4, h]
  · simp only [if_pos h3, if_neg h4, h]
  · simp only [if_neg h3, if_pos h4, h]
  · simp only [if_neg h3, if_neg h4, h]

theorem applyPenalties_fst_comm (u v : JVal) (cfg : Cfg) (t : ℚ) :
    (applyPenalties u v cfg t).1 = (applyPenalties v u cfg t).1 := by
  unfold applyPenalties
  exact penStep34_fst_comm u v cfg _ _
    (penStep2_fst_comm u v cfg _ _ (penStep1_fst_comm u v cfg _ _ rfl))

theorem currentScore_score_comm (u v : JVal) (cfg : Cfg) :
    (currentScore u v cfg).score_total = (currentScore v u cfg).score_total := by
  unfold currentScore
  rw [blendTotal_comm, applyPenalties_fst_comm]

theorem zip_sub_sq_sum_comm (a b : List ℚ) :
    ((a.zip b).map (fun p => (p.1 - p.2) ^ 2)).sum
      = ((b.zip a).map (fun p => (p.1 - p.2) ^ 2)).sum := by
  induction a generalizing b with
  | nil => cases b <;> simp
  | cons x xs ih =>
    cases b with
    | nil => simp
    | cons y ys => simp [ih ys]; ring

theorem vectorSimilarity_comm (sqrtQ : ℚ → ℚ) (a b : List ℚ) :
    vectorSimilarity sqrtQ a b = vectorSimilarity sqrtQ b a := by
  unfold vectorSimilarity
  by_cases hl : a.length = b.length
  · by_cases ha : a.isEmpty <;> by_cases hb : b.isEmpty <;>
      simp [ha, hb, hl, zip_sub_sq_sum_comm a b]
  · have hl' : b.length ≠ a.length := fun h => hl h.symm
    simp [hl, hl']

theorem modFactor_comm (u v : JVal) (scale cap : ℚ) (kv : String × String) :
    modFactor u v scale cap kv = modFactor v u scale cap kv := by
  unfold modFactor
  rw [abs_sub_comm, add_comm (modField u kv.1 "importance"),
    add_comm (modField u kv.1 "flexibility")]

theorem modifierFold_fst_comm (u v : JVal) (scale cap : ℚ)
    (l : List (String × String)) :
    ∀ acc acc' : ℚ × List (String × ℚ), acc.1 = acc'.1 →
      (l.foldl (modifierStep u v scale cap) acc).1
        = (l.foldl (modifierStep v u scale cap) acc').1 := by
  induction l with
  | nil => intro acc acc' h; simpa using h
  | cons kv rest ih =>
    intro acc acc' h
    simp only [List.foldl_cons]
    exact ih _ _ (by simp [modifierStep, h, modFactor_comm u v scale cap kv])

theorem modifierPenalty_fst_comm (u v : JVal) (cfg : Cfg) :
    (modifierPenalty u v cfg).1 = (modifierPenalty v u cfg).1 := by
  unfold modifierPenalty
  simp only
  rw [modifierFold_fst_comm u v _ _ modMapping (1, []) (1, []) rfl]

theorem big5Vec_length (t : JVal) : (big5Vec t).length = 5 := by
  simp [big5Vec]

theorem conflictVec_length (t : JVal) : (conflictVec t).length = 4 := by
  simp [conflictVec]

theorem legacyScore_score_comm (sqrtQ : ℚ → ℚ) (u v : JVal) (cfg : Cfg) :
    (legacyScore sqrtQ u v cfg).score_total = (legacyScore sqrtQ v u cfg).score_total := by
  unfold legacyScore legacyBaseScore
  rw [vectorSimilarity_comm sqrtQ (big5Vec u), vectorSimilarity_comm sqrtQ (conflictVec u),
    modifierPenalty_fst_comm]

/-! ### Claim theorems C1, C2, C10 -/

/-- C1: whenever one side's kids intent is firmly positive (`yes` or
`probably`) and the other side's is firmly negative (`no` or
`probably_not`) — so in particular neither is `unsure` —
`compute_compatibility` short-circuits with `score_total == 0.0` and
`gates == ["kids_hard_conflict"]`, no matter what every other dimension or
the config says. -/
theorem kids_hard_conflict_zeroes_score (sqrtQ : ℚ → ℚ) (u v : JVal) (cfg : Cfg)
    (h : (kidsIntentOf u ∈ ["yes", "probably"] ∧ kidsIntentOf v ∈ ["no", "probably_not"])
      ∨ (kidsIntentOf v ∈ ["yes", "probably"] ∧ kidsIntentOf u ∈ ["no", "probably_not"])) :
    (computeCompatibility sqrtQ u v cfg).score_total = 0
      ∧ (computeCompatibility sqrtQ u v cfg).gates = ["kids_hard_conflict"] := by
  have hm : kidsHardMismatch (kidsIntentOf u) (kidsIntentOf v) = true := by
    rcases h with ⟨h1, h2⟩ | ⟨h1, h2⟩ <;>
      simp only [List.mem_cons, List.mem_singleton, List.not_mem_nil, or_false] at h1 h2 <;>
        rcases h1 with h1 | h1 <;> rcases h2 with h2 | h2 <;>
          rw [kidsHardMismatch, h1, h2] <;> rfl
  simp [computeCompatibility, hm]

/-- Witness for C1 at a concrete conflicting pair. -/
theorem kids_hard_conflict_zeroes_score_witness :
    (computeCompatibility (fun q => q)
        (.obj [("life", .obj [("kids_intent", .str "yes")])])
        (.obj [("life", .obj [("kids_intent", .str "no")])]) []).score_total = 0
      ∧ (computeCompatibility (fun q => q)
        (.obj [("life", .obj [("kids_intent", .str "yes")])])
        (.obj [("life", .obj [("kids_intent", .str "no")])]) []).gates
          = ["kids_hard_conflict"] :=
  kids_hard_conflict_zeroes_score (fun q => q) _ _ [] (Or.inl (by constructor <;> decide))

/-- C2: `compute_compatibility` is symmetric in its two trait arguments:
for every pair of trait values and every config (and every square-root
implementation) the two orders produce the same `score_total`. -/
theorem computeCompatibility_score_symm (sqrtQ : ℚ → ℚ) (u v : JVal) (cfg : Cfg) :
    (computeCompatibility sqrtQ u v cfg).score_total
      = (computeCompatibility sqrtQ v u cfg).score_total := by
  unfold computeCompatibility
  rw [kidsHardMismatch_comm (kidsIntentOf v)]
  by_cases hk : kidsHardMismatch (kidsIntentOf u) (kidsIntentOf v) = true
  · simp [hk]
  · simp only [hk]
    by_cases hg : dimOf u "escalation" > cfgGet cfg "ESCALATION_GATE" (95/100)
        ∧ dimOf v "escalation" > cfgGet cfg "ESCALATION_GATE" (95/100)
    · rw [if_pos hg, if_pos (and_comm.mp hg)]
    · have hg' : ¬ (dimOf v "escalation" > cfgGet cfg "ESCALATION_GATE" (95/100)
          ∧ dimOf u "escalation" > cfgGet cfg "ESCALATION_GATE" (95/100)) :=
        fun hc => hg (and_comm.mp hc)
      rw [if_neg hg, if_neg hg']
      by_cases hd : jHas u "dimensions" = false ∧ jHas v "dimensions" = false
      · rw [if_pos hd, if_pos (and_comm.mp hd)]
        exact legacyScore_score_comm sqrtQ u v cfg
      · rw [if_neg hd, if_neg (fun hc => hd (and_comm.mp hc))]
        exact currentScore_score_comm u v cfg

/-- `float(v)` as a partial conversion: `none` exactly when CPython's
`float()` raises (and for `None`). -/
def pyFloatCoe (v : JVal) : Option ℚ :=
  match v with
  | .num q => some q
  | .bool b => some (if b then 1 else 0)
  | .str s => parseFloatQ (pyStrip s)
  | _ => none

theorem toFloat_eq_coe (v : JVal) (d : ℚ) : toFloat v d = (pyFloatCoe v).getD d := by
  cases v <;> rfl

theorem round6_mem_unit {q : ℚ} (h0 : 0 ≤ q) (h1 : q ≤ 1) :
    0 ≤ round6 q ∧ round6 q ≤ 1 := by
  unfold round6
  rw [round_eq]
  constructor
  · apply div_nonneg _ (by norm_num)
    have : (0 : ℤ) ≤ ⌊q * 1000000 + 1 / 2⌋ := by
      apply Int.floor_nonneg.mpr
      positivity
    exact_mod_cast this
  · rw [div_le_one (by norm_num)]
    have : ⌊q * 1000000 + 1 / 2⌋ ≤ (1000000 : ℤ) := by
      rw [Int.floor_le_iff]
      push_cast
      nlinarith
    exact_mod_cast this

/-- C10: `compute_compatibility` is total and defaults neutrally on
missing data: a dimension value that `float()` cannot convert (including
an absent key, which reads as `None`) is read as the midpoint `0.5`; an
absent kids intent reads as `"unsure"`; a side whose kids intent reads
`"unsure"` never triggers the kids hard gate; and the score of two empty
trait dicts is a well-defined value in `[0, 1]` for every config. -/
theorem compute_total_neutral_defaults (sqrtQ : ℚ → ℚ) (cfg : Cfg) :
    (∀ t k, pyFloatCoe (jGet (pyOr (jGet t "dimensions") (.obj [])) k) = none →
      dimOf t k = 1/2)
    ∧ (∀ t, jHas (pyOr (jGet t "life") (.obj [])) "kids_intent" = false →
        jHas (pyOr (jGet t "life_constraints") (.obj [])) "kids_preference" = false →
        kidsIntentOf t = "unsure")
    ∧ (∀ u v, kidsIntentOf u = "unsure" →
        "kids_hard_conflict" ∉ (computeCompatibility sqrtQ u v cfg).gates)
    ∧ (0 ≤ (computeCompatibility sqrtQ (.obj []) (.obj []) cfg).score_total
        ∧ (computeCompatibility sqrtQ (.obj []) (.obj []) cfg).score_total ≤ 1) := by
  refine ⟨?_, ?_, ?_, ?_⟩
  · intro t k h
    rw [dimOf, toFloat_eq_coe, h]
    rfl
  · intro t h1 h2
    rw [kidsIntentOf, lifeGet]
    simp only [h1, h2, Bool.false_eq_true, if_false, if_true, reduceIte]
    rfl
  · intro u v hu
    have hm : kidsHardMismatch (kidsIntentOf u) (kidsIntentOf v) = false := by
      rw [kidsHardMismatch, hu]
      simp
    unfold computeCompatibility
    rw [hm]
    simp only [Bool.false_eq_true, if_false]
    by_cases hg : dimOf u "escalation" > cfgGet cfg "ESCALATION_GATE" (95/100)
        ∧ dimOf v "escalation" > cfgGet cfg "ESCALATION_GATE" (95/100)
    · rw [if_pos hg]; simp
    · rw [if_neg hg]
      by_cases hd : jHas u "dimensions" = false ∧ jHas v "dimensions" = false
      · rw [if_pos hd]; simp [legacyScore]
      · rw [if_neg hd]; simp [currentScore]
  · have hempty : kidsHardMismatch (kidsIntentOf (JVal.obj [])) (kidsIntentOf (JVal.obj [])) = false := by
      rfl
    unfold computeCompatibility
    rw [hempty]
    simp only [Bool.false_eq_true, if_false]
    by_cases hg : dimOf (JVal.obj []) "escalation" > cfgGet cfg "ESCALATION_GATE" (95/100)
        ∧ dimOf (JVal.obj []) "escalation" > cfgGet cfg "ESCALATION_GATE" (95/100)
    · rw [if_pos hg]
      norm_num
    · rw [if_neg hg, if_pos ⟨rfl, rfl⟩]
      unfold legacyScore
      apply round6_mem_unit
      · exact le_max_left 0 _
      · exact max_le (by norm_num) (min_le_left 1 _)

/-- Witness for C10's universally quantified clauses at concrete inputs. -/
theorem compute_total_neutral_defaults_witness :
    dimOf (.obj [("dimensions", .obj [("stability", .str "abc")])]) "stability" = 1/2
      ∧ kidsIntentOf (.obj []) = "unsure"
      ∧ "kids_hard_conflict" ∉ (computeCompatibility (fun q => q) (.obj [])
          (.obj [("life", .obj [("kids_intent", .str "no")])]) []).gates := by
  refine ⟨?_, ?_, ?_⟩
  · exact (compute_total_neutral_defaults (fun q => q) []).1
      (.obj [("dimensions", .obj [("stability", .str "abc")])]) "stability" (by decide)
  · exact (compute_total_neutral_defaults (fun q => q) []).2.1 (.obj []) rfl rfl
  · exact (compute_total_neutral_defaults (fun q => q) []).2.2.1 (.obj [])
      (.obj [("life", .obj [("kids_intent", .str "no")])]) rfl

/-- C9: once `now ≥ expires_at`, `transition_status` maps the active
states `proposed` and `revealed` to `expired` for every requested action
(expiry takes precedence over the action), and `no_match` is terminal:
every action maps it to `no_match`. -/
theorem transition_expiry_and_no_match_terminal (action : String) (now expiresAt : ℤ) :
    (now ≥ expiresAt →
      transitionStatus "proposed" action now expiresAt = "expired"
        ∧ transitionStatus "revealed" action now expiresAt = "expired")
    ∧ transitionStatus "no_match" action now expiresAt = "no_match" := by
  constructor
  · intro h
    constructor <;>
      · unfold transitionStatus
        rw [if_neg (by decide), if_pos ⟨by decide, h⟩]
  · rfl

/-- Witness for C9 at a concrete action and timestamps. -/
theorem transition_expiry_and_no_match_terminal_witness :
    transitionStatus "proposed" "accept" 5 3 = "expired"
      ∧ transitionStatus "revealed" "accept" 5 3 = "expired"
      ∧ transitionStatus "no_match" "accept" 5 3 = "no_match" := by
  refine ⟨?_, ?_, ?_⟩
  · exact ((transition_expiry_and_no_match_terminal "accept" 5 3).1 (by norm_num)).1
  · exact ((transition_expiry_and_no_match_terminal "accept" 5 3).1 (by norm_num)).2
  · exact (transition_expiry_and_no_match_terminal "accept" 5 3).2

theorem pairsOf_mem {u v : User} {l : List User} (h : (u, v) ∈ pairsOf l) :
    u ∈ l ∧ v ∈ l := by
  induction l with
  | nil => simp [pairsOf] at h
  | cons w rest ih =>
    simp only [pairsOf, List.mem_append, List.mem_map] at h
    rcases h with ⟨x, hx, hxe⟩ | hrec
    · rw [Prod.mk.injEq] at hxe
      obtain ⟨rfl, rfl⟩ := hxe
      exact ⟨List.mem_cons_self _ _, List.mem_cons_of_mem _ hx⟩
    · exact ⟨List.mem_cons_of_mem _ (ih hrec).1, List.mem_cons_of_mem _ (ih hrec).2⟩

/-- C4: every candidate emitted by `build_candidate_pairs` has a canonical
pair key outside both the recency and the blocked exclusion sets, and
stems from two pool users that are mutually gender-preference compatible:
both identities normalize to a non-empty gender, both seeking sets are
non-empty, and each identity is a member of the other's seeking set
(so a pair with an empty/unset identity or seeking set is excluded —
fail closed). -/
theorem candidate_pairs_respect_exclusions_and_mutual_preference
    (sqrtQ : ℚ → ℚ) (users : List User) (cfg : Cfg)
    (recentPairs blockedPairs : List (String × String))
    (c : MatchCandidate) (hc : c ∈ buildCandidatePairs sqrtQ users cfg recentPairs blockedPairs) :
    canonicalPair c.user_id c.matched_user_id ∉ recentPairs
      ∧ canonicalPair c.user_id c.matched_user_id ∉ blockedPairs
      ∧ ∃ u v : User, u ∈ users ∧ v ∈ users
          ∧ c.user_id = u.user_id ∧ c.matched_user_id = v.user_id
          ∧ ∃ gu gv : String,
              normalizeGender u.gender_identity = some gu
              ∧ normalizeGender v.gender_identity = some gv
              ∧ parseSeeking u.seeking_genders ≠ []
              ∧ parseSeeking v.seeking_genders ≠ []
              ∧ gv ∈ parseSeeking u.seeking_genders
              ∧ gu ∈ parseSeeking v.seeking_genders := by
  unfold buildCandidatePairs at hc
  rw [List.mem_filterMap] at hc
  obtain ⟨⟨u, v⟩, huv, hsome⟩ := hc
  by_cases h1 : canonicalPair u.user_id v.user_id ∈ recentPairs
  · rw [if_pos h1] at hsome; cases hsome
  rw [if_neg h1] at hsome
  by_cases h2 : canonicalPair u.user_id v.user_id ∈ blockedPairs
  · rw [if_pos h2] at hsome; cases hsome
  rw [if_neg h2] at hsome
  by_cases h3 : genderPreferenceCompatible u v = false
  · rw [if_pos h3] at hsome; cases hsome
  rw [if_neg h3] at hsome
  obtain rfl := Option.some.inj hsome
  have hcompat : genderPreferenceCompatible u v = true := by
    cases hgb : genderPreferenceCompatible u v
    · exact absurd hgb h3
    · rfl
  have hmem : u ∈ users ∧ v ∈ users := pairsOf_mem huv
  refine ⟨h1, h2, u, v, hmem.1, hmem.2, rfl, rfl, ?_⟩
  unfold genderPreferenceCompatible at hcompat
  cases hgu : normalizeGender u.gender_identity with
  | none => rw [hgu] at hcompat; cases hcompat
  | some gu =>
    cases hgv : normalizeGender v.gender_identity with
    | none => rw [hgu, hgv] at hcompat; cases hcompat
    | some gv =>
      rw [hgu, hgv] at hcompat
      simp only [Bool.and_eq_true, Bool.not_eq_true'] at hcompat
      obtain ⟨⟨⟨hus, hvs⟩, hgvm⟩, hgum⟩ := hcompat
      exact ⟨gu, gv, rfl, rfl, List.isEmpty_eq_false.mp hus,
        List.isEmpty_eq_false.mp hvs, List.mem_of_elem_eq_true hgvm,
        List.mem_of_elem_eq_true hgum⟩

/-- Witness for C4 on a concrete two-user pool with one emitted pair. -/
theorem candidate_pairs_witness :
    (({ user_id := "a", matched_user_id := "b", score_total := (computeCompatibility (fun q => q) (JVal.obj []) (JVal.obj []) []).score_total, score_breakdown := computeCompatibility (fun q => q) (JVal.obj []) (JVal.obj []) [] } : MatchCandidate)
        ∈ buildCandidatePairs (fun q => q) [({ user_id := "a", traits := JVal.obj [], gender_identity := JVal.str "man", seeking_genders := JVal.arr [JVal.str "woman"] } : User), ({ user_id := "b", traits := JVal.obj [], gender_identity := JVal.str "woman", seeking_genders := JVal.arr [JVal.str "man"] } : User)] [] [("x", "y")] [])
    ∧ (canonicalPair ({ user_id := "a", matched_user_id := "b", score_total := (computeCompatibility (fun q => q) (JVal.obj []) (JVal.obj []) []).score_total, score_breakdown := computeCompatibility (fun q => q) (JVal.obj []) (JVal.obj []) [] } : MatchCandidate).user_id
          ({ user_id := "a", matched_user_id := "b", score_total := (computeCompatibility (fun q => q) (JVal.obj []) (JVal.obj []) []).score_total, score_breakdown := computeCompatibility (fun q => q) (JVal.obj []) (JVal.obj []) [] } : MatchCandidate).matched_user_id ∉ [("x", "y")]
      ∧ canonicalPair ({ user_id := "a", matched_user_id := "b", score_total := (computeCompatibility (fun q => q) (JVal.obj []) (JVal.obj []) []).score_total, score_breakdown := computeCompatibility (fun q => q) (JVal.obj []) (JVal.obj []) [] } : MatchCandidate).user_id
          ({ user_id := "a", matched_user_id := "b", score_total := (computeCompatibility (fun q => q) (JVal.obj []) (JVal.obj []) []).score_total, score_breakdown := computeCompatibility (fun q => q) (JVal.obj []) (JVal.obj []) [] } : MatchCandidate).matched_user_id ∉ ([] : List (String × String))
      ∧ ∃ u v : User, u ∈ [({ user_id := "a", traits := JVal.obj [], gender_identity := JVal.str "man", seeking_genders := JVal.arr [JVal.str "woman"] } : User), ({ user_id := "b", traits := JVal.obj [], gender_identity := JVal.str "woman", seeking_genders := JVal.arr [JVal.str "man"] } : User)] ∧ v ∈ [({ user_id := "a", traits := JVal.obj [], gender_identity := JVal.str "man", seeking_genders := JVal.arr [JVal.str "woman"] } : User), ({ user_id := "b", traits := JVal.obj [], gender_identity := JVal.str "woman", seeking_genders := JVal.arr [JVal.str "man"] } : User)]
          ∧ ({ user_id := "a", matched_user_id := "b", score_total := (computeCompatibility (fun q => q) (JVal.obj []) (JVal.obj []) []).score_total, score_breakdown := computeCompatibility (fun q => q) (JVal.obj []) (JVal.obj []) [] } : MatchCandidate).user_id = u.user_id
          ∧ ({ user_id := "a", matched_user_id := "b", score_total := (computeCompatibility (fun q => q) (JVal.obj []) (JVal.obj []) []).score_total, score_breakdown := computeCompatibility (fun q => q) (JVal.obj []) (JVal.obj []) [] } : MatchCandidate).matched_user_id = v.user_id
          ∧ ∃ gu gv : String,
              normalizeGender u.gender_identity = some gu
              ∧ normalizeGender v.gender_identity = some gv
              ∧ parseSeeking u.seeking_genders ≠ []
              ∧ parseSeeking v.seeking_genders ≠ []
              ∧ gv ∈ parseSeeking u.seeking_genders
              ∧ gu ∈ parseSeeking v.seeking_genders) := by
  have hrec : canonicalPair "a" "b" ∉ [("x", "y")] := by
    unfold canonicalPair
    by_cases h : ("a" : String) ≤ "b"
    · rw [if_pos h]; decide
    · rw [if_neg h]; decide
  have hblk : canonicalPair "a" "b" ∉ ([] : List (String × String)) := by
    simp
  have hgc : ¬ (genderPreferenceCompatible ({ user_id := "a", traits := JVal.obj [], gender_identity := JVal.str "man", seeking_genders := JVal.arr [JVal.str "woman"] } : User) ({ user_id := "b", traits := JVal.obj [], gender_identity := JVal.str "woman", seeking_genders := JVal.arr [JVal.str "man"] } : User) = false) := by
    rw [show genderPreferenceCompatible ({ user_id := "a", traits := JVal.obj [], gender_identity := JVal.str "man", seeking_genders := JVal.arr [JVal.str "woman"] } : User) ({ user_id := "b", traits := JVal.obj [], gender_identity := JVal.str "woman", seeking_genders := JVal.arr [JVal.str "man"] } : User) = true from by decide]
    decide
  have hmem : ({ user_id := "a", matched_user_id := "b", score_total := (computeCompatibility (fun q => q) (JVal.obj []) (JVal.obj []) []).score_total, score_breakdown := computeCompatibility (fun q => q) (JVal.obj []) (JVal.obj []) [] } : MatchCandidate)
      ∈ buildCandidatePairs (fun q => q) [({ user_id := "a", traits := JVal.obj [], gender_identity := JVal.str "man", seeking_genders := JVal.arr [JVal.str "woman"] } : User), ({ user_id := "b", traits := JVal.obj [], gender_identity := JVal.str "woman", seeking_genders := JVal.arr [JVal.str "man"] } : User)] [] [("x", "y")] [] := by
    unfold buildCandidatePairs
    apply List.mem_filterMap.mpr
    refine ⟨(({ user_id := "a", traits := JVal.obj [], gender_identity := JVal.str "man", seeking_genders := JVal.arr [JVal.str "woman"] } : User), ({ user_id := "b", traits := JVal.obj [], gender_identity := JVal.str "woman", seeking_genders := JVal.arr [JVal.str "man"] } : User)), by simp [pairsOf], ?_⟩
    rw [if_neg hrec, if_neg hblk, if_neg hgc]
  exact ⟨hmem,
    candidate_pairs_respect_exclusions_and_mutual_preference (fun q => q)
      [({ user_id := "a", traits := JVal.obj [], gender_identity := JVal.str "man", seeking_genders := JVal.arr [JVal.str "woman"] } : User), ({ user_id := "b", traits := JVal.obj [], gender_identity := JVal.str "woman", seeking_genders := JVal.arr [JVal.str "man"] } : User)] [] [("x", "y")] [] ({ user_id := "a", matched_user_id := "b", score_total := (computeCompatibility (fun q => q) (JVal.obj []) (JVal.obj []) []).score_total, score_breakdown := computeCompatibility (fun q => q) (JVal.obj []) (JVal.obj []) [] } : MatchCandidate) hmem⟩

theorem lookup_appendEntry_cases {α : Type} (l : List (String × List α)) (k : String)
    (x : α) (k' : String) :
    (appendEntry l k x).lookup k' = l.lookup k'
      ∨ (k' = k ∧ (appendEntry l k x).lookup k' = (l.lookup k').map (fun v => v ++ [x])) := by
  induction l with
  | nil => left; simp [appendEntry]
  | cons hd t ih =>
    obtain ⟨k0, v0⟩ := hd
    by_cases h0 : k0 = k
    · subst h0
      by_cases h1 : k' = k0
      · subst h1
        right
        refine ⟨rfl, ?_⟩
        simp [appendEntry, List.lookup_cons]
      · left
        have h1b : (k' == k0) = false := beq_eq_false_iff_ne.mpr h1
        simp [appendEntry, List.lookup_cons, h1b]
    · have h0b : (k0 == k) = false := beq_eq_false_iff_ne.mpr h0
      by_cases h1 : k' = k0
      · subst h1
        left
        simp [appendEntry, h0b, List.lookup_cons]
      · have h1b : (k' == k0) = false := beq_eq_false_iff_ne.mpr h1
        rcases ih with ih | ⟨hk, ih⟩
        · left
          simp [appendEntry, h0b, List.lookup_cons, h1b, ih]
        · right
          exact ⟨hk, by simp [appendEntry, h0b, List.lookup_cons, h1b, ih]⟩

theorem lookup_map_snd {α β : Type} (l : List (String × α)) (F : α → β) (k : String) :
    (l.map (fun kv => (kv.1, F kv.2))).lookup k = (l.lookup k).map F := by
  induction l with
  | nil => simp
  | cons hd t ih =>
    obtain ⟨k0, v0⟩ := hd
    by_cases h0 : k = k0
    · subst h0
      simp [List.lookup_cons]
    · have h0b : (k == k0) = false := beq_eq_false_iff_ne.mpr h0
      simp [List.lookup_cons, h0b, ih]

theorem lookup_seed_getD (users : List User) (uid : String) :
    (((users.map (fun u => (u.user_id, ([] : List (String × ℚ))))).lookup uid).getD []) = [] := by
  induction users with
  | nil => simp
  | cons u t ih =>
    by_cases h0 : uid = u.user_id
    · subst h0
      simp [List.lookup_cons]
    · have h0b : (uid == u.user_id) = false := beq_eq_false_iff_ne.mpr h0
      simp [List.lookup_cons, h0b, ih]

theorem canonicalPair_comm (a b : String) : canonicalPair a b = canonicalPair b a := by
  unfold canonicalPair
  split_ifs with h1 h2 h2
  · obtain rfl : a = b := le_antisymm h1 h2
    rfl
  · rfl
  · rfl
  · exact absurd ((le_total a b).resolve_left h1) h2

theorem canonicalPair_eq_iff (a b c d : String) :
    canonicalPair a b = canonicalPair c d ↔ (a = c ∧ b = d) ∨ (a = d ∧ b = c) := by
  constructor
  · unfold canonicalPair
    split_ifs with h1 h2 h2 <;> intro h <;>
      obtain ⟨hx, hy⟩ := Prod.mk.injEq .. ▸ h
    · exact Or.inl ⟨hx, hy⟩
    · exact Or.inr ⟨hx, hy⟩
    · exact Or.inr ⟨hy, hx⟩
    · exact Or.inl ⟨hy, hx⟩
  · rintro (⟨rfl, rfl⟩ | ⟨rfl, rfl⟩)
    · rfl
    · exact canonicalPair_comm a b

theorem pairsOf_ne {users : List User} (hnd : (users.map User.user_id).Nodup)
    {u v : User} (h : (u, v) ∈ pairsOf users) : u.user_id ≠ v.user_id := by
  induction users with
  | nil => simp [pairsOf] at h
  | cons w t ih =>
    simp only [pairsOf, List.mem_append] at h
    simp only [List.map_cons, List.nodup_cons] at hnd
    rcases h with h | h
    · obtain ⟨v', hv', he⟩ := List.mem_map.mp h
      obtain ⟨h1, h2⟩ := Prod.mk.injEq .. ▸ he
      subst h1; subst h2
      intro hc
      exact hnd.1 (hc ▸ List.mem_map_of_mem User.user_id hv')
    · exact ih hnd.2 h

theorem canon_pairsOf_nodup {users : List User} (hnd : (users.map User.user_id).Nodup) :
    ((pairsOf users).map (fun q => canonicalPair q.1.user_id q.2.user_id)).Nodup := by
  induction users with
  | nil => simp [pairsOf]
  | cons w t ih =>
    simp only [List.map_cons, List.nodup_cons] at hnd
    simp only [pairsOf, List.map_append]
    rw [List.nodup_append]
    refine ⟨?_, ih hnd.2, ?_⟩
    · rw [List.map_map]
      have htnd : t.Nodup := List.Nodup.of_map _ hnd.2
      refine htnd.map_on ?_
      intro x hx y hy hxy
      simp only [Function.comp] at hxy
      rcases (canonicalPair_eq_iff ..).mp hxy with ⟨h1, h2⟩ | ⟨h1, h2⟩
      · exact List.inj_on_of_nodup_map hnd.2 hx hy h2
      · exact List.inj_on_of_nodup_map hnd.2 hx hy (h2.trans h1)
    · intro c hc1 hc2
      rw [List.map_map] at hc1
      obtain ⟨v, hv, he⟩ := List.mem_map.mp hc1
      obtain ⟨q, hq, he2⟩ := List.mem_map.mp hc2
      simp only [Function.comp] at he
      rw [← he] at he2
      have hmem := pairsOf_mem hq
      rcases (canonicalPair_eq_iff ..).mp he2 with ⟨h1, _⟩ | ⟨_, h2⟩
      · exact hnd.1 (h1 ▸ List.mem_map_of_mem User.user_id hmem.1)
      · exact hnd.1 (h2 ▸ List.mem_map_of_mem User.user_id hmem.2)

theorem pairTouches_iff (p : MatchCandidate) (uid x : String) :
    pairTouches p uid x = true
      ↔ (p.user_id = uid ∧ p.matched_user_id = x)
        ∨ (p.user_id = x ∧ p.matched_user_id = uid) := by
  simp [pairTouches, Bool.or_eq_true, Bool.and_eq_true, beq_iff_eq]

theorem prefStep_partner_count (minScore : ℚ) (eps : String → String → ℚ)
    (acc : List (String × List (String × ℚ))) (p : MatchCandidate)
    (hpd : p.user_id ≠ p.matched_user_id) (uid x : String) :
    ((((prefStep minScore eps acc p).lookup uid).getD []).map Prod.fst).count x
      ≤ ((((acc.lookup uid).getD []).map Prod.fst).count x)
        + (if pairTouches p uid x = true then 1 else 0) := by
  have key : ∀ (o : Option (List (String × ℚ))) (y : String × ℚ),
      (((o.map (fun v => v ++ [y])).getD []).map Prod.fst).count x
        ≤ (((o.getD []).map Prod.fst).count x) + (if y.1 = x then 1 else 0) := by
    intro o y
    cases o with
    | none => simp
    | some v =>
      simp only [Option.map_some', Option.getD_some, List.map_append, List.map_cons,
        List.map_nil, List.count_append, List.count_cons, List.count_nil]
      by_cases hy : y.1 = x
      · have : (y.1 == x) = true := beq_iff_eq.mpr hy
        rw [this, if_pos hy]
        simp only [if_true, reduceIte]
        omega
      · have : (y.1 == x) = false := beq_eq_false_iff_ne.mpr hy
        rw [this, if_neg hy]
        simp only [Bool.false_eq_true, if_false, reduceIte]
        omega
  unfold prefStep
  by_cases hsc : p.score_total < minScore
  · rw [if_pos hsc]
    split_ifs <;> omega
  · rw [if_neg hsc]
    rcases lookup_appendEntry_cases
        (appendEntry acc p.user_id
          (p.matched_user_id, p.score_total + eps p.user_id p.matched_user_id))
        p.matched_user_id (p.user_id, p.score_total + eps p.user_id p.matched_user_id)
        uid with hout | ⟨hB, hout⟩
    · rw [hout]
      rcases lookup_appendEntry_cases acc p.user_id
          (p.matched_user_id, p.score_total + eps p.user_id p.matched_user_id)
          uid with hin | ⟨hA, hin⟩
      · rw [hin]
        split_ifs <;> omega
      · rw [hin]
        have hk := key (acc.lookup uid)
          (p.matched_user_id, p.score_total + eps p.user_id p.matched_user_id)
        by_cases hBx : p.matched_user_id = x
        · rw [if_pos hBx] at hk
          rw [if_pos ((pairTouches_iff p uid x).mpr (Or.inl ⟨hA.symm, hBx⟩))]
          omega
        · rw [if_neg hBx] at hk
          split_ifs <;> omega
    · rcases lookup_appendEntry_cases acc p.user_id
          (p.matched_user_id, p.score_total + eps p.user_id p.matched_user_id)
          uid with hin | ⟨hA, hin⟩
      · rw [hin] at hout
        rw [hout]
        have hk := key (acc.lookup uid)
          (p.user_id, p.score_total + eps p.user_id p.matched_user_id)
        by_cases hAx : p.user_id = x
        · rw [if_pos hAx] at hk
          rw [if_pos ((pairTouches_iff p uid x).mpr (Or.inr ⟨hAx, hB.symm⟩))]
          omega
        · rw [if_neg hAx] at hk
          split_ifs <;> omega
      · exact absurd (hA.symm.trans hB) hpd

theorem prefFold_partner_count (minScore : ℚ) (eps : String → String → ℚ) :
    ∀ (pairs : List MatchCandidate) (acc : List (String × List (String × ℚ))),
      (∀ p ∈ pairs, p.user_id ≠ p.matched_user_id) → ∀ uid x : String,
      ((((pairs.foldl (prefStep minScore eps) acc).lookup uid).getD []).map Prod.fst).count x
        ≤ ((((acc.lookup uid).getD []).map Prod.fst).count x)
          + (pairs.filter (fun p => pairTouches p uid x)).length := by
  intro pairs
  induction pairs with
  | nil =>
    intro acc h uid x
    simp
  | cons p rest ih =>
    intro acc h uid x
    rw [List.foldl_cons]
    simp only [List.filter_cons]
    have h1 := prefStep_partner_count minScore eps acc p (h p (List.mem_cons_self _ _)) uid x
    have h2 := ih (prefStep minScore eps acc p)
      (fun q hq => h q (List.mem_cons_of_mem _ hq)) uid x
    cases hT : pairTouches p uid x with
    | true =>
      rw [if_pos hT] at h1
      simp only [hT, if_true, reduceIte, List.length_cons]
      omega
    | false =>
      rw [hT] at h1
      simp only [Bool.false_eq_true, if_false, reduceIte] at h1
      simp only [hT, Bool.false_eq_true, if_false, reduceIte]
      omega

theorem prefStep_partner_src (minScore : ℚ) (eps : String → String → ℚ)
    (acc : List (String × List (String × ℚ))) (p : MatchCandidate) (uid x : String)
    (h : x ∈ ((((prefStep minScore eps acc p).lookup uid).getD []).map Prod.fst)) :
    x ∈ (((acc.lookup uid).getD []).map Prod.fst) ∨ pairTouches p uid x = true := by
  have key : ∀ (o : Option (List (String × ℚ))) (y : String × ℚ),
      x ∈ (((o.map (fun v => v ++ [y])).getD []).map Prod.fst) →
        x ∈ (((o.getD []).map Prod.fst)) ∨ x = y.1 := by
    intro o y hmem
    cases o with
    | none => simp at hmem
    | some v =>
      simp only [Option.map_some', Option.getD_some, List.map_append, List.map_cons,
        List.map_nil, List.mem_append, List.mem_cons, List.not_mem_nil, or_false] at hmem
      exact hmem
  unfold prefStep at h
  by_cases hsc : p.score_total < minScore
  · rw [if_pos hsc] at h
    exact Or.inl h
  · rw [if_neg hsc] at h
    rcases lookup_appendEntry_cases
        (appendEntry acc p.user_id
          (p.matched_user_id, p.score_total + eps p.user_id p.matched_user_id))
        p.matched_user_id (p.user_id, p.score_total + eps p.user_id p.matched_user_id)
        uid with hout | ⟨hB, hout⟩
    · rw [hout] at h
      rcases lookup_appendEntry_cases acc p.user_id
          (p.matched_user_id, p.score_total + eps p.user_id p.matched_user_id)
          uid with hin | ⟨hA, hin⟩
      · rw [hin] at h
        exact Or.inl h
      · rw [hin] at h
        rcases key _ _ h with h | h
        · exact Or.inl h
        · exact Or.inr ((pairTouches_iff p uid x).mpr (Or.inl ⟨hA.symm, h.symm⟩))
    · rcases lookup_appendEntry_cases acc p.user_id
          (p.matched_user_id, p.score_total + eps p.user_id p.matched_user_id)
          uid with hin | ⟨hA, hin⟩
      · rw [hin] at hout
        rw [hout] at h
        rcases key _ _ h with h | h
        · exact Or.inl h
        · exact Or.inr ((pairTouches_iff p uid x).mpr (Or.inr ⟨h.symm, hB.symm⟩))
      · rw [hin] at hout
        rw [hout] at h
        rcases key _ _ h with h | h
        · rcases key _ _ h with h | h
          · exact Or.inl h
          · exact Or.inr ((pairTouches_iff p uid x).mpr (Or.inl ⟨hA.symm, h.symm⟩))
        · exact Or.inr ((pairTouches_iff p uid x).mpr (Or.inr ⟨h.symm, hB.symm⟩))

theorem prefFold_partner_src (minScore : ℚ) (eps : String → String → ℚ) :
    ∀ (pairs : List MatchCandidate) (acc : List (String × List (String × ℚ)))
      (uid x : String),
      x ∈ ((((pairs.foldl (prefStep minScore eps) acc).lookup uid).getD []).map Prod.fst) →
      x ∈ (((acc.lookup uid).getD []).map Prod.fst)
        ∨ ∃ p ∈ pairs, pairTouches p uid x = true := by
  intro pairs
  induction pairs with
  | nil =>
    intro acc uid x h
    exact Or.inl h
  | cons p rest ih =>
    intro acc uid x h
    rw [List.foldl_cons] at h
    rcases ih (prefStep minScore eps acc p) uid x h with h | ⟨q, hq, hT⟩
    · rcases prefStep_partner_src minScore eps acc p uid x h with h | hT
      · exact Or.inl h
      · exact Or.inr ⟨p, List.mem_cons_self _ _, hT⟩
    · exact Or.inr ⟨q, List.mem_cons_of_mem _ hq, hT⟩

theorem length_filter_filterMap_le {α β : Type} (P : β → Bool) (Q : α → Bool)
    (f : α → Option β) :
    ∀ (l : List α), (∀ a ∈ l, ∀ c, f a = some c → P c = true → Q a = true) →
      ((l.filterMap f).filter P).length ≤ (l.filter Q).length := by
  intro l
  induction l with
  | nil => intro h; simp
  | cons a t ih =>
    intro h
    have ht := ih (fun a' ha' => h a' (List.mem_cons_of_mem _ ha'))
    rw [List.filter_cons]
    cases hfa : f a with
    | none =>
      rw [List.filterMap_cons_none hfa]
      cases hQ : Q a with
      | true => simp only [if_true, reduceIte, List.length_cons]; omega
      | false => simp only [Bool.false_eq_true, if_false, reduceIte]; omega
    | some c =>
      rw [List.filterMap_cons_some hfa, List.filter_cons]
      cases hP : P c with
      | true =>
        have hQ := h a (List.mem_cons_self _ _) c hfa hP
        simp only [hP, hQ, if_true, reduceIte, List.length_cons]
        omega
      | false =>
        simp only [hP, Bool.false_eq_true, if_false, reduceIte]
        cases hQ : Q a with
        | true => simp only [if_true, reduceIte, List.length_cons]; omega
        | false => simp only [Bool.false_eq_true, if_false, reduceIte]; omega

theorem length_filter_le_one_of_nodup_map {α β : Type} (f : α → β) (c : β) (P : α → Bool) :
    ∀ (l : List α), (l.map f).Nodup → (∀ a ∈ l, P a = true → f a = c) →
      (l.filter P).length ≤ 1 := by
  intro l
  induction l with
  | nil => intro _ _; simp
  | cons a t ih =>
    intro hnd h
    simp only [List.map_cons, List.nodup_cons] at hnd
    rw [List.filter_cons]
    cases hP : P a with
    | true =>
      have hfa : f a = c := h a (List.mem_cons_self _ _) hP
      have hnil : t.filter P = [] := by
        rw [List.filter_eq_nil]
        intro b hb hPb
        have hfb : f b = c := h b (List.mem_cons_of_mem _ hb) hPb
        exact hnd.1 ((hfa.trans hfb.symm) ▸ List.mem_map_of_mem f hb)
      simp only [if_true, reduceIte, hnil, List.length_cons, List.length_nil]
      omega
    | false =>
      simp only [Bool.false_eq_true, if_false, reduceIte]
      exact ih hnd.2 (fun a' ha' => h a' (List.mem_cons_of_mem _ ha'))

theorem mem_buildCandidatePairs {sqrtQ : ℚ → ℚ} {users : List User} {cfg : Cfg}
    {recentPairs blockedPairs : List (String × String)} {c : MatchCandidate}
    (h : c ∈ buildCandidatePairs sqrtQ users cfg recentPairs blockedPairs) :
    ∃ uv, uv ∈ pairsOf users ∧ c.user_id = uv.1.user_id
      ∧ c.matched_user_id = uv.2.user_id
      ∧ genderPreferenceCompatible uv.1 uv.2 = true := by
  unfold buildCandidatePairs at h
  rw [List.mem_filterMap] at h
  obtain ⟨uv, huv, hf⟩ := h
  refine ⟨uv, huv, ?_⟩
  by_cases h1 : canonicalPair uv.1.user_id uv.2.user_id ∈ recentPairs
  · rw [if_pos h1] at hf; cases hf
  rw [if_neg h1] at hf
  by_cases h2 : canonicalPair uv.1.user_id uv.2.user_id ∈ blockedPairs
  · rw [if_pos h2] at hf; cases hf
  rw [if_neg h2] at hf
  by_cases h3 : genderPreferenceCompatible uv.1 uv.2 = false
  · rw [if_pos h3] at hf; cases hf
  rw [if_neg h3] at hf
  obtain rfl := Option.some.inj hf
  refine ⟨rfl, rfl, ?_⟩
  cases hg : genderPreferenceCompatible uv.1 uv.2 with
  | true => rfl
  | false => exact absurd hg h3

theorem bcp_ne {sqrtQ : ℚ → ℚ} {users : List User} {cfg : Cfg}
    {recentPairs blockedPairs : List (String × String)}
    (hnd : (users.map User.user_id).Nodup) :
    ∀ p ∈ buildCandidatePairs sqrtQ users cfg recentPairs blockedPairs,
      p.user_id ≠ p.matched_user_id := by
  intro p hp
  obtain ⟨uv, huv, h1, h2, _⟩ := mem_buildCandidatePairs hp
  rw [h1, h2]
  exact pairsOf_ne hnd huv

theorem cnt_bcp_le_one {sqrtQ : ℚ → ℚ} {users : List User} {cfg : Cfg}
    {recentPairs blockedPairs : List (String × String)}
    (hnd : (users.map User.user_id).Nodup) (uid x : String) :
    ((buildCandidatePairs sqrtQ users cfg recentPairs blockedPairs).filter
      (fun p => pairTouches p uid x)).length ≤ 1 := by
  have hcond : ∀ uv ∈ pairsOf users,
      ∀ c, (if canonicalPair uv.1.user_id uv.2.user_id ∈ recentPairs then none
        else if canonicalPair uv.1.user_id uv.2.user_id ∈ blockedPairs then none
        else if genderPreferenceCompatible uv.1 uv.2 = false then none
        else some
          { user_id := uv.1.user_id, matched_user_id := uv.2.user_id,
            score_total := (computeCompatibility sqrtQ uv.1.traits uv.2.traits cfg).score_total,
            score_breakdown :=
              computeCompatibility sqrtQ uv.1.traits uv.2.traits cfg : MatchCandidate })
        = some c → pairTouches c uid x = true →
        (canonicalPair uv.1.user_id uv.2.user_id == canonicalPair uid x) = true := by
    intro uv _ c hsome hP
    by_cases h1 : canonicalPair uv.1.user_id uv.2.user_id ∈ recentPairs
    · rw [if_pos h1] at hsome; cases hsome
    rw [if_neg h1] at hsome
    by_cases h2 : canonicalPair uv.1.user_id uv.2.user_id ∈ blockedPairs
    · rw [if_pos h2] at hsome; cases hsome
    rw [if_neg h2] at hsome
    by_cases h3 : genderPreferenceCompatible uv.1 uv.2 = false
    · rw [if_pos h3] at hsome; cases hsome
    rw [if_neg h3] at hsome
    obtain rfl := Option.some.inj hsome
    rw [beq_iff_eq]
    rcases (pairTouches_iff _ uid x).mp hP with ⟨ha, hb⟩ | ⟨ha, hb⟩
    · simp only at ha hb
      rw [ha, hb]
    · simp only at ha hb
      rw [ha, hb]
      exact canonicalPair_comm x uid
  have step1 := length_filter_filterMap_le (fun p => pairTouches p uid x)
    (fun uv => canonicalPair uv.1.user_id uv.2.user_id == canonicalPair uid x)
    (fun uv =>
      if canonicalPair uv.1.user_id uv.2.user_id ∈ recentPairs then none
      else if canonicalPair uv.1.user_id uv.2.user_id ∈ blockedPairs then none
      else if genderPreferenceCompatible uv.1 uv.2 = false then none
      else some
        { user_id := uv.1.user_id, matched_user_id := uv.2.user_id,
          score_total := (computeCompatibility sqrtQ uv.1.traits uv.2.traits cfg).score_total,
          score_breakdown := computeCompatibility sqrtQ uv.1.traits uv.2.traits cfg })
    (pairsOf users) hcond
  have step2 := length_filter_le_one_of_nodup_map
    (fun q => canonicalPair q.1.user_id q.2.user_id) (canonicalPair uid x)
    (fun uv => canonicalPair uv.1.user_id uv.2.user_id == canonicalPair uid x)
    (pairsOf users) (canon_pairsOf_nodup hnd) (fun a _ ha => beq_iff_eq.mp ha)
  exact le_trans step1 step2

theorem lookup_map_pair {α β : Type} (l : List (String × α)) (g : String × α → β)
    (k : String) :
    (l.map (fun kv => (kv.1, g kv))).lookup k = (l.lookup k).map (fun v => g (k, v)) := by
  induction l with
  | nil => simp
  | cons hd t ih =>
    obtain ⟨k0, v0⟩ := hd
    by_cases h0 : k = k0
    · subst h0
      simp [List.lookup_cons]
    · have h0b : (k == k0) = false := beq_eq_false_iff_ne.mpr h0
      simp [List.lookup_cons, h0b, ih]

theorem prefList_buildPreferenceLists_nodup (users : List User)
    (pairs : List MatchCandidate) (minScore : ℚ) (topK : ℕ)
    (eps : String → String → ℚ)
    (hdst : ∀ p ∈ pairs, p.user_id ≠ p.matched_user_id)
    (hcnt : ∀ uid x : String, (pairs.filter (fun p => pairTouches p uid x)).length ≤ 1)
    (uid : String) :
    (prefList (buildPreferenceLists users pairs minScore topK eps) uid).Nodup := by
  unfold prefList buildPreferenceLists
  rw [lookup_map_pair]
  cases hlk : (pairs.foldl (prefStep minScore eps)
      (users.map (fun u => (u.user_id, [])))).lookup uid with
  | none => simp
  | some vals =>
    simp only [Option.map_some', Option.getD_some]
    rw [List.map_take]
    refine List.Nodup.sublist (List.take_sublist _ _) ?_
    have hperm : List.Perm ((sortPrefEntries vals).map Prod.fst) (vals.map Prod.fst) :=
      (List.mergeSort_perm vals _).map Prod.fst
    rw [List.nodup_iff_count_le_one]
    intro x
    rw [hperm.count_eq]
    have hfold := prefFold_partner_count minScore eps pairs
      (users.map (fun u => (u.user_id, []))) hdst uid x
    rw [hlk, lookup_seed_getD] at hfold
    simp only [Option.getD_some, List.map_nil, List.count_nil] at hfold
    exact le_trans hfold (by simpa using hcnt uid x)

theorem prefList_buildPreferenceLists_src (users : List User)
    (pairs : List MatchCandidate) (minScore : ℚ) (topK : ℕ)
    (eps : String → String → ℚ) (uid x : String)
    (hx : x ∈ prefList (buildPreferenceLists users pairs minScore topK eps) uid) :
    ∃ p ∈ pairs, pairTouches p uid x = true := by
  unfold prefList buildPreferenceLists at hx
  rw [lookup_map_pair] at hx
  cases hlk : (pairs.foldl (prefStep minScore eps)
      (users.map (fun u => (u.user_id, [])))).lookup uid with
  | none => rw [hlk] at hx; simp at hx
  | some vals =>
    rw [hlk] at hx
    simp only [Option.map_some', Option.getD_some] at hx
    have hx2 : x ∈ (sortPrefEntries vals).map Prod.fst :=
      List.mem_of_mem_take (by rw [← List.map_take]; exact hx)
    have hperm : List.Perm ((sortPrefEntries vals).map Prod.fst) (vals.map Prod.fst) :=
      (List.mergeSort_perm vals _).map Prod.fst
    have hx3 : x ∈ vals.map Prod.fst := hperm.mem_iff.mp hx2
    have := prefFold_partner_src minScore eps pairs
      (users.map (fun u => (u.user_id, []))) uid x
      (by rw [hlk]; simpa using hx3)
    rcases this with h | h
    · rw [lookup_seed_getD] at h
      simp at h
    · exact h

theorem mem_menOf {users : List User} {m : String} :
    m ∈ menOf users
      ↔ ∃ u ∈ users, normalizeGender u.gender_identity = some "man" ∧ u.user_id = m := by
  unfold menOf
  rw [List.mem_filterMap]
  constructor
  · rintro ⟨u, hu, hif⟩
    by_cases hg : normalizeGender u.gender_identity = some "man"
    · rw [if_pos hg] at hif
      exact ⟨u, hu, hg, Option.some.inj hif⟩
    · rw [if_neg hg] at hif
      cases hif
  · rintro ⟨u, hu, hg, rfl⟩
    exact ⟨u, hu, by rw [if_pos hg]⟩

theorem mem_womenOf {users : List User} {m : String} :
    m ∈ womenOf users
      ↔ ∃ u ∈ users, normalizeGender u.gender_identity = some "woman" ∧ u.user_id = m := by
  unfold womenOf
  rw [List.mem_filterMap]
  constructor
  · rintro ⟨u, hu, hif⟩
    by_cases hg : normalizeGender u.gender_identity = some "woman"
    · rw [if_pos hg] at hif
      exact ⟨u, hu, hg, Option.some.inj hif⟩
    · rw [if_neg hg] at hif
      cases hif
  · rintro ⟨u, hu, hg, rfl⟩
    exact ⟨u, hu, by rw [if_pos hg]⟩

theorem bipartite_sides {users : List User} (hbip : isBipartiteHeteroPool users = true)
    {u v : User} (hu : u ∈ users) (hv : v ∈ users)
    (hcompat : genderPreferenceCompatible u v = true) :
    (normalizeGender u.gender_identity = some "man"
        ∧ normalizeGender v.gender_identity = some "woman")
      ∨ (normalizeGender u.gender_identity = some "woman"
        ∧ normalizeGender v.gender_identity = some "man") := by
  unfold isBipartiteHeteroPool at hbip
  rw [List.all_eq_true] at hbip
  have hu' := hbip u hu
  have hv' := hbip v hv
  unfold genderPreferenceCompatible at hcompat
  split at hcompat
  next ug vg hug hvg =>
    simp only [Bool.and_eq_true, Bool.not_eq_true', List.isEmpty_eq_false] at hcompat
    obtain ⟨⟨⟨hne_u, hne_v⟩, hcont_v⟩, hcont_u⟩ := hcompat
    have hvg_mem : vg ∈ parseSeeking u.seeking_genders :=
      List.mem_of_elem_eq_true hcont_v
    have hug_mem : ug ∈ parseSeeking v.seeking_genders :=
      List.mem_of_elem_eq_true hcont_u
    split at hu'
    next hum =>
      -- u is a man: his seeking list is all "woman"
      left
      refine ⟨hum, ?_⟩
      simp only [Bool.and_eq_true, List.all_eq_true, beq_iff_eq] at hu'
      have hvg_w : vg = "woman" := hu'.2 vg hvg_mem
      rw [hvg, hvg_w]
    next huw =>
      -- u is a woman: her seeking list is all "man"
      right
      refine ⟨huw, ?_⟩
      simp only [Bool.and_eq_true, List.all_eq_true, beq_iff_eq] at hu'
      have hvg_m : vg = "man" := hu'.2 vg hvg_mem
      rw [hvg, hvg_m]
    next h1 h2 =>
      exact absurd hu' (by simp)
  next =>
    cases hcompat

theorem filterMap_if_id_sublist (l : List User) (P : User → Prop) [DecidablePred P] :
    List.Sublist (l.filterMap (fun u => if P u then some u.user_id else none))
      (l.map User.user_id) := by
  induction l with
  | nil => simp
  | cons u t ih =>
    rw [List.map_cons]
    by_cases hP : P u
    · rw [List.filterMap_cons_some (by rw [if_pos hP])]
      exact ih.cons₂ _
    · rw [List.filterMap_cons_none (by rw [if_neg hP])]
      exact ih.cons _

theorem menOf_nodup {users : List User} (hnd : (users.map User.user_id).Nodup) :
    (menOf users).Nodup :=
  hnd.sublist (filterMap_if_id_sublist users
    (fun u => normalizeGender u.gender_identity = some "man"))

theorem womenOf_nodup {users : List User} (hnd : (users.map User.user_id).Nodup) :
    (womenOf users).Nodup :=
  hnd.sublist (filterMap_if_id_sublist users
    (fun u => normalizeGender u.gender_identity = some "woman"))

theorem menOf_womenOf_disj {users : List User}
    (hnd : (users.map User.user_id).Nodup) :
    ∀ x ∈ menOf users, x ∉ womenOf users := by
  intro x hm hw
  obtain ⟨u, hu, hug, huid⟩ := mem_menOf.mp hm
  obtain ⟨v, hv, hvg, hvid⟩ := mem_womenOf.mp hw
  have huv : u = v :=
    List.inj_on_of_nodup_map hnd hu hv (huid.trans hvid.symm)
  rw [huv, hvg] at hug
  simp at hug

theorem mem_usersIds_of_mem_menOf {users : List User} {x : String}
    (h : x ∈ menOf users) : x ∈ users.map User.user_id := by
  obtain ⟨u, hu, _, rfl⟩ := mem_menOf.mp h
  exact List.mem_map_of_mem _ hu

theorem mem_usersIds_of_mem_womenOf {users : List User} {x : String}
    (h : x ∈ womenOf users) : x ∈ users.map User.user_id := by
  obtain ⟨u, hu, _, rfl⟩ := mem_womenOf.mp h
  exact List.mem_map_of_mem _ hu

/-- Preference lists built from the candidate pairs of a bipartite pool
keep every man's list inside the women of the pool. -/
theorem enginePrefs_men_subset (sqrtQ : ℚ → ℚ) (users : List User) (cfg : Cfg)
    (recentPairs blockedPairs : List (String × String)) (minScore : ℚ) (topK : ℕ)
    (eps : String → String → ℚ)
    (hnd : (users.map User.user_id).Nodup)
    (hbip : isBipartiteHeteroPool users = true) :
    ∀ m ∈ menOf users,
      ∀ x ∈ prefList (buildPreferenceLists users
        (buildCandidatePairs sqrtQ users cfg recentPairs blockedPairs)
        minScore topK eps) m, x ∈ womenOf users := by
  intro m hm x hx
  obtain ⟨p, hp, hT⟩ := prefList_buildPreferenceLists_src users _ minScore topK eps m x hx
  obtain ⟨uv, huv, hid1, hid2, hcompat⟩ := mem_buildCandidatePairs hp
  obtain ⟨hu_mem, hv_mem⟩ := pairsOf_mem huv
  obtain ⟨um, hum_mem, hum_g, hum_id⟩ := mem_menOf.mp hm
  rcases bipartite_sides hbip hu_mem hv_mem hcompat with ⟨hg1, hg2⟩ | ⟨hg1, hg2⟩
  all_goals rcases (pairTouches_iff p m x).mp hT with ⟨hpm, hpx⟩ | ⟨hpx, hpm⟩
  · -- uv.1 is the man m, uv.2 a woman with id x
    exact mem_womenOf.mpr ⟨uv.2, hv_mem, hg2, (hid2.symm.trans hpx)⟩
  · -- uv.2 would be the man m, but uv.2 is a woman
    have : uv.2 = um :=
      List.inj_on_of_nodup_map hnd hv_mem hum_mem
        ((hid2.symm.trans hpm).trans hum_id.symm)
    rw [this, hum_g] at hg2
    simp at hg2
  · -- uv.1 would be the man m, but uv.1 is a woman
    have : uv.1 = um :=
      List.inj_on_of_nodup_map hnd hu_mem hum_mem
        ((hid1.symm.trans hpm).trans hum_id.symm)
    rw [this, hum_g] at hg1
    simp at hg1
  · -- uv.2 is the man m, uv.1 a woman with id x
    exact mem_womenOf.mpr ⟨uv.1, hu_mem, hg1, (hid1.symm.trans hpx)⟩

/-- Symmetric fact for the women: every woman's list stays inside the men
of the pool. -/
theorem enginePrefs_women_subset (sqrtQ : ℚ → ℚ) (users : List User) (cfg : Cfg)
    (recentPairs blockedPairs : List (String × String)) (minScore : ℚ) (topK : ℕ)
    (eps : String → String → ℚ)
    (hnd : (users.map User.user_id).Nodup)
    (hbip : isBipartiteHeteroPool users = true) :
    ∀ w ∈ womenOf users,
      ∀ x ∈ prefList (buildPreferenceLists users
        (buildCandidatePairs sqrtQ users cfg recentPairs blockedPairs)
        minScore topK eps) w, x ∈ menOf users := by
  intro w hw x hx
  obtain ⟨p, hp, hT⟩ := prefList_buildPreferenceLists_src users _ minScore topK eps w x hx
  obtain ⟨uv, huv, hid1, hid2, hcompat⟩ := mem_buildCandidatePairs hp
  obtain ⟨hu_mem, hv_mem⟩ := pairsOf_mem huv
  obtain ⟨uw, huw_mem, huw_g, huw_id⟩ := mem_womenOf.mp hw
  rcases bipartite_sides hbip hu_mem hv_mem hcompat with ⟨hg1, hg2⟩ | ⟨hg1, hg2⟩
  all_goals rcases (pairTouches_iff p w x).mp hT with ⟨hpm, hpx⟩ | ⟨hpx, hpm⟩
  · -- uv.1 would be the woman w, but uv.1 is a man
    have : uv.1 = uw :=
      List.inj_on_of_nodup_map hnd hu_mem huw_mem
        ((hid1.symm.trans hpm).trans huw_id.symm)
    rw [this, huw_g] at hg1
    simp at hg1
  · -- uv.2 is the woman w, uv.1 a man with id x
    exact mem_menOf.mpr ⟨uv.1, hu_mem, hg1, (hid1.symm.trans hpx)⟩
  · -- uv.1 is the woman w, uv.2 a man with id x
    exact mem_menOf.mpr ⟨uv.2, hv_mem, hg2, (hid2.symm.trans hpx)⟩
  · -- uv.2 would be the woman w, but uv.2 is a man
    have : uv.2 = uw :=
      List.inj_on_of_nodup_map hnd hv_mem huw_mem
        ((hid2.symm.trans hpm).trans huw_id.symm)
    rw [this, huw_g] at hg2
    simp at hg2

/-- Every entry of an engine preference list is some pool user's id. -/
theorem enginePrefs_subset_ids (sqrtQ : ℚ → ℚ) (users : List User) (cfg : Cfg)
    (recentPairs blockedPairs : List (String × String)) (minScore : ℚ) (topK : ℕ)
    (eps : String → String → ℚ) (uid x : String)
    (hx : x ∈ prefList (buildPreferenceLists users
      (buildCandidatePairs sqrtQ users cfg recentPairs blockedPairs)
      minScore topK eps) uid) : x ∈ users.map User.user_id := by
  obtain ⟨p, hp, hT⟩ := prefList_buildPreferenceLists_src users _ minScore topK eps uid x hx
  obtain ⟨uv, huv, hid1, hid2, _⟩ := mem_buildCandidatePairs hp
  obtain ⟨hu_mem, hv_mem⟩ := pairsOf_mem huv
  rcases (pairTouches_iff p uid x).mp hT with ⟨_, hpx⟩ | ⟨hpx, _⟩
  · exact (hid2.symm.trans hpx) ▸ List.mem_map_of_mem _ hv_mem
  · exact (hid1.symm.trans hpx) ▸ List.mem_map_of_mem _ hu_mem

theorem enginePrefs_length_le (sqrtQ : ℚ → ℚ) (users : List User) (cfg : Cfg)
    (recentPairs blockedPairs : List (String × String)) (minScore : ℚ) (topK : ℕ)
    (eps : String → String → ℚ)
    (hnd : (users.map User.user_id).Nodup) (uid : String) :
    (prefList (buildPreferenceLists users
      (buildCandidatePairs sqrtQ users cfg recentPairs blockedPairs)
      minScore topK eps) uid).length ≤ users.length := by
  have hnodup := prefList_buildPreferenceLists_nodup users
    (buildCandidatePairs sqrtQ users cfg recentPairs blockedPairs) minScore topK eps
    (bcp_ne hnd) (fun u' x' => cnt_bcp_le_one hnd u' x') uid
  have hsub : prefList (buildPreferenceLists users
      (buildCandidatePairs sqrtQ users cfg recentPairs blockedPairs)
      minScore topK eps) uid ⊆ users.map User.user_id := fun x hx =>
    enginePrefs_subset_ids sqrtQ users cfg recentPairs blockedPairs minScore topK eps uid x hx
  have := (List.subperm_of_subset hnodup hsub).length_le
  rwa [List.length_map] at this

theorem lookup_graph {β : Type} (men : List String) (pf : String → β) {m : String}
    (hm : m ∈ men) :
    (men.map (fun m' => (m', pf m'))).lookup m = some (pf m) := by
  induction men with
  | nil => simp at hm
  | cons a t ih =>
    rw [List.map_cons, List.lookup_cons]
    by_cases h0 : m = a
    · subst h0
      simp
    · have h0b : (m == a) = false := beq_eq_false_iff_ne.mpr h0
      rw [h0b]
      simp only [Bool.false_eq_true, if_false, reduceIte]
      rcases List.mem_cons.mp hm with h | h
      · exact absurd h h0
      · exact ih h

/-- The invariant holds in the initial state of `_stable_bipartite_match`. -/
theorem gsInv_init (men women : List String) (pf : String → List String)
    (hnd : men.Nodup) :
    GSInv men women pf ⟨men, men.map (fun m => (m, pf m)), []⟩ := by
  refine ⟨?_, ?_, ?_, ?_, ?_, ?_⟩
  · rw [List.map_map]
    exact List.map_id'' (fun m => rfl) men
  · intro p hp
    obtain ⟨m, _, rfl⟩ := List.mem_map.mp hp
    exact ⟨0, by simp⟩
  · intro wm h
    simp at h
  · simp
  · intro m hm w hw
    have hrem : remOf (men.map fun m' => (m', pf m')) m = pf m := by
      rw [remOf, lookup_graph men pf hm]
      rfl
    exact absurd hw.1 (hrem ▸ hw.2)
  · intro x
    simp only [List.map_nil, List.count_nil]
    have := List.nodup_iff_count_le_one.mp hnd x
    omega

theorem mem_swap_map {l : List (String × String)} {a b : String} :
    (a, b) ∈ l.map (fun p => (p.2, p.1)) ↔ (b, a) ∈ l := by
  constructor
  · intro h
    obtain ⟨q, hq, he⟩ := List.mem_map.mp h
    obtain ⟨h1, h2⟩ := Prod.mk.injEq .. ▸ he
    rw [← h1, ← h2]
    exact hq
  · intro h
    exact List.mem_map_of_mem _ h

/-- C3: on a bipartite hetero pool with distinct user ids (of realistic
size), the matching produced by `_stable_bipartite_match` on the
preference lists that `_build_preference_lists` derives from
`build_candidate_pairs` contains no blocking pair: there are no two
users, matched to different partners, who both strictly prefer each
other (by their preference lists) over their current partners. -/
theorem stable_bipartite_no_blocking_pair
    (sqrtQ : ℚ → ℚ) (users : List User) (cfg : Cfg)
    (recentPairs blockedPairs : List (String × String)) (minScore : ℚ) (topK : ℕ)
    (eps : String → String → ℚ)
    (hnd : (users.map User.user_id).Nodup)
    (hbip : isBipartiteHeteroPool users = true)
    (hsz : users.length ≤ 10 ^ 9) :
    ¬ ∃ u v pu pv : String,
      matchedIn (stableBipartiteMatch users (buildPreferenceLists users
        (buildCandidatePairs sqrtQ users cfg recentPairs blockedPairs)
        minScore topK eps)) u pu
      ∧ matchedIn (stableBipartiteMatch users (buildPreferenceLists users
        (buildCandidatePairs sqrtQ users cfg recentPairs blockedPairs)
        minScore topK eps)) v pv
      ∧ u ≠ v ∧ pu ≠ v ∧ pv ≠ u
      ∧ prefersStrictly (prefList (buildPreferenceLists users
          (buildCandidatePairs sqrtQ users cfg recentPairs blockedPairs)
          minScore topK eps) u) v pu
      ∧ prefersStrictly (prefList (buildPreferenceLists users
          (buildCandidatePairs sqrtQ users cfg recentPairs blockedPairs)
          minScore topK eps) v) u pv := by
  rintro ⟨u, v, pu, pv, hu, hv, _, _, _, hb1, hb2⟩
  set prefs := buildPreferenceLists users
    (buildCandidatePairs sqrtQ users cfg recentPairs blockedPairs)
    minScore topK eps with hprefs
  have ctx : GSCtx (menOf users) (womenOf users) (prefList prefs) := by
    refine ⟨menOf_nodup hnd, menOf_womenOf_disj hnd, ?_, ?_⟩
    · exact enginePrefs_men_subset sqrtQ users cfg recentPairs blockedPairs
        minScore topK eps hnd hbip
    · intro u'
      exact prefList_buildPreferenceLists_nodup users _ minScore topK eps
        (bcp_ne hnd) (fun a b => cnt_bcp_le_one hnd a b) u'
  obtain ⟨t, hfree, hinvt, heq⟩ := gsRun_final prefs (menOf users) (womenOf users) ctx
    ⟨menOf users, (menOf users).map (fun m => (m, prefList prefs m)), []⟩
    (gsInv_init (menOf users) (womenOf users) (prefList prefs) (menOf_nodup hnd))
  unfold stableBipartiteMatch at hu hv
  rw [heq] at hu hv
  have hu' : (pu, u) ∈ t.engaged ∨ (u, pu) ∈ t.engaged := by
    rcases hu with h | h
    · exact Or.inl (mem_swap_map.mp h)
    · exact Or.inr (mem_swap_map.mp h)
  have hv' : (pv, v) ∈ t.engaged ∨ (v, pv) ∈ t.engaged := by
    rcases hv with h | h
    · exact Or.inl (mem_swap_map.mp h)
    · exact Or.inr (mem_swap_map.mp h)
  exact gs_no_blocking_final ctx
    (enginePrefs_women_subset sqrtQ users cfg recentPairs blockedPairs
      minScore topK eps hnd hbip)
    (fun u' => le_trans (enginePrefs_length_le sqrtQ users cfg recentPairs blockedPairs
      minScore topK eps hnd u') hsz)
    hinvt hu' hv' hb1 hb2

theorem stable_bipartite_no_blocking_pair_witness :
    (([⟨"m1", JVal.obj [], JVal.str "man", JVal.arr [JVal.str "woman"]⟩,
       ⟨"w1", JVal.obj [], JVal.str "woman", JVal.arr [JVal.str "man"]⟩] :
        List User).map User.user_id).Nodup
    ∧ isBipartiteHeteroPool
        [⟨"m1", JVal.obj [], JVal.str "man", JVal.arr [JVal.str "woman"]⟩,
         ⟨"w1", JVal.obj [], JVal.str "woman", JVal.arr [JVal.str "man"]⟩] = true
    ∧ ([⟨"m1", JVal.obj [], JVal.str "man", JVal.arr [JVal.str "woman"]⟩,
        ⟨"w1", JVal.obj [], JVal.str "woman", JVal.arr [JVal.str "man"]⟩] :
        List User).length ≤ 10 ^ 9
    ∧ ¬ ∃ u v pu pv : String,
      matchedIn (stableBipartiteMatch
        [⟨"m1", JVal.obj [], JVal.str "man", JVal.arr [JVal.str "woman"]⟩,
         ⟨"w1", JVal.obj [], JVal.str "woman", JVal.arr [JVal.str "man"]⟩]
        (buildPreferenceLists
          [⟨"m1", JVal.obj [], JVal.str "man", JVal.arr [JVal.str "woman"]⟩,
           ⟨"w1", JVal.obj [], JVal.str "woman", JVal.arr [JVal.str "man"]⟩]
          (buildCandidatePairs (fun q => q)
            [⟨"m1", JVal.obj [], JVal.str "man", JVal.arr [JVal.str "woman"]⟩,
             ⟨"w1", JVal.obj [], JVal.str "woman", JVal.arr [JVal.str "man"]⟩]
            [] [] []) 0 5 (fun _ _ => 0))) u pu
      ∧ matchedIn (stableBipartiteMatch
        [⟨"m1", JVal.obj [], JVal.str "man", JVal.arr [JVal.str "woman"]⟩,
         ⟨"w1", JVal.obj [], JVal.str "woman", JVal.arr [JVal.str "man"]⟩]
        (buildPreferenceLists
          [⟨"m1", JVal.obj [], JVal.str "man", JVal.arr [JVal.str "woman"]⟩,
           ⟨"w1", JVal.obj [], JVal.str "woman", JVal.arr [JVal.str "man"]⟩]
          (buildCandidatePairs (fun q => q)
            [⟨"m1", JVal.obj [], JVal.str "man", JVal.arr [JVal.str "woman"]⟩,
             ⟨"w1", JVal.obj [], JVal.str "woman", JVal.arr [JVal.str "man"]⟩]
            [] [] []) 0 5 (fun _ _ => 0))) v pv
      ∧ u ≠ v ∧ pu ≠ v ∧ pv ≠ u
      ∧ prefersStrictly (prefList (buildPreferenceLists
          [⟨"m1", JVal.obj [], JVal.str "man", JVal.arr [JVal.str "woman"]⟩,
           ⟨"w1", JVal.obj [], JVal.str "woman", JVal.arr [JVal.str "man"]⟩]
          (buildCandidatePairs (fun q => q)
            [⟨"m1", JVal.obj [], JVal.str "man", JVal.arr [JVal.str "woman"]⟩,
             ⟨"w1", JVal.obj [], JVal.str "woman", JVal.arr [JVal.str "man"]⟩]
            [] [] []) 0 5 (fun _ _ => 0)) u) v pu
      ∧ prefersStrictly (prefList (buildPreferenceLists
          [⟨"m1", JVal.obj [], JVal.str "man", JVal.arr [JVal.str "woman"]⟩,
           ⟨"w1", JVal.obj [], JVal.str "woman", JVal.arr [JVal.str "man"]⟩]
          (buildCandidatePairs (fun q => q)
            [⟨"m1", JVal.obj [], JVal.str "man", JVal.arr [JVal.str "woman"]⟩,
             ⟨"w1", JVal.obj [], JVal.str "woman", JVal.arr [JVal.str "man"]⟩]
            [] [] []) 0 5 (fun _ _ => 0)) v) u pv :=
  ⟨by decide, by decide, by decide,
    stable_bipartite_no_blocking_pair (fun q => q)
      [⟨"m1", JVal.obj [], JVal.str "man", JVal.arr [JVal.str "woman"]⟩,
       ⟨"w1", JVal.obj [], JVal.str "woman", JVal.arr [JVal.str "man"]⟩]
      [] [] [] 0 5 (fun _ _ => 0) (by decide) (by decide) (by decide)⟩

/-! ### One-pair-per-user lemmas (`_stable_general_match`, `stable_match`,
`create_weekly_assignments`). -/

theorem bor_left {a b : Bool} (h : a = true) : (a || b) = true := by
  rw [h, Bool.true_or]

theorem bor_right {a b : Bool} (h : b = true) : (a || b) = true := by
  rw [h, Bool.or_true]

theorem bor_elim {a b : Bool} (h : (a || b) = true) : a = true ∨ b = true := by
  cases a
  · cases b
    · simp at h
    · exact Or.inr rfl
  · exact Or.inl rfl

theorem canonicalPair_cases (a b : String) :
    canonicalPair a b = (a, b) ∨ canonicalPair a b = (b, a) := by
  unfold canonicalPair
  by_cases h : a ≤ b
  · rw [if_pos h]; exact Or.inl rfl
  · rw [if_neg h]; exact Or.inr rfl

theorem occPairs_append (l : List (String × String)) (ab : String × String) (x : String) :
    occPairs (l ++ [ab]) x = occPairs l x + (if ab.1 = x ∨ ab.2 = x then 1 else 0) := by
  unfold occPairs
  rw [List.filter_append, List.length_append]
  congr 1
  by_cases hc : ab.1 = x ∨ ab.2 = x
  · have hb : (ab.1 == x || ab.2 == x) = true := by
      rcases hc with h | h
      · exact bor_left (beq_iff_eq.mpr h)
      · exact bor_right (beq_iff_eq.mpr h)
    rw [if_pos hc]
    simp [List.filter_cons, hb]
  · have hb : (ab.1 == x || ab.2 == x) = false := by
      cases h1 : ab.1 == x
      · cases h2 : ab.2 == x
        · rfl
        · exact absurd (Or.inr (beq_iff_eq.mp h2)) hc
      · exact absurd (Or.inl (beq_iff_eq.mp h1)) hc
    rw [if_neg hc]
    simp [List.filter_cons, hb]

theorem selectStep_cases (prefs : List (String × List String))
    (held : List (String × String)) (acc : List String × List (String × String))
    (target : String) :
    selectStep prefs held acc target = acc
      ∨ ∃ proposer, held.lookup target = some proposer
          ∧ proposer ∉ acc.1 ∧ target ∉ acc.1
          ∧ selectStep prefs held acc target
              = (acc.1 ++ [proposer, target], acc.2 ++ [canonicalPair proposer target]) := by
  unfold selectStep
  split
  next => exact Or.inl rfl
  next proposer hlk =>
    by_cases hused : proposer ∈ acc.1 ∨ target ∈ acc.1
    · rw [if_pos hused]; exact Or.inl rfl
    · rw [if_neg hused]
      by_cases hmut : held.lookup proposer = some target ∨ target ∈ prefList prefs proposer
      · rw [if_pos hmut]
        push_neg at hused
        exact Or.inr ⟨proposer, hlk, hused.1, hused.2, rfl⟩
      · rw [if_neg hmut]; exact Or.inl rfl

theorem selectFold_occ (prefs : List (String × List String))
    (held : List (String × String)) :
    ∀ (order : List String) (acc : List String × List (String × String)),
      ((∀ x, occPairs acc.2 x ≤ 1) ∧ (∀ x, 1 ≤ occPairs acc.2 x → x ∈ acc.1)) →
      ((∀ x, occPairs (order.foldl (selectStep prefs held) acc).2 x ≤ 1)
        ∧ (∀ x, 1 ≤ occPairs (order.foldl (selectStep prefs held) acc).2 x
            → x ∈ (order.foldl (selectStep prefs held) acc).1)) := by
  intro order
  induction order with
  | nil => intro acc h; exact h
  | cons a rest ih =>
    intro acc h
    rw [List.foldl_cons]
    apply ih
    rcases selectStep_cases prefs held acc a with heq | ⟨proposer, hlk, hp, ht, heq⟩
    · rw [heq]; exact h
    · rw [heq]
      constructor
      · intro x
        simp only
        rw [occPairs_append]
        by_cases hx : (canonicalPair proposer a).1 = x ∨ (canonicalPair proposer a).2 = x
        · rw [if_pos hx]
          have hxpt : x = proposer ∨ x = a := by
            rcases canonicalPair_cases proposer a with hc | hc <;> rw [hc] at hx <;>
              dsimp only at hx
            · rcases hx with h' | h'
              · exact Or.inl h'.symm
              · exact Or.inr h'.symm
            · rcases hx with h' | h'
              · exact Or.inr h'.symm
              · exact Or.inl h'.symm
          have hold : occPairs acc.2 x = 0 := by
            by_contra hzero
            have h1 : 1 ≤ occPairs acc.2 x := Nat.one_le_iff_ne_zero.mpr hzero
            have hin := h.2 x h1
            rcases hxpt with rfl | rfl
            · exact hp hin
            · exact ht hin
          omega
        · rw [if_neg hx]
          have := h.1 x
          omega
      · intro x hocc
        simp only at hocc ⊢
        rw [occPairs_append] at hocc
        by_cases hx : (canonicalPair proposer a).1 = x ∨ (canonicalPair proposer a).2 = x
        · have hxpt : x = proposer ∨ x = a := by
            rcases canonicalPair_cases proposer a with hc | hc <;> rw [hc] at hx <;>
              dsimp only at hx
            · rcases hx with h' | h'
              · exact Or.inl h'.symm
              · exact Or.inr h'.symm
            · rcases hx with h' | h'
              · exact Or.inr h'.symm
              · exact Or.inl h'.symm
          rcases hxpt with rfl | rfl
          · exact List.mem_append.mpr (Or.inr (by simp))
          · exact List.mem_append.mpr (Or.inr (by simp))
        · rw [if_neg hx] at hocc
          have hin := h.2 x (by omega)
          exact List.mem_append.mpr (Or.inl hin)

theorem occPairs_sortPairs_le (l : List (String × String)) (x : String) :
    occPairs (sortPairs l) x ≤ occPairs l x := by
  unfold sortPairs occPairs
  rw [((List.mergeSort_perm l.dedup _).filter _).length_eq]
  exact ((List.dedup_sublist l).filter _).length_le

theorem stableGeneralMatch_occ_le_one (users : List User)
    (prefs : List (String × List String)) (x : String) :
    occPairs (stableGeneralMatch users prefs) x ≤ 1 := by
  unfold stableGeneralMatch
  refine le_trans (occPairs_sortPairs_le _ x) ?_
  refine (selectFold_occ prefs _ _ ([], []) ⟨?_, ?_⟩).1 x
  · intro y; simp [occPairs]
  · intro y hy; simp [occPairs] at hy

theorem pairMapOf_entries (pairs : List MatchCandidate) :
    ∀ kv ∈ pairMapOf pairs,
      canonicalPair kv.2.user_id kv.2.matched_user_id = kv.1 := by
  unfold pairMapOf
  suffices H : ∀ (l : List MatchCandidate) (acc : List ((String × String) × MatchCandidate)),
      (∀ kv ∈ acc, canonicalPair kv.2.user_id kv.2.matched_user_id = kv.1) →
      ∀ kv ∈ l.foldl
        (fun acc p => updAssoc acc (canonicalPair p.user_id p.matched_user_id) p) acc,
        canonicalPair kv.2.user_id kv.2.matched_user_id = kv.1 by
    exact H pairs [] (by intro kv hkv; simp at hkv)
  intro l
  induction l with
  | nil => intro acc h; exact h
  | cons p rest ih =>
    intro acc h
    rw [List.foldl_cons]
    apply ih
    intro kv hkv
    rcases updAssoc_mem hkv with hm | hm
    · exact h kv hm
    · rw [hm]

theorem pairMapOf_canon {pairs : List MatchCandidate} {key : String × String}
    {p : MatchCandidate} (h : (pairMapOf pairs).lookup key = some p) :
    canonicalPair p.user_id p.matched_user_id = key :=
  pairMapOf_entries pairs (key, p) (lookup_mem h)

theorem occCand_filterMap_le (pairs : List MatchCandidate) (minScore : ℚ)
    (chosen : List (String × String)) (x : String) :
    occCand (chosen.filterMap (fun ab =>
      match (pairMapOf pairs).lookup (canonicalPair ab.1 ab.2) with
      | none => none
      | some p => if p.score_total < minScore then none else some p)) x
      ≤ occPairs chosen x := by
  unfold occCand occPairs
  apply length_filter_filterMap_le
  intro ab _ c hsome hP
  split at hsome
  next => cases hsome
  next p hlk =>
    by_cases hs : p.score_total < minScore
    · rw [if_pos hs] at hsome; cases hsome
    · rw [if_neg hs] at hsome
      obtain rfl := Option.some.inj hsome
      have hcanon := pairMapOf_canon hlk
      rcases (canonicalPair_eq_iff ..).mp hcanon with ⟨h1, h2⟩ | ⟨h1, h2⟩
      · rcases bor_elim hP with hb | hb
        · exact bor_left (by rw [← h1]; exact hb)
        · exact bor_right (by rw [← h2]; exact hb)
      · rcases bor_elim hP with hb | hb
        · exact bor_right (by rw [← h1]; exact hb)
        · exact bor_left (by rw [← h2]; exact hb)

theorem occCand_sortAssignments (l : List MatchCandidate) (x : String) :
    occCand (sortAssignments l) x = occCand l x := by
  unfold occCand sortAssignments
  exact ((List.mergeSort_perm l _).filter _).length_eq

theorem insertRow_uid_nodup (rows : List AssignmentRow) (r : AssignmentRow)
    (h : (rows.map AssignmentRow.user_id).Nodup) :
    ((insertRowSkipConflict rows r).map AssignmentRow.user_id).Nodup := by
  unfold insertRowSkipConflict
  cases hany : rows.any (fun x => x.user_id == r.user_id) with
  | true =>
    simp only [hany, if_true, reduceIte]
    exact h
  | false =>
    simp only [hany, Bool.false_eq_true, if_false, reduceIte]
    rw [List.map_append, List.nodup_append]
    refine ⟨h, by simp, ?_⟩
    intro a ha hmem
    simp only [List.map_cons, List.map_nil, List.mem_cons, List.not_mem_nil, or_false]
      at hmem
    subst hmem
    obtain ⟨row, hrow, hrid⟩ := List.mem_map.mp ha
    have hne := List.any_eq_false.mp hany row hrow
    rw [hrid] at hne
    exact hne (beq_self_eq_true _)

theorem createWeekly_rows_nodup (assignments : List MatchCandidate)
    (unmatched : List String) :
    ((createWeeklyAssignments assignments unmatched).map AssignmentRow.user_id).Nodup := by
  unfold createWeeklyAssignments
  have base : ∀ (l : List MatchCandidate) (acc : List AssignmentRow),
      (acc.map AssignmentRow.user_id).Nodup →
      ((l.foldl (fun rows p =>
          insertRowSkipConflict
            (insertRowSkipConflict rows
              ⟨p.user_id, some p.matched_user_id, some p.score_total, "proposed"⟩)
            ⟨p.matched_user_id, some p.user_id, some p.score_total, "proposed"⟩)
        acc).map AssignmentRow.user_id).Nodup := by
    intro l
    induction l with
    | nil => intro acc h; exact h
    | cons p rest ih =>
      intro acc h
      rw [List.foldl_cons]
      exact ih _ (insertRow_uid_nodup _ _ (insertRow_uid_nodup _ _ h))
  have outer : ∀ (l : List String) (acc : List AssignmentRow),
      (acc.map AssignmentRow.user_id).Nodup →
      ((l.foldl (fun rows uid =>
          insertRowSkipConflict rows ⟨uid, none, none, "no_match"⟩) acc).map
        AssignmentRow.user_id).Nodup := by
    intro l
    induction l with
    | nil => intro acc h; exact h
    | cons uid rest ih =>
      intro acc h
      rw [List.foldl_cons]
      exact ih _ (insertRow_uid_nodup _ _ h)
  exact outer _ _ (base _ _ (by simp))

theorem occPairs_le_counts (l : List (String × String)) (x : String) :
    occPairs l x ≤ (l.map Prod.fst).count x + (l.map Prod.snd).count x := by
  induction l with
  | nil => simp [occPairs]
  | cons ab t ih =>
    unfold occPairs at ih ⊢
    rw [List.filter_cons, List.map_cons, List.map_cons, List.count_cons, List.count_cons]
    cases hb1 : ab.1 == x <;> cases hb2 : ab.2 == x <;>
      simp only [hb1, hb2, Bool.or_self, Bool.or_true, Bool.true_or, Bool.false_or,
        if_true, if_false, reduceIte, Bool.false_eq_true, List.length_cons] <;>
      omega

theorem occPairs_map_swap (l : List (String × String)) (x : String) :
    occPairs (l.map (fun p => (p.2, p.1))) x = occPairs l x := by
  unfold occPairs
  rw [List.filter_map, List.length_map]
  congr 1
  apply List.filter_congr
  intro ab _
  simp [Function.comp, Bool.or_comm]

/-- The shape facts of a bipartite pool with distinct ids, for the
engine-built preference lists. -/
theorem engineCtx (sqrtQ : ℚ → ℚ) (users : List User) (cfg : Cfg)
    (recentPairs blockedPairs : List (String × String)) (minScore : ℚ) (topK : ℕ)
    (eps : String → String → ℚ)
    (hnd : (users.map User.user_id).Nodup)
    (hbip : isBipartiteHeteroPool users = true) :
    GSCtx (menOf users) (womenOf users)
      (prefList (buildPreferenceLists users
        (buildCandidatePairs sqrtQ users cfg recentPairs blockedPairs)
        minScore topK eps)) := by
  refine ⟨menOf_nodup hnd, menOf_womenOf_disj hnd, ?_, ?_⟩
  · exact enginePrefs_men_subset sqrtQ users cfg recentPairs blockedPairs
      minScore topK eps hnd hbip
  · intro u'
    exact prefList_buildPreferenceLists_nodup users _ minScore topK eps
      (bcp_ne hnd) (fun a b => cnt_bcp_le_one hnd a b) u'

theorem stableBipartite_occ_le_one (sqrtQ : ℚ → ℚ) (users : List User) (cfg : Cfg)
    (recentPairs blockedPairs : List (String × String)) (minScore : ℚ) (topK : ℕ)
    (eps : String → String → ℚ)
    (hnd : (users.map User.user_id).Nodup)
    (hbip : isBipartiteHeteroPool users = true) (x : String) :
    occPairs (stableBipartiteMatch users (buildPreferenceLists users
      (buildCandidatePairs sqrtQ users cfg recentPairs blockedPairs)
      minScore topK eps)) x ≤ 1 := by
  set prefs := buildPreferenceLists users
    (buildCandidatePairs sqrtQ users cfg recentPairs blockedPairs)
    minScore topK eps with hprefs
  obtain ⟨t, hfree, hinvt, heq⟩ := gsRun_final prefs (menOf users) (womenOf users)
    (engineCtx sqrtQ users cfg recentPairs blockedPairs minScore topK eps hnd hbip)
    ⟨menOf users, (menOf users).map (fun m => (m, prefList prefs m)), []⟩
    (gsInv_init (menOf users) (womenOf users) (prefList prefs) (menOf_nodup hnd))
  unfold stableBipartiteMatch
  rw [heq, occPairs_map_swap]
  refine le_trans (occPairs_le_counts t.engaged x) ?_
  have hcf : (t.engaged.map Prod.fst).count x ≤ 1 :=
    List.nodup_iff_count_le_one.mp hinvt.ekeys_nodup x
  have hcs : (t.engaged.map Prod.snd).count x ≤ 1 := by
    have := hinvt.count_le x
    rw [hfree] at this
    simpa using this
  by_cases hf : (t.engaged.map Prod.fst).count x = 0
  · omega
  · have hx_mem : x ∈ t.engaged.map Prod.fst :=
      List.count_pos_iff.mp (by omega)
    obtain ⟨wm, hwm, hfst⟩ := List.mem_map.mp hx_mem
    have hxw : x ∈ womenOf users := hfst ▸ (hinvt.engaged_ok wm hwm).1
    have hxnm : x ∉ menOf users := fun hc => menOf_womenOf_disj hnd x hc hxw
    have hcs0 : (t.engaged.map Prod.snd).count x = 0 := by
      rw [List.count_eq_zero]
      intro hc
      obtain ⟨wm2, hwm2, hsnd⟩ := List.mem_map.mp hc
      exact hxnm (hsnd ▸ (hinvt.engaged_ok wm2 hwm2).2.1)
    omega

/-- C5: on a pool with distinct user ids, each user id occurs in at most
one pair of the assignment list returned by `stable_match` (over the
candidate pairs generated for that pool), and consequently
`create_weekly_assignments` writes at most one row per `user_id` for the
week, whatever the unmatched list is. -/
theorem stable_match_one_assignment_per_user
    (sqrtQ : ℚ → ℚ) (users : List User) (cfg : Cfg)
    (recentPairs blockedPairs : List (String × String)) (minScore : ℚ) (topK : ℕ)
    (mode : String) (eps : String → String → ℚ)
    (hnd : (users.map User.user_id).Nodup) :
    (∀ x, occCand (stableMatch users
        (buildCandidatePairs sqrtQ users cfg recentPairs blockedPairs)
        minScore topK mode eps) x ≤ 1)
    ∧ ∀ unmatched : List String,
      ((createWeeklyAssignments (stableMatch users
          (buildCandidatePairs sqrtQ users cfg recentPairs blockedPairs)
          minScore topK mode eps) unmatched).map AssignmentRow.user_id).Nodup := by
  constructor
  · intro x
    unfold stableMatch
    rw [occCand_sortAssignments]
    by_cases hcond : mode = "stable_bipartite_if_possible"
        ∧ isBipartiteHeteroPool users = true
    · rw [if_pos hcond]
      refine le_trans (occCand_filterMap_le _ minScore _ x) ?_
      exact stableBipartite_occ_le_one sqrtQ users cfg recentPairs blockedPairs
        minScore topK eps hnd hcond.2 x
    · rw [if_neg hcond]
      refine le_trans (occCand_filterMap_le _ minScore _ x) ?_
      exact stableGeneralMatch_occ_le_one users _ x
  · intro unmatched
    exact createWeekly_rows_nodup _ _

theorem stable_match_one_assignment_per_user_witness :
    (([⟨"m1", JVal.obj [], JVal.str "man", JVal.arr [JVal.str "woman"]⟩,
       ⟨"w1", JVal.obj [], JVal.str "woman", JVal.arr [JVal.str "man"]⟩] :
        List User).map User.user_id).Nodup
    ∧ ((∀ x, occCand (stableMatch
        [⟨"m1", JVal.obj [], JVal.str "man", JVal.arr [JVal.str "woman"]⟩,
         ⟨"w1", JVal.obj [], JVal.str "woman", JVal.arr [JVal.str "man"]⟩]
        (buildCandidatePairs (fun q => q)
          [⟨"m1", JVal.obj [], JVal.str "man", JVal.arr [JVal.str "woman"]⟩,
           ⟨"w1", JVal.obj [], JVal.str "woman", JVal.arr [JVal.str "man"]⟩]
          [] [] [])
        0 5 "stable_bipartite_if_possible" (fun _ _ => 0)) x ≤ 1)
      ∧ ∀ unmatched : List String,
        ((createWeeklyAssignments (stableMatch
            [⟨"m1", JVal.obj [], JVal.str "man", JVal.arr [JVal.str "woman"]⟩,
             ⟨"w1", JVal.obj [], JVal.str "woman", JVal.arr [JVal.str "man"]⟩]
            (buildCandidatePairs (fun q => q)
              [⟨"m1", JVal.obj [], JVal.str "man", JVal.arr [JVal.str "woman"]⟩,
               ⟨"w1", JVal.obj [], JVal.str "woman", JVal.arr [JVal.str "man"]⟩]
              [] [] [])
            0 5 "stable_bipartite_if_possible" (fun _ _ => 0)) unmatched).map
          AssignmentRow.user_id).Nodup) :=
  ⟨by decide,
    stable_match_one_assignment_per_user (fun q => q)
      [⟨"m1", JVal.obj [], JVal.str "man", JVal.arr [JVal.str "woman"]⟩,
       ⟨"w1", JVal.obj [], JVal.str "woman", JVal.arr [JVal.str "man"]⟩]
      [] [] [] 0 5 "stable_bipartite_if_possible" (fun _ _ => 0) (by decide)⟩

/-! ### Trait-computation error behaviour (`compute_traits`). -/

theorem mem_foldl_append {α β : Type} (f : α → List β) :
    ∀ (l : List α) (init : List β) (x : β),
      x ∈ l.foldl (fun acc a => acc ++ f a) init ↔ x ∈ init ∨ ∃ a ∈ l, x ∈ f a := by
  intro l
  induction l with
  | nil => intro init x; simp
  | cons a rest ih =>
    intro init x
    rw [List.foldl_cons, ih]
    simp only [List.mem_append, List.mem_cons]
    constructor
    · rintro ((h | h) | ⟨b, hb, hx⟩)
      · exact Or.inl h
      · exact Or.inr ⟨a, Or.inl rfl, h⟩
      · exact Or.inr ⟨b, Or.inr hb, hx⟩
    · rintro (h | ⟨b, (rfl | hb), hx⟩)
      · exact Or.inl (Or.inl h)
      · exact Or.inl (Or.inr hx)
      · exact Or.inr ⟨b, hb, hx⟩

theorem mem_missing_collect (surveyDef : JVal) (answers : List (String × JVal)) (x : String) :
    x ∈ (jList (jGet surveyDef "screens")).foldl
        (fun acc screen =>
          (jList (jGet screen "items")).foldl
            (fun acc2 item => acc2 ++ missingOfItem answers item) acc)
        []
      ↔ ∃ screen ∈ jList (jGet surveyDef "screens"),
          ∃ item ∈ jList (jGet screen "items"), x ∈ missingOfItem answers item := by
  have outer : ∀ (screens : List JVal) (init : List String),
      x ∈ screens.foldl
          (fun acc screen =>
            (jList (jGet screen "items")).foldl
              (fun acc2 item => acc2 ++ missingOfItem answers item) acc)
          init
        ↔ x ∈ init ∨ ∃ screen ∈ screens,
            ∃ item ∈ jList (jGet screen "items"), x ∈ missingOfItem answers item := by
    intro screens
    induction screens with
    | nil => intro init; simp
    | cons s rest ih =>
      intro init
      rw [List.foldl_cons, ih, mem_foldl_append]
      constructor
      · rintro ((h | ⟨it, hit, hx⟩) | ⟨sc, hsc, hrest⟩)
        · exact Or.inl h
        · exact Or.inr ⟨s, List.mem_cons_self _ _, it, hit, hx⟩
        · exact Or.inr ⟨sc, List.mem_cons_of_mem _ hsc, hrest⟩
      · rintro (h | ⟨sc, hsc, it, hit, hx⟩)
        · exact Or.inl (Or.inl h)
        · rcases List.mem_cons.mp hsc with rfl | hsc
          · exact Or.inl (Or.inr ⟨it, hit, hx⟩)
          · exact Or.inr ⟨sc, hsc, it, hit, hx⟩
  rw [outer]
  simp

theorem sortStrings_eq_nil_iff (l : List String) : sortStrings l = [] ↔ l = [] := by
  unfold sortStrings
  constructor
  · intro h
    have := (List.mergeSort_perm l (fun a b => a ≤ b)).length_eq
    rw [h] at this
    exact List.eq_nil_of_length_eq_zero this.symm
  · rintro rfl
    exact List.mergeSort_nil

theorem requiredMissingCodes_ne_nil_iff (surveyDef : JVal)
    (answers : List (String × JVal)) :
    requiredMissingCodes surveyDef answers ≠ []
      ↔ ∃ screen ∈ jList (jGet surveyDef "screens"),
          ∃ item ∈ jList (jGet screen "items"), missingOfItem answers item ≠ [] := by
  unfold requiredMissingCodes
  rw [ne_eq, sortStrings_eq_nil_iff, List.dedup_eq_nil]
  constructor
  · intro h
    obtain ⟨x, hx⟩ := List.exists_mem_of_ne_nil _ h
    obtain ⟨sc, hsc, it, hit, hx2⟩ := (mem_missing_collect surveyDef answers x).mp hx
    exact ⟨sc, hsc, it, hit, fun hc => by rw [hc] at hx2; cases hx2⟩
  · rintro ⟨sc, hsc, it, hit, hne⟩ hc
    obtain ⟨x, hx⟩ := List.exists_mem_of_ne_nil _ hne
    have := (mem_missing_collect surveyDef answers x).mpr ⟨sc, hsc, it, hit, hx⟩
    rw [hc] at this
    cases this

theorem missingOfItem_ne_nil_iff (answers : List (String × JVal)) (item : JVal) :
    missingOfItem answers item ≠ []
      ↔ ((jGet (pyOr (jGet item "question") (JVal.obj [])) "code").truthy = true
        ∧ (jGet (pyOr (jGet item "question") (JVal.obj [])) "is_required").truthy = true
        ∧ (jGet (pyOr (jGet item "question") (JVal.obj [])) "allow_skip").truthy = false
        ∧ ¬(jGet (pyOr (jGet item "question") (JVal.obj [])) "code" = JVal.str "KIDS_02"
            ∧ ¬(answerScalar (ansGet answers (JVal.str "KIDS_01")) = JVal.str "yes"
              ∨ answerScalar (ansGet answers (JVal.str "KIDS_01")) = JVal.str "probably"))
        ∧ (answerScalar (ansGet answers
              (jGet (pyOr (jGet item "question") (JVal.obj [])) "code")) = JVal.null
          ∨ answerScalar (ansGet answers
              (jGet (pyOr (jGet item "question") (JVal.obj [])) "code")) = JVal.str "")) := by
  unfold missingOfItem
  split_ifs with h1 h2 h3 h4 h5 <;>
    simp_all [Bool.not_eq_true', Bool.not_eq_true]

/-- C6 (amended): on a `match-core-v3` v1 survey, `compute_traits` raises
the missing-required-answers error exactly when some question is
required, not skippable, not exempted by the hard-coded `KIDS_02`
special case, and its scalar answer is absent or empty — the item-level
`visibility_rules` play no part in the check — and the error lists
exactly `_required_missing_codes`; on any other survey the legacy path
raises no such error. -/
theorem compute_traits_missing_required_characterization
    (surveyDef : JVal) (answers : List (String × JVal))
    (hslug : jGet (pyOr (jGet surveyDef "survey") (JVal.obj [])) "slug"
      = JVal.str "match-core-v3")
    (hver : intOr0 (jGet (pyOr (jGet surveyDef "survey") (JVal.obj [])) "version")
      = some 1) :
    ((∃ codes, computeTraits surveyDef answers = Except.error codes)
      ↔ ∃ screen ∈ jList (jGet surveyDef "screens"),
          ∃ item ∈ jList (jGet screen "items"),
            ((jGet (pyOr (jGet item "question") (JVal.obj [])) "code").truthy = true
            ∧ (jGet (pyOr (jGet item "question") (JVal.obj [])) "is_required").truthy = true
            ∧ (jGet (pyOr (jGet item "question") (JVal.obj [])) "allow_skip").truthy = false
            ∧ ¬(jGet (pyOr (jGet item "question") (JVal.obj [])) "code" = JVal.str "KIDS_02"
                ∧ ¬(answerScalar (ansGet answers (JVal.str "KIDS_01")) = JVal.str "yes"
                  ∨ answerScalar (ansGet answers (JVal.str "KIDS_01")) = JVal.str "probably"))
            ∧ (answerScalar (ansGet answers
                  (jGet (pyOr (jGet item "question") (JVal.obj [])) "code")) = JVal.null
              ∨ answerScalar (ansGet answers
                  (jGet (pyOr (jGet item "question") (JVal.obj [])) "code")) = JVal.str "")))
    ∧ ∀ codes, computeTraits surveyDef answers = Except.error codes →
        codes = requiredMissingCodes surveyDef answers ∧ codes ≠ [] := by
  have hstep : computeTraits surveyDef answers
      = computeTraitsMatchCoreV3 surveyDef answers := by
    unfold computeTraits
    rw [if_pos ⟨hslug, hver⟩]
  constructor
  · rw [hstep]
    unfold computeTraitsMatchCoreV3
    by_cases hm : requiredMissingCodes surveyDef answers = []
    · rw [if_pos hm]
      constructor
      · rintro ⟨codes, hc⟩
        cases hc
      · intro hex
        obtain ⟨sc, hsc, it, hit, hcond⟩ := hex
        have : missingOfItem answers it ≠ [] := (missingOfItem_ne_nil_iff answers it).mpr hcond
        exact absurd hm ((requiredMissingCodes_ne_nil_iff surveyDef answers).mpr
          ⟨sc, hsc, it, hit, this⟩)
    · rw [if_neg hm]
      constructor
      · intro _
        obtain ⟨sc, hsc, it, hit, hne⟩ :=
          (requiredMissingCodes_ne_nil_iff surveyDef answers).mp hm
        exact ⟨sc, hsc, it, hit, (missingOfItem_ne_nil_iff answers it).mp hne⟩
      · intro _
        exact ⟨requiredMissingCodes surveyDef answers, rfl⟩
  · intro codes hc
    rw [hstep] at hc
    unfold computeTraitsMatchCoreV3 at hc
    by_cases hm : requiredMissingCodes surveyDef answers = []
    · rw [if_pos hm] at hc
      cases hc
    · rw [if_neg hm] at hc
      exact ⟨(Except.error.inj hc).symm,
        fun hnil => hm ((Except.error.inj hc).trans hnil)⟩

/-- C6 counterexample: a `match-core-v3` survey whose only required
question `Q1` is hidden by a `show_if` visibility rule (its trigger `Q0`
is unanswered), with an empty answer map.  No required question is
currently visible, yet `compute_traits` raises the missing-answers error
listing `Q1` — `_required_missing_codes` ignores `visibility_rules`. -/
theorem compute_traits_ignores_visibility_rules :
    getVisibleRequiredQuestions
      (JVal.obj [("survey", JVal.obj [("slug", JVal.str "match-core-v3"),
          ("version", JVal.num 1)]),
        ("screens", JVal.arr [JVal.obj [("key", JVal.str "s1"),
          ("items", JVal.arr [
            JVal.obj [("question", JVal.obj [("code", JVal.str "Q0"),
              ("is_required", JVal.bool false)])],
            JVal.obj [("rules", JVal.arr [JVal.obj [("type", JVal.str "show_if"),
                ("trigger_question_code", JVal.str "Q0"),
                ("trigger_value", JVal.str "y"),
                ("operator", JVal.str "eq")]]),
              ("question", JVal.obj [("code", JVal.str "Q1"),
                ("is_required", JVal.bool true),
                ("allow_skip", JVal.bool false)])]])]])]) [] = []
    ∧ computeTraits
      (JVal.obj [("survey", JVal.obj [("slug", JVal.str "match-core-v3"),
          ("version", JVal.num 1)]),
        ("screens", JVal.arr [JVal.obj [("key", JVal.str "s1"),
          ("items", JVal.arr [
            JVal.obj [("question", JVal.obj [("code", JVal.str "Q0"),
              ("is_required", JVal.bool false)])],
            JVal.obj [("rules", JVal.arr [JVal.obj [("type", JVal.str "show_if"),
                ("trigger_question_code", JVal.str "Q0"),
                ("trigger_value", JVal.str "y"),
                ("operator", JVal.str "eq")]]),
              ("question", JVal.obj [("code", JVal.str "Q1"),
                ("is_required", JVal.bool true),
                ("allow_skip", JVal.bool false)])]])]])]) []
      = Except.error ["Q1"] := by
  constructor
  · rfl
  · have h : requiredMissingCodes
        (JVal.obj [("survey", JVal.obj [("slug", JVal.str "match-core-v3"),
            ("version", JVal.num 1)]),
          ("screens", JVal.arr [JVal.obj [("key", JVal.str "s1"),
            ("items", JVal.arr [
              JVal.obj [("question", JVal.obj [("code", JVal.str "Q0"),
                ("is_required", JVal.bool false)])],
              JVal.obj [("rules", JVal.arr [JVal.obj [("type", JVal.str "show_if"),
                  ("trigger_question_code", JVal.str "Q0"),
                  ("trigger_value", JVal.str "y"),
                  ("operator", JVal.str "eq")]]),
                ("question", JVal.obj [("code", JVal.str "Q1"),
                  ("is_required", JVal.bool true),
                  ("allow_skip", JVal.bool false)])]])]])]) [] = ["Q1"] := by
      show sortStrings ["Q1"] = ["Q1"]
      exact List.mergeSort_singleton _
    unfold computeTraits
    rw [if_pos ⟨rfl, rfl⟩]
    unfold computeTraitsMatchCoreV3
    rw [h]
    rw [if_neg (by simp)]

theorem compute_traits_missing_required_witness :
    (jGet (pyOr (jGet (JVal.obj [("survey", JVal.obj [("slug", JVal.str "match-core-v3"),
          ("version", JVal.num 1)]),
        ("screens", JVal.arr [JVal.obj [("key", JVal.str "s1"),
          ("items", JVal.arr [JVal.obj [("question", JVal.obj [("code", JVal.str "Q1"),
            ("is_required", JVal.bool true),
            ("allow_skip", JVal.bool false)])]])]])]) "survey") (JVal.obj [])) "slug"
        = JVal.str "match-core-v3"
      ∧ intOr0 (jGet (pyOr (jGet (JVal.obj [("survey",
          JVal.obj [("slug", JVal.str "match-core-v3"), ("version", JVal.num 1)]),
        ("screens", JVal.arr [JVal.obj [("key", JVal.str "s1"),
          ("items", JVal.arr [JVal.obj [("question", JVal.obj [("code", JVal.str "Q1"),
            ("is_required", JVal.bool true),
            ("allow_skip", JVal.bool false)])]])]])]) "survey") (JVal.obj []))
          "version") = some 1)
    ∧ (((∃ codes, computeTraits (JVal.obj [("survey",
          JVal.obj [("slug", JVal.str "match-core-v3"), ("version", JVal.num 1)]),
        ("screens", JVal.arr [JVal.obj [("key", JVal.str "s1"),
          ("items", JVal.arr [JVal.obj [("question", JVal.obj [("code", JVal.str "Q1"),
            ("is_required", JVal.bool true),
            ("allow_skip", JVal.bool false)])]])]])]) [] = Except.error codes)
      ↔ ∃ screen ∈ jList (jGet (JVal.obj [("survey",
          JVal.obj [("slug", JVal.str "match-core-v3"), ("version", JVal.num 1)]),
        ("screens", JVal.arr [JVal.obj [("key", JVal.str "s1"),
          ("items", JVal.arr [JVal.obj [("question", JVal.obj [("code", JVal.str "Q1"),
            ("is_required", JVal.bool true),
            ("allow_skip", JVal.bool false)])]])]])]) "screens"),
          ∃ item ∈ jList (jGet screen "items"),
            ((jGet (pyOr (jGet item "question") (JVal.obj [])) "code").truthy = true
            ∧ (jGet (pyOr (jGet item "question") (JVal.obj [])) "is_required").truthy = true
            ∧ (jGet (pyOr (jGet item "question") (JVal.obj [])) "allow_skip").truthy = false
            ∧ ¬(jGet (pyOr (jGet item "question") (JVal.obj [])) "code" = JVal.str "KIDS_02"
                ∧ ¬(answerScalar (ansGet [] (JVal.str "KIDS_01")) = JVal.str "yes"
                  ∨ answerScalar (ansGet [] (JVal.str "KIDS_01")) = JVal.str "probably"))
            ∧ (answerScalar (ansGet []
                  (jGet (pyOr (jGet item "question") (JVal.obj [])) "code")) = JVal.null
              ∨ answerScalar (ansGet []
                  (jGet (pyOr (jGet item "question") (JVal.obj [])) "code")) = JVal.str "")))
    ∧ ∀ codes, computeTraits (JVal.obj [("survey",
          JVal.obj [("slug", JVal.str "match-core-v3"), ("version", JVal.num 1)]),
        ("screens", JVal.arr [JVal.obj [("key", JVal.str "s1"),
          ("items", JVal.arr [JVal.obj [("question", JVal.obj [("code", JVal.str "Q1"),
            ("is_required", JVal.bool true),
            ("allow_skip", JVal.bool false)])]])]])]) [] = Except.error codes →
        codes = requiredMissingCodes (JVal.obj [("survey",
          JVal.obj [("slug", JVal.str "match-core-v3"), ("version", JVal.num 1)]),
        ("screens", JVal.arr [JVal.obj [("key", JVal.str "s1"),
          ("items", JVal.arr [JVal.obj [("question", JVal.obj [("code", JVal.str "Q1"),
            ("is_required", JVal.bool true),
            ("allow_skip", JVal.bool false)])]])]])]) [] ∧ codes ≠ []) :=
  ⟨⟨rfl, rfl⟩,
    compute_traits_missing_required_characterization
      (JVal.obj [("survey",
          JVal.obj [("slug", JVal.str "match-core-v3"), ("version", JVal.num 1)]),
        ("screens", JVal.arr [JVal.obj [("key", JVal.str "s1"),
          ("items", JVal.arr [JVal.obj [("question", JVal.obj [("code", JVal.str "Q1"),
            ("is_required", JVal.bool true),
            ("allow_skip", JVal.bool false)])]])]])]) [] rfl rfl⟩

/-! ### Reconciliation idempotence. -/

theorem reconKeyMatch_self (r : ReconRow) : reconKeyMatch r r = true := by
  simp [reconKeyMatch]

theorem upsertRecon_idem (t : List ReconRow) (r : ReconRow) :
    upsertRecon (upsertRecon t r) r = upsertRecon t r := by
  unfold upsertRecon
  by_cases h : t.any (fun x => reconKeyMatch x r) = true
  · rw [if_pos h]
    have hmapany : (t.map (fun x => if reconKeyMatch x r then r else x)).any
        (fun x => reconKeyMatch x r) = true := by
      rw [List.any_eq_true] at h ⊢
      obtain ⟨x, hx, hk⟩ := h
      exact ⟨r, List.mem_map.mpr ⟨x, hx, by rw [if_pos hk]⟩, reconKeyMatch_self r⟩
    rw [if_pos hmapany, List.map_map]
    apply List.map_congr_left
    intro x _
    simp only [Function.comp]
    by_cases hk : reconKeyMatch x r = true
    · rw [if_pos hk, if_pos (reconKeyMatch_self r)]
    · rw [if_neg hk, if_neg hk]
  · rw [if_neg h]
    have happ : (t ++ [r]).any (fun x => reconKeyMatch x r) = true := by
      rw [List.any_eq_true]
      exact ⟨r, List.mem_append.mpr (Or.inr (by simp)), reconKeyMatch_self r⟩
    rw [if_pos happ, List.map_append]
    have hfalse : ∀ x ∈ t, reconKeyMatch x r = false := by
      intro x hx
      have := List.any_eq_false.mp (Bool.eq_false_iff.mpr h) x hx
      exact Bool.eq_false_iff.mpr this
    congr 1
    · have : ∀ x ∈ t, (if reconKeyMatch x r then r else x) = id x := by
        intro x hx
        rw [if_neg (by rw [hfalse x hx]; exact Bool.false_ne_true)]
        rfl
      rw [List.map_congr_left this, List.map_id]
    · simp [reconKeyMatch_self r]

/-- C7: reconciliation is idempotent.  A run only writes the
reconciliation row; the inputs it reads (latest session, stored
definitions, active runtime) are untouched, so a second run computes the
same `missing_question_ids`, `needs_retake` and `answers_current`, and
its keyed upsert rewrites the same row with the same payload, leaving
the database unchanged. -/
theorem reconcile_idempotent (userId : String) (tenantId : Option String)
    (currentSlug : String) (currentHash : JVal)
    (currentQ : List (String × QIndexEntry)) (requiredIds : List String)
    (db : ReconDB) :
    (reconcile userId tenantId currentSlug currentHash currentQ requiredIds
      (reconcile userId tenantId currentSlug currentHash currentQ requiredIds db).2).1
      = (reconcile userId tenantId currentSlug currentHash currentQ requiredIds db).1
    ∧ (reconcile userId tenantId currentSlug currentHash currentQ requiredIds
      (reconcile userId tenantId currentSlug currentHash currentQ requiredIds db).2).2
      = (reconcile userId tenantId currentSlug currentHash currentQ requiredIds db).2 := by
  constructor
  · rfl
  · show ReconDB.mk db.latest db.definitions
      (upsertRecon (upsertRecon db.recon (reconRowOf userId tenantId currentSlug
          currentHash (reconcileCore currentHash currentQ requiredIds db.latest
            db.definitions)))
        (reconRowOf userId tenantId currentSlug currentHash
          (reconcileCore currentHash currentQ requiredIds db.latest db.definitions)))
      = ReconDB.mk db.latest db.definitions
        (upsertRecon db.recon (reconRowOf userId tenantId currentSlug currentHash
          (reconcileCore currentHash currentQ requiredIds db.latest db.definitions)))
    rw [upsertRecon_idem]

/-! ### Cosmetic screen reorder: semantic hashes and carry-forward. -/

theorem updAssoc_append_of_not_mem {κ α : Type} [BEq κ] [LawfulBEq κ]
    (l : List (κ × α)) (k : κ) (v : α) (h : k ∉ l.map Prod.fst) :
    updAssoc l k v = l ++ [(k, v)] := by
  induction l with
  | nil => rfl
  | cons hd t ih =>
    obtain ⟨k0, v0⟩ := hd
    simp only [List.map_cons, List.mem_cons] at h
    push_neg at h
    have hk : (k0 == k) = false := beq_eq_false_iff_ne.mpr (fun hc => h.1 hc.symm)
    simp only [updAssoc, hk, Bool.false_eq_true, if_false, reduceIte, List.cons_append]
    rw [ih h.2]

theorem foldl_updAssoc_eq_append {κ α : Type} [BEq κ] [LawfulBEq κ] :
    ∀ (l : List (κ × α)) (acc : List (κ × α)),
      (∀ k ∈ l.map Prod.fst, k ∉ acc.map Prod.fst) → (l.map Prod.fst).Nodup →
      l.foldl (fun a p => updAssoc a p.1 p.2) acc = acc ++ l := by
  intro l
  induction l with
  | nil => intro acc _ _; simp
  | cons p rest ih =>
    intro acc hdisj hnd
    simp only [List.map_cons, List.nodup_cons] at hnd
    rw [List.foldl_cons,
      updAssoc_append_of_not_mem acc p.1 p.2
        (hdisj p.1 (by simp)),
      ih (acc ++ [p]) ?_ hnd.2]
    · simp
    · intro k hk
      rw [List.map_append, List.mem_append]
      push_neg
      refine ⟨hdisj k (by simp [hk]), ?_⟩
      simp only [List.map_cons, List.map_nil, List.mem_cons, List.not_mem_nil, or_false]
      intro hc
      exact hnd.1 (hc ▸ hk)

theorem buildQuestionIndex_eq_entries (surveyDef : JVal)
    (hnd : ((indexEntriesOf (jGet surveyDef "option_sets")
      (jList (jGet surveyDef "screens"))).map Prod.fst).Nodup) :
    buildQuestionIndex surveyDef
      = indexEntriesOf (jGet surveyDef "option_sets") (jList (jGet surveyDef "screens")) := by
  unfold buildQuestionIndex
  rw [foldl_updAssoc_eq_append _ [] (by simp) hnd]
  rfl

theorem lookup_perm_of_nodup {κ α : Type} [BEq κ] [LawfulBEq κ]
    {t₁ t₂ : List (κ × α)} (h : List.Perm t₁ t₂) (hnd : (t₂.map Prod.fst).Nodup)
    (k : κ) : t₁.lookup k = t₂.lookup k := by
  have hnd1 : (t₁.map Prod.fst).Nodup := ((h.map Prod.fst).nodup_iff).mpr hnd
  cases h2 : t₂.lookup k with
  | some v =>
    have hmem : (k, v) ∈ t₁ := h.mem_iff.mpr (lookup_mem h2)
    exact lookup_eq_of_mem_nodup hnd1 hmem
  | none =>
    apply lookup_eq_none_of_not_mem_keys
    intro hc
    obtain ⟨v, hv⟩ := lookup_some_of_mem_keys hc
    have := lookup_eq_of_mem_nodup hnd (h.mem_iff.mp (lookup_mem hv))
    rw [h2] at this
    cases this

theorem foldl_append_eq_flatten {α β : Type} (f : α → List β) :
    ∀ (l : List α) (acc : List β),
      l.foldl (fun a x => a ++ f x) acc = acc ++ (l.map f).flatten := by
  intro l
  induction l with
  | nil => intro acc; simp
  | cons x rest ih =>
    intro acc
    rw [List.foldl_cons, ih]
    simp

theorem indexEntriesOf_perm (optionSets : JVal) {s₁ s₂ : List JVal}
    (h : List.Perm s₁ s₂) :
    List.Perm (indexEntriesOf optionSets s₁) (indexEntriesOf optionSets s₂) := by
  unfold indexEntriesOf
  rw [foldl_append_eq_flatten, foldl_append_eq_flatten]
  simp only [List.nil_append]
  exact (h.map _).flatten

theorem reconLoop_spec (answersOld : List (String × JVal))
    (oldQ : List (String × QIndexEntry)) (oldHash currentHash : JVal) :
    ∀ (qlist : List (String × QIndexEntry)),
      (qlist.map Prod.fst).Nodup →
      (∀ p ∈ qlist,
        ((answersOld.map Prod.fst).contains p.1 = true →
          ∃ om, oldQ.lookup p.1 = some om
            ∧ pyOr om.question_hash (JVal.str "") = pyOr p.2.question_hash (JVal.str ""))
        ∧ (p.2.is_required = true → (answersOld.map Prod.fst).contains p.1 = true)) →
      ∀ st : RState,
      (qlist.foldl (reconStep answersOld oldQ oldHash currentHash) st).missing = st.missing
      ∧ (∀ p ∈ qlist, (answersOld.map Prod.fst).contains p.1 = true →
          (qlist.foldl (reconStep answersOld oldQ oldHash currentHash) st).answers_current.lookup p.1
            = some ((answersOld.lookup p.1).getD JVal.null))
      ∧ (∀ k, k ∉ qlist.map Prod.fst →
          (qlist.foldl (reconStep answersOld oldQ oldHash currentHash) st).answers_current.lookup k
            = st.answers_current.lookup k) := by
  intro qlist
  induction qlist with
  | nil =>
    intro _ _ st
    exact ⟨rfl, by intro p hp; simp at hp, fun k _ => rfl⟩
  | cons p rest ih =>
    intro hnd hcond st
    simp only [List.map_cons, List.nodup_cons] at hnd
    have hp := hcond p (List.mem_cons_self _ _)
    have hrest := fun q hq => hcond q (List.mem_cons_of_mem _ hq)
    rw [List.foldl_cons]
    have hcarry : (answersOld.map Prod.fst).contains p.1 = true →
        reconStep answersOld oldQ oldHash currentHash st p
          = ⟨updAssoc st.answers_current p.1 ((answersOld.lookup p.1).getD JVal.null),
             st.missing⟩ := by
      intro hc
      obtain ⟨om, hom, hhash⟩ := hp.1 hc
      unfold reconStep
      rw [if_pos hc]
      split
      next om' hlk =>
        obtain h' : om' = om := Option.some.inj (hlk.symm.trans hom)
        rw [h', if_pos (beq_iff_eq.mpr hhash)]
      next hlk =>
        rw [hom] at hlk
        cases hlk
    have hsame : (answersOld.map Prod.fst).contains p.1 = false →
        reconStep answersOld oldQ oldHash currentHash st p = st := by
      intro hc
      have hr : p.2.is_required = false := by
        cases hreq : p.2.is_required with
        | true => rw [hp.2 hreq] at hc; cases hc
        | false => rfl
      unfold reconStep
      rw [if_neg (by rw [hc]; exact Bool.false_ne_true),
        if_neg (by rw [hr]; exact Bool.false_ne_true)]
    obtain ⟨ihm, ihb, ihc⟩ := ih hnd.2 hrest (reconStep answersOld oldQ oldHash currentHash st p)
    have hstepm : (reconStep answersOld oldQ oldHash currentHash st p).missing = st.missing := by
      cases hc : (answersOld.map Prod.fst).contains p.1 with
      | true => rw [hcarry hc]
      | false => rw [hsame hc]
    refine ⟨by rw [ihm, hstepm], ?_, ?_⟩
    · intro q hq hcq
      rcases List.mem_cons.mp hq with rfl | hq
      · rw [ihc q.1 hnd.1, hcarry hcq]
        exact (lookup_updAssoc st.answers_current q.1 q.1 _).trans
          (by rw [if_pos (beq_self_eq_true _)])
      · exact ihb q hq hcq
    · intro k hk
      simp only [List.map_cons, List.mem_cons] at hk
      push_neg at hk
      rw [ihc k hk.2]
      cases hc : (answersOld.map Prod.fst).contains p.1 with
      | true =>
        rw [hcarry hc]
        show (updAssoc st.answers_current p.1 _).lookup k = _
        rw [lookup_updAssoc,
          if_neg (by rw [beq_eq_false_iff_ne.mpr hk.1]; exact Bool.false_ne_true)]
      | false => rw [hsame hc]

theorem reconcileCore_resolved (currentHash : JVal)
    (currentQ : List (String × QIndexEntry)) (requiredIds : List String)
    (s : SessionRow) (defs : List DefRow) (d : DefRow) (h : JVal)
    (hres : resolveOldDef (some s) defs = (some d, h)) :
    reconcileCore currentHash currentQ requiredIds (some s) defs
      = ReconResult.mk
          (currentQ.foldl
            (reconStep s.answers (buildQuestionIndex (defJson d)) h currentHash)
            ⟨[], []⟩).answers_current
          (sortStrings ((currentQ.foldl
            (reconStep s.answers (buildQuestionIndex (defJson d)) h currentHash)
            ⟨[], []⟩).missing).dedup)
          (!((currentQ.foldl
            (reconStep s.answers (buildQuestionIndex (defJson d)) h currentHash)
            ⟨[], []⟩).missing).isEmpty)
          (pyOr h JVal.null)
          s.survey_version := by
  unfold reconcileCore
  rw [hres]

/-- C8: a revision that only reorders the screens (identical screen
dicts, same option sets, distinct question codes) keeps every question's
semantic hash, so reconciliation against the user's complete previous
session carries forward every prior answer and returns
`needs_retake == False`. -/
theorem reconcile_cosmetic_reorder_carries_all
    (userId : String) (tenantId : Option String) (slug : String)
    (dOld dNew : JVal) (session : SessionRow) (db : ReconDB) (dr : DefRow)
    (requiredIds : List String) (currentHash : JVal)
    (hlat : db.latest = some session)
    (hfound : (defsByHash db.definitions).lookup (pyOr session.survey_hash (JVal.str ""))
        = some dr)
    (hdef : defJson dr = dOld)
    (hperm : List.Perm (jList (jGet dNew "screens")) (jList (jGet dOld "screens")))
    (hopts : jGet dNew "option_sets" = jGet dOld "option_sets")
    (hnd : ((indexEntriesOf (jGet dNew "option_sets")
        (jList (jGet dNew "screens"))).map Prod.fst).Nodup)
    (hkeys : ∀ k ∈ session.answers.map Prod.fst,
        k ∈ (buildQuestionIndex dNew).map Prod.fst)
    (hreq : ∀ p ∈ buildQuestionIndex dNew, p.2.is_required = true →
        (session.answers.map Prod.fst).contains p.1 = true) :
    (reconcile userId tenantId slug currentHash (buildQuestionIndex dNew)
      requiredIds db).1.missing = []
    ∧ (reconcile userId tenantId slug currentHash (buildQuestionIndex dNew)
      requiredIds db).1.needs_retake = false
    ∧ ∀ k ∈ session.answers.map Prod.fst,
        ((reconcile userId tenantId slug currentHash (buildQuestionIndex dNew)
          requiredIds db).1.answers_current).lookup k
          = some ((session.answers.lookup k).getD JVal.null) := by
  have hBnew : buildQuestionIndex dNew
      = indexEntriesOf (jGet dNew "option_sets") (jList (jGet dNew "screens")) :=
    buildQuestionIndex_eq_entries dNew hnd
  have hpermE : List.Perm
      (indexEntriesOf (jGet dNew "option_sets") (jList (jGet dNew "screens")))
      (indexEntriesOf (jGet dOld "option_sets") (jList (jGet dOld "screens"))) := by
    rw [hopts]
    exact indexEntriesOf_perm _ hperm
  have hndOld : ((indexEntriesOf (jGet dOld "option_sets")
      (jList (jGet dOld "screens"))).map Prod.fst).Nodup :=
    ((hpermE.map Prod.fst).nodup_iff).mp hnd
  have hBold : buildQuestionIndex dOld
      = indexEntriesOf (jGet dOld "option_sets") (jList (jGet dOld "screens")) :=
    buildQuestionIndex_eq_entries dOld hndOld
  have hqnd : ((buildQuestionIndex dNew).map Prod.fst).Nodup := by
    rw [hBnew]
    exact hnd
  have hlkeq : ∀ k, (buildQuestionIndex dNew).lookup k
      = (buildQuestionIndex dOld).lookup k := by
    intro k
    rw [hBnew, hBold]
    exact lookup_perm_of_nodup hpermE hndOld k
  have hres : resolveOldDef (some session) db.definitions
      = (some dr, pyOr session.survey_hash (JVal.str "")) := by
    unfold resolveOldDef
    have h1 : resolveStep1 (some session) db.definitions
        = (some dr, pyOr session.survey_hash (JVal.str "")) := by
      show ((defsByHash db.definitions).lookup (pyOr session.survey_hash (JVal.str "")),
        pyOr session.survey_hash (JVal.str "")) = _
      rw [hfound]
    rw [h1]
    rfl
  have hcond : ∀ p ∈ buildQuestionIndex dNew,
      ((session.answers.map Prod.fst).contains p.1 = true →
        ∃ om, (buildQuestionIndex dOld).lookup p.1 = some om
          ∧ pyOr om.question_hash (JVal.str "") = pyOr p.2.question_hash (JVal.str ""))
      ∧ (p.2.is_required = true → (session.answers.map Prod.fst).contains p.1 = true) := by
    intro p hp
    refine ⟨?_, hreq p hp⟩
    intro _
    refine ⟨p.2, ?_, rfl⟩
    rw [← hlkeq p.1]
    exact lookup_eq_of_mem_nodup hqnd hp
  obtain ⟨hm, hb, _⟩ := reconLoop_spec session.answers (buildQuestionIndex dOld)
    (pyOr session.survey_hash (JVal.str "")) currentHash
    (buildQuestionIndex dNew) hqnd hcond ⟨[], []⟩
  have hfirst : (reconcile userId tenantId slug currentHash (buildQuestionIndex dNew)
      requiredIds db).1
      = reconcileCore currentHash (buildQuestionIndex dNew) requiredIds
        (some session) db.definitions := by
    show reconcileCore currentHash (buildQuestionIndex dNew) requiredIds
      db.latest db.definitions = _
    rw [hlat]
  have hcore := reconcileCore_resolved currentHash (buildQuestionIndex dNew)
    requiredIds session db.definitions dr (pyOr session.survey_hash (JVal.str "")) hres
  rw [hdef] at hcore
  refine ⟨?_, ?_, ?_⟩
  · rw [hfirst, hcore, hm]
    exact List.mergeSort_nil
  · rw [hfirst, hcore, hm]
    rfl
  · intro k hk
    obtain ⟨p, hpmem, hpk⟩ := List.mem_map.mp (hkeys k hk)
    rw [hfirst, hcore, ← hpk]
    exact hb p hpmem (by rw [hpk]; exact List.elem_eq_true_of_mem hk)

theorem reconcile_cosmetic_reorder_witness :
    ((ReconDB.mk (some (SessionRow.mk (JVal.num 1) (JVal.str "h1") [("QA", JVal.str "x"), ("QB", JVal.str "y")])) [(DefRow.mk (JVal.num 1) (JVal.obj [("option_sets", JVal.obj []), ("screens", JVal.arr [(JVal.obj [("key", JVal.str "a"), ("items", JVal.arr [(JVal.obj [("question", JVal.obj [("code", JVal.str "QA"), ("is_required", JVal.bool true)])])])]), (JVal.obj [("key", JVal.str "b"), ("items", JVal.arr [(JVal.obj [("question", JVal.obj [("code", JVal.str "QB"), ("is_required", JVal.bool true)])])])])])]) (JVal.str "h1"))] []).latest = some (SessionRow.mk (JVal.num 1) (JVal.str "h1") [("QA", JVal.str "x"), ("QB", JVal.str "y")]))
    ∧ (defsByHash (ReconDB.mk (some (SessionRow.mk (JVal.num 1) (JVal.str "h1") [("QA", JVal.str "x"), ("QB", JVal.str "y")])) [(DefRow.mk (JVal.num 1) (JVal.obj [("option_sets", JVal.obj []), ("screens", JVal.arr [(JVal.obj [("key", JVal.str "a"), ("items", JVal.arr [(JVal.obj [("question", JVal.obj [("code", JVal.str "QA"), ("is_required", JVal.bool true)])])])]), (JVal.obj [("key", JVal.str "b"), ("items", JVal.arr [(JVal.obj [("question", JVal.obj [("code", JVal.str "QB"), ("is_required", JVal.bool true)])])])])])]) (JVal.str "h1"))] []).definitions).lookup (pyOr (SessionRow.mk (JVal.num 1) (JVal.str "h1") [("QA", JVal.str "x"), ("QB", JVal.str "y")]).survey_hash (JVal.str ""))
        = some (DefRow.mk (JVal.num 1) (JVal.obj [("option_sets", JVal.obj []), ("screens", JVal.arr [(JVal.obj [("key", JVal.str "a"), ("items", JVal.arr [(JVal.obj [("question", JVal.obj [("code", JVal.str "QA"), ("is_required", JVal.bool true)])])])]), (JVal.obj [("key", JVal.str "b"), ("items", JVal.arr [(JVal.obj [("question", JVal.obj [("code", JVal.str "QB"), ("is_required", JVal.bool true)])])])])])]) (JVal.str "h1"))
    ∧ defJson (DefRow.mk (JVal.num 1) (JVal.obj [("option_sets", JVal.obj []), ("screens", JVal.arr [(JVal.obj [("key", JVal.str "a"), ("items", JVal.arr [(JVal.obj [("question", JVal.obj [("code", JVal.str "QA"), ("is_required", JVal.bool true)])])])]), (JVal.obj [("key", JVal.str "b"), ("items", JVal.arr [(JVal.obj [("question", JVal.obj [("code", JVal.str "QB"), ("is_required", JVal.bool true)])])])])])]) (JVal.str "h1")) = (JVal.obj [("option_sets", JVal.obj []), ("screens", JVal.arr [(JVal.obj [("key", JVal.str "a"), ("items", JVal.arr [(JVal.obj [("question", JVal.obj [("code", JVal.str "QA"), ("is_required", JVal.bool true)])])])]), (JVal.obj [("key", JVal.str "b"), ("items", JVal.arr [(JVal.obj [("question", JVal.obj [("code", JVal.str "QB"), ("is_required", JVal.bool true)])])])])])])
    ∧ List.Perm (jList (jGet (JVal.obj [("option_sets", JVal.obj []), ("screens", JVal.arr [(JVal.obj [("key", JVal.str "b"), ("items", JVal.arr [(JVal.obj [("question", JVal.obj [("code", JVal.str "QB"), ("is_required", JVal.bool true)])])])]), (JVal.obj [("key", JVal.str "a"), ("items", JVal.arr [(JVal.obj [("question", JVal.obj [("code", JVal.str "QA"), ("is_required", JVal.bool true)])])])])])]) "screens")) (jList (jGet (JVal.obj [("option_sets", JVal.obj []), ("screens", JVal.arr [(JVal.obj [("key", JVal.str "a"), ("items", JVal.arr [(JVal.obj [("question", JVal.obj [("code", JVal.str "QA"), ("is_required", JVal.bool true)])])])]), (JVal.obj [("key", JVal.str "b"), ("items", JVal.arr [(JVal.obj [("question", JVal.obj [("code", JVal.str "QB"), ("is_required", JVal.bool true)])])])])])]) "screens"))
    ∧ jGet (JVal.obj [("option_sets", JVal.obj []), ("screens", JVal.arr [(JVal.obj [("key", JVal.str "b"), ("items", JVal.arr [(JVal.obj [("question", JVal.obj [("code", JVal.str "QB"), ("is_required", JVal.bool true)])])])]), (JVal.obj [("key", JVal.str "a"), ("items", JVal.arr [(JVal.obj [("question", JVal.obj [("code", JVal.str "QA"), ("is_required", JVal.bool true)])])])])])]) "option_sets" = jGet (JVal.obj [("option_sets", JVal.obj []), ("screens", JVal.arr [(JVal.obj [("key", JVal.str "a"), ("items", JVal.arr [(JVal.obj [("question", JVal.obj [("code", JVal.str "QA"), ("is_required", JVal.bool true)])])])]), (JVal.obj [("key", JVal.str "b"), ("items", JVal.arr [(JVal.obj [("question", JVal.obj [("code", JVal.str "QB"), ("is_required", JVal.bool true)])])])])])]) "option_sets"
    ∧ ((indexEntriesOf (jGet (JVal.obj [("option_sets", JVal.obj []), ("screens", JVal.arr [(JVal.obj [("key", JVal.str "b"), ("items", JVal.arr [(JVal.obj [("question", JVal.obj [("code", JVal.str "QB"), ("is_required", JVal.bool true)])])])]), (JVal.obj [("key", JVal.str "a"), ("items", JVal.arr [(JVal.obj [("question", JVal.obj [("code", JVal.str "QA"), ("is_required", JVal.bool true)])])])])])]) "option_sets")
        (jList (jGet (JVal.obj [("option_sets", JVal.obj []), ("screens", JVal.arr [(JVal.obj [("key", JVal.str "b"), ("items", JVal.arr [(JVal.obj [("question", JVal.obj [("code", JVal.str "QB"), ("is_required", JVal.bool true)])])])]), (JVal.obj [("key", JVal.str "a"), ("items", JVal.arr [(JVal.obj [("question", JVal.obj [("code", JVal.str "QA"), ("is_required", JVal.bool true)])])])])])]) "screens"))).map Prod.fst).Nodup
    ∧ (∀ k ∈ (SessionRow.mk (JVal.num 1) (JVal.str "h1") [("QA", JVal.str "x"), ("QB", JVal.str "y")]).answers.map Prod.fst,
        k ∈ (buildQuestionIndex (JVal.obj [("option_sets", JVal.obj []), ("screens", JVal.arr [(JVal.obj [("key", JVal.str "b"), ("items", JVal.arr [(JVal.obj [("question", JVal.obj [("code", JVal.str "QB"), ("is_required", JVal.bool true)])])])]), (JVal.obj [("key", JVal.str "a"), ("items", JVal.arr [(JVal.obj [("question", JVal.obj [("code", JVal.str "QA"), ("is_required", JVal.bool true)])])])])])])).map Prod.fst)
    ∧ (∀ p ∈ buildQuestionIndex (JVal.obj [("option_sets", JVal.obj []), ("screens", JVal.arr [(JVal.obj [("key", JVal.str "b"), ("items", JVal.arr [(JVal.obj [("question", JVal.obj [("code", JVal.str "QB"), ("is_required", JVal.bool true)])])])]), (JVal.obj [("key", JVal.str "a"), ("items", JVal.arr [(JVal.obj [("question", JVal.obj [("code", JVal.str "QA"), ("is_required", JVal.bool true)])])])])])]), p.2.is_required = true →
        ((SessionRow.mk (JVal.num 1) (JVal.str "h1") [("QA", JVal.str "x"), ("QB", JVal.str "y")]).answers.map Prod.fst).contains p.1 = true)
    ∧ ((reconcile "u1" none "match-core-v3" (JVal.str "h2") (buildQuestionIndex (JVal.obj [("option_sets", JVal.obj []), ("screens", JVal.arr [(JVal.obj [("key", JVal.str "b"), ("items", JVal.arr [(JVal.obj [("question", JVal.obj [("code", JVal.str "QB"), ("is_required", JVal.bool true)])])])]), (JVal.obj [("key", JVal.str "a"), ("items", JVal.arr [(JVal.obj [("question", JVal.obj [("code", JVal.str "QA"), ("is_required", JVal.bool true)])])])])])])) ["QA", "QB"] (ReconDB.mk (some (SessionRow.mk (JVal.num 1) (JVal.str "h1") [("QA", JVal.str "x"), ("QB", JVal.str "y")])) [(DefRow.mk (JVal.num 1) (JVal.obj [("option_sets", JVal.obj []), ("screens", JVal.arr [(JVal.obj [("key", JVal.str "a"), ("items", JVal.arr [(JVal.obj [("question", JVal.obj [("code", JVal.str "QA"), ("is_required", JVal.bool true)])])])]), (JVal.obj [("key", JVal.str "b"), ("items", JVal.arr [(JVal.obj [("question", JVal.obj [("code", JVal.str "QB"), ("is_required", JVal.bool true)])])])])])]) (JVal.str "h1"))] [])).1.missing = []
      ∧ (reconcile "u1" none "match-core-v3" (JVal.str "h2") (buildQuestionIndex (JVal.obj [("option_sets", JVal.obj []), ("screens", JVal.arr [(JVal.obj [("key", JVal.str "b"), ("items", JVal.arr [(JVal.obj [("question", JVal.obj [("code", JVal.str "QB"), ("is_required", JVal.bool true)])])])]), (JVal.obj [("key", JVal.str "a"), ("items", JVal.arr [(JVal.obj [("question", JVal.obj [("code", JVal.str "QA"), ("is_required", JVal.bool true)])])])])])])) ["QA", "QB"] (ReconDB.mk (some (SessionRow.mk (JVal.num 1) (JVal.str "h1") [("QA", JVal.str "x"), ("QB", JVal.str "y")])) [(DefRow.mk (JVal.num 1) (JVal.obj [("option_sets", JVal.obj []), ("screens", JVal.arr [(JVal.obj [("key", JVal.str "a"), ("items", JVal.arr [(JVal.obj [("question", JVal.obj [("code", JVal.str "QA"), ("is_required", JVal.bool true)])])])]), (JVal.obj [("key", JVal.str "b"), ("items", JVal.arr [(JVal.obj [("question", JVal.obj [("code", JVal.str "QB"), ("is_required", JVal.bool true)])])])])])]) (JVal.str "h1"))] [])).1.needs_retake = false
      ∧ ∀ k ∈ (SessionRow.mk (JVal.num 1) (JVal.str "h1") [("QA", JVal.str "x"), ("QB", JVal.str "y")]).answers.map Prod.fst,
          ((reconcile "u1" none "match-core-v3" (JVal.str "h2") (buildQuestionIndex (JVal.obj [("option_sets", JVal.obj []), ("screens", JVal.arr [(JVal.obj [("key", JVal.str "b"), ("items", JVal.arr [(JVal.obj [("question", JVal.obj [("code", JVal.str "QB"), ("is_required", JVal.bool true)])])])]), (JVal.obj [("key", JVal.str "a"), ("items", JVal.arr [(JVal.obj [("question", JVal.obj [("code", JVal.str "QA"), ("is_required", JVal.bool true)])])])])])])) ["QA", "QB"] (ReconDB.mk (some (SessionRow.mk (JVal.num 1) (JVal.str "h1") [("QA", JVal.str "x"), ("QB", JVal.str "y")])) [(DefRow.mk (JVal.num 1) (JVal.obj [("option_sets", JVal.obj []), ("screens", JVal.arr [(JVal.obj [("key", JVal.str "a"), ("items", JVal.arr [(JVal.obj [("question", JVal.obj [("code", JVal.str "QA"), ("is_required", JVal.bool true)])])])]), (JVal.obj [("key", JVal.str "b"), ("items", JVal.arr [(JVal.obj [("question", JVal.obj [("code", JVal.str "QB"), ("is_required", JVal.bool true)])])])])])]) (JVal.str "h1"))] [])).1.answers_current).lookup k
            = some (((SessionRow.mk (JVal.num 1) (JVal.str "h1") [("QA", JVal.str "x"), ("QB", JVal.str "y")]).answers.lookup k).getD JVal.null)) :=
  ⟨rfl, rfl, rfl, by decide, rfl, by decide, by decide, by decide,
    reconcile_cosmetic_reorder_carries_all "u1" none "match-core-v3"
      (JVal.obj [("option_sets", JVal.obj []), ("screens", JVal.arr [(JVal.obj [("key", JVal.str "a"), ("items", JVal.arr [(JVal.obj [("question", JVal.obj [("code", JVal.str "QA"), ("is_required", JVal.bool true)])])])]), (JVal.obj [("key", JVal.str "b"), ("items", JVal.arr [(JVal.obj [("question", JVal.obj [("code", JVal.str "QB"), ("is_required", JVal.bool true)])])])])])]) (JVal.obj [("option_sets", JVal.obj []), ("screens", JVal.arr [(JVal.obj [("key", JVal.str "b"), ("items", JVal.arr [(JVal.obj [("question", JVal.obj [("code", JVal.str "QB"), ("is_required", JVal.bool true)])])])]), (JVal.obj [("key", JVal.str "a"), ("items", JVal.arr [(JVal.obj [("question", JVal.obj [("code", JVal.str "QA"), ("is_required", JVal.bool true)])])])])])]) (SessionRow.mk (JVal.num 1) (JVal.str "h1") [("QA", JVal.str "x"), ("QB", JVal.str "y")]) (ReconDB.mk (some (SessionRow.mk (JVal.num 1) (JVal.str "h1") [("QA", JVal.str "x"), ("QB", JVal.str "y")])) [(DefRow.mk (JVal.num 1) (JVal.obj [("option_sets", JVal.obj []), ("screens", JVal.arr [(JVal.obj [("key", JVal.str "a"), ("items", JVal.arr [(JVal.obj [("question", JVal.obj [("code", JVal.str "QA"), ("is_required", JVal.bool true)])])])]), (JVal.obj [("key", JVal.str "b"), ("items", JVal.arr [(JVal.obj [("question", JVal.obj [("code", JVal.str "QB"), ("is_required", JVal.bool true)])])])])])]) (JVal.str "h1"))] []) (DefRow.mk (JVal.num 1) (JVal.obj [("option_sets", JVal.obj []), ("screens", JVal.arr [(JVal.obj [("key", JVal.str "a"), ("items", JVal.arr [(JVal.obj [("question", JVal.obj [("code", JVal.str "QA"), ("is_required", JVal.bool true)])])])]), (JVal.obj [("key", JVal.str "b"), ("items", JVal.arr [(JVal.obj [("question", JVal.obj [("code", JVal.str "QB"), ("is_required", JVal.bool true)])])])])])]) (JVal.str "h1")) ["QA", "QB"] (JVal.str "h2")
      rfl rfl rfl (by decide) rfl (by decide) (by decide) (by decide)⟩

end CbsMatch
